import Mathlib

/-!
# MT7530 / MT7620 switch driver: shallow embedding and verified properties

Source: `target/linux/ramips/files/drivers/net/ethernet/ralink/mt7530.c`.

Conventions of the embedding.

* C machine integers are `Nat` / `Int`; a store into a `u8`, `u16` or `u32`
  object is written with an explicit `% 2 ^ w`.
* The fixed-size arrays `vlan_entries[16]` and `port_entries[8]` are functions
  out of `Fin 16` and `Fin 8`; an access outside an array cannot be written
  down and is reported as `none` (undefined behaviour in C).
* The hardware is a parameter: a record `Hw σ` of the bus primitives the
  driver calls (`mdiobus_read`, `mdiobus_write`, `ioread32`, `iowrite32`,
  `udelay`) over an arbitrary device state `σ`.
* `World σ` pairs the device state with two ghost fields: the trace of
  register-level accesses (one entry per call of `mt7530_r32` or
  `mt7530_w32`) and the kernel console (`printk` lines).
-/

namespace MT7530

/-! ## Constants (lines 36-64 of `mt7530.c`) -/

abbrev MT7530_CPU_PORT : Nat := 6
abbrev MT7530_NUM_PORTS : Nat := 8
abbrev MT7530_NUM_VLANS : Nat := 16
def MT7530_MAX_VID : Int := 4095
def MT7530_MIN_VID : Int := 0

/-- The errno value `EINVAL` of the kernel; the driver returns `-EINVAL`. -/
def EINVAL : Int := 22

/-- The kernel macro `BIT(n)`, that is `1UL << n`. -/
def BIT (n : Nat) : Nat := 1 <<< n

def REG_ESW_VLAN_VTCR : Nat := 0x90
def REG_ESW_VLAN_VAWD1 : Nat := 0x94
def REG_ESW_VLAN_VAWD2 : Nat := 0x98

/-- The macro `REG_ESW_VLAN_VTIM(x)`, `(0x100 + 4 * ((x) / 2))`; its argument
is an `int` at both places of use, so `/` is C integer division. -/
def REG_ESW_VLAN_VTIM (x : Int) : Int := 0x100 + 4 * (x.tdiv 2)

/-- Conversion of an `int` expression to a `u32` function argument. -/
def u32 (x : Int) : Nat := (x % 2 ^ 32).toNat

def REG_ESW_VLAN_VAWD1_IVL_MAC : Nat := BIT 30
def REG_ESW_VLAN_VAWD1_VTAG_EN : Nat := BIT 28
def REG_ESW_VLAN_VAWD1_VALID : Nat := BIT 0

def ETAG_CTRL_UNTAG : Nat := 0
def ETAG_CTRL_TAG : Nat := 2
def ETAG_CTRL_SWAP : Nat := 1
def ETAG_CTRL_STACK : Nat := 3

def REG_ESW_PORT_PCR (x : Nat) : Nat := 0x2004 ||| (x <<< 8)
def REG_ESW_PORT_PVC (x : Nat) : Nat := 0x2010 ||| (x <<< 8)
def REG_ESW_PORT_PPBV1 (x : Nat) : Nat := 0x2014 ||| (x <<< 8)

def REG_HWTRAP : Nat := 0x7804

/-! ## Data model (lines 71-97) -/

/-- The C `struct mt7530_port_entry`: `u16 pvid`. -/
structure mt7530_port_entry where
  pvid : Nat
deriving DecidableEq, Repr

/-- The C `struct mt7530_vlan_entry`: `u16 vid; u8 member; u8 etags`. -/
structure mt7530_vlan_entry where
  vid : Nat
  member : Nat
  etags : Nat
deriving DecidableEq, Repr

/-- The C `struct mt7530_priv`.  `bus = none` is the NULL bus pointer of the
memory-mapped variant; the embedded `swdev` carries no driver state and is
left out. -/
structure mt7530_priv where
  base : Nat
  bus : Option Nat
  global_vlan_enable : Bool
  vlan_entries : Fin MT7530_NUM_VLANS → mt7530_vlan_entry
  port_entries : Fin MT7530_NUM_PORTS → mt7530_port_entry

/-- The C `struct mt7530_mapping`, a row of the table `mt7530_defaults`. -/
structure mt7530_mapping where
  name : String
  pvids : Fin MT7530_NUM_PORTS → Nat
  members : Fin MT7530_NUM_VLANS → Nat
  etags : Fin MT7530_NUM_VLANS → Nat
  vids : Fin MT7530_NUM_VLANS → Nat

/-- A C array initialiser `{ a, b, c }` for an array of `n` elements: the
listed values, then zeroes. -/
def cinit (n : Nat) (l : List Nat) : Fin n → Nat := fun i => l.getD i.val 0

def mt7530_defaults : List mt7530_mapping :=
  [ { name := "llllw"
      pvids := cinit 8 [1, 1, 1, 1, 2, 1, 1]
      members := cinit 16 [0, 0x6f, 0x50]
      etags := cinit 16 [0, 0x40, 0x40]
      vids := cinit 16 [0, 1, 2] },
    { name := "wllll"
      pvids := cinit 8 [2, 1, 1, 1, 1, 1, 1]
      members := cinit 16 [0, 0x7e, 0x41]
      etags := cinit 16 [0, 0x40, 0x40]
      vids := cinit 16 [0, 1, 2] } ]

/-! ## Types of `linux/switch.h` used by the driver

The header is not part of the sources; only the fields the driver touches
are modelled. -/

/-- The C `struct switch_port`: `u32 id; u32 flags`. -/
structure switch_port where
  id : Nat
  flags : Nat
deriving DecidableEq, Repr

/-- The C `enum switch_port_speed`. -/
inductive switch_port_speed
  | SWITCH_PORT_SPEED_UNKNOWN
  | SWITCH_PORT_SPEED_10
  | SWITCH_PORT_SPEED_100
  | SWITCH_PORT_SPEED_1000
deriving DecidableEq, Repr

/-- The fields of the C `struct switch_port_link` written by the driver. -/
structure switch_port_link where
  link : Bool
  duplex : Bool
  speed : switch_port_speed
deriving DecidableEq, Repr

/-! ## Hardware interface and world -/

/-- The bus primitives the driver calls, over a device state `σ`.
`mdiobus_write s bus addr regnum val`, `mdiobus_read s bus addr regnum`,
`ioread32 s addr`, `iowrite32 s val addr`, `udelay s usecs`. -/
structure Hw (σ : Type) where
  mdiobus_write : σ → Nat → Nat → Nat → Nat → σ
  mdiobus_read : σ → Nat → Nat → Nat → Nat × σ
  ioread32 : σ → Nat → Nat × σ
  iowrite32 : σ → Nat → Nat → σ
  udelay : σ → Nat → σ

/-- One register-level access: a call of `mt7530_r32` (with the value it
returned) or of `mt7530_w32` (with the value it was given). -/
inductive RegAccess
  | r32 (reg val : Nat)
  | w32 (reg val : Nat)
deriving DecidableEq, Repr

/-- Device state, ghost trace of register accesses, console output. -/
structure World (σ : Type) where
  hw : σ
  log : List RegAccess
  console : List String

/-- The kernel `printk`: appends a line to the console. -/
def printk {σ : Type} (w : World σ) (msg : String) : World σ :=
  { w with console := w.console ++ [msg] }

/-- The kernel `udelay`: lets the device run for `usecs` microseconds. -/
def udelay {σ : Type} (H : Hw σ) (w : World σ) (usecs : Nat) : World σ :=
  { w with hw := H.udelay w.hw usecs }

/-! ## Preset lookup and reset (lines 113-185) -/

/-- The function `mt7530_find_mapping`.  The argument is the result of
`of_property_read_string(np, "ralink,port-map", &map)`: `none` when the
property is absent. -/
def mt7530_find_mapping (map : Option String) : Option mt7530_mapping :=
  match map with
  | none => none
  | some m => mt7530_defaults.find? (fun d => m == d.name)

def mt7530_apply_mapping (mt7530 : mt7530_priv) (map : mt7530_mapping) : mt7530_priv :=
  { mt7530 with
    port_entries := fun i => { pvid := map.pvids i }
    vlan_entries := fun i =>
      { member := map.members i
        etags := map.etags i
        vid := map.vids i } }

def mt7530_reset_switch (priv : mt7530_priv) : Int × mt7530_priv :=
  (0, { priv with
        port_entries := fun _ => { pvid := 0 }
        vlan_entries := fun i => { vid := i.val, member := 0, etags := 0 } })

def mt7530_get_vlan_enable (priv : mt7530_priv) : Int × Int :=
  (0, if priv.global_vlan_enable then 1 else 0)

def mt7530_set_vlan_enable (priv : mt7530_priv) (i : Int) : Int × mt7530_priv :=
  (0, { priv with global_vlan_enable := decide (i ≠ 0) })

/-! ## Register transport (lines 187-219) -/

/-- The function `mt7530_r32`.  With a bus: page-selector write, then two 16-bit reads
stored into `u16 low, high`.  Without: `ioread32(priv->base + reg)` stored
into `u32 val`.  The call is recorded in the ghost trace. -/
def mt7530_r32 {σ : Type} (H : Hw σ) (priv : mt7530_priv) (w : World σ) (reg : Nat) :
    Nat × World σ :=
  match priv.bus with
  | some bus =>
    let hw1 := H.mdiobus_write w.hw bus 0x1f 0x1f ((reg >>> 6) &&& 0x3ff)
    let l := H.mdiobus_read hw1 bus 0x1f ((reg >>> 2) &&& 0xf)
    let low := l.1 % 2 ^ 16
    let h := H.mdiobus_read l.2 bus 0x1f 0x10
    let high := h.1 % 2 ^ 16
    let val := ((high <<< 16) ||| (low &&& 0xffff)) % 2 ^ 32
    (val, { w with hw := h.2, log := w.log ++ [RegAccess.r32 reg val] })
  | none =>
    let r := H.ioread32 w.hw (priv.base + reg)
    let val := r.1 % 2 ^ 32
    (val, { w with hw := r.2, log := w.log ++ [RegAccess.r32 reg val] })

/-- The function `mt7530_w32`; `val` is a `u32` parameter.  The call is recorded in the
ghost trace. -/
def mt7530_w32 {σ : Type} (H : Hw σ) (priv : mt7530_priv) (w : World σ) (reg val : Nat) :
    World σ :=
  let val := val % 2 ^ 32
  match priv.bus with
  | some bus =>
    let hw1 := H.mdiobus_write w.hw bus 0x1f 0x1f ((reg >>> 6) &&& 0x3ff)
    let hw2 := H.mdiobus_write hw1 bus 0x1f ((reg >>> 2) &&& 0xf) (val &&& 0xffff)
    let hw3 := H.mdiobus_write hw2 bus 0x1f 0x10 (val >>> 16)
    { w with hw := hw3, log := w.log ++ [RegAccess.w32 reg val] }
  | none =>
    { w with hw := H.iowrite32 w.hw val (priv.base + reg)
             log := w.log ++ [RegAccess.w32 reg val] }

/-! ## VLAN-CAM command and poll (lines 221-238) -/

/-- The `for (i = 0; i < 20; i++)` loop of `mt7530_vtcr` with `n` iterations
left.  The Boolean is `true` when the loop ran out (`i == 20`), `false` when
it left through `break`. -/
def mt7530_vtcr_poll {σ : Type} (H : Hw σ) (priv : mt7530_priv) :
    Nat → World σ → Bool × World σ
  | 0, w => (true, w)
  | n + 1, w =>
    let r := mt7530_r32 H priv w REG_ESW_VLAN_VTCR
    if r.1 &&& BIT 31 = 0 then (false, r.2)
    else mt7530_vtcr_poll H priv n (udelay H r.2 1000)

/-- The function `mt7530_vtcr`; `cmd` and `val` are `u32`, the command word is truncated to
32 bits on entry to `mt7530_w32`. -/
def mt7530_vtcr {σ : Type} (H : Hw σ) (priv : mt7530_priv) (w : World σ) (cmd val : Nat) :
    World σ :=
  let w1 := mt7530_w32 H priv w REG_ESW_VLAN_VTCR (BIT 31 ||| (cmd <<< 12) ||| val)
  let r := mt7530_vtcr_poll H priv 20 w1
  if r.1 then printk r.2 "mt7530: vtcr timeout\n" else r.2

/-! ## Port and VLAN operations (lines 240-379) -/

/-- The function `mt7530_get_port_pvid`; `val` is the prior content of `*val`.  `none`:
the macro shifts a negative `port`, which C leaves undefined. -/
def mt7530_get_port_pvid {σ : Type} (H : Hw σ) (priv : mt7530_priv) (w : World σ)
    (port : Int) (val : Int) : Option (Int × Int × World σ) :=
  if port ≥ MT7530_NUM_PORTS then some (-EINVAL, val, w)
  else if 0 ≤ port then
    let r := mt7530_r32 H priv w (REG_ESW_PORT_PPBV1 port.toNat)
    some (0, ((r.1 &&& 0xfff : Nat) : Int), r.2)
  else none

/-- The function `mt7530_set_port_pvid`.  `none`: the store `port_entries[port]` with a
negative `port` lands outside the array. -/
def mt7530_set_port_pvid (priv : mt7530_priv) (port pvid : Int) :
    Option (Int × mt7530_priv) :=
  if port ≥ MT7530_NUM_PORTS then some (-EINVAL, priv)
  else if pvid < MT7530_MIN_VID ∨ pvid > MT7530_MAX_VID then some (-EINVAL, priv)
  else if h : 0 ≤ port ∧ port < MT7530_NUM_PORTS then
    some (0, { priv with
               port_entries := Function.update priv.port_entries
                 ⟨port.toNat, by omega⟩ { pvid := pvid.toNat % 2 ^ 16 } })
  else none

/-- State of the decoding loop of `mt7530_get_vlan_ports`: `val->len`, the
caller's buffer `val->value.ports`, and the world (for the console). -/
structure vlan_ports_val (σ : Type) where
  len : Nat
  ports : Nat → switch_port
  world : World σ

/-- One iteration of `for (i = 0; i < MT7530_NUM_PORTS; i++)` in
`mt7530_get_vlan_ports`.  `SWITCH_PORT_FLAG_TAGGED` is the bit number the
header `linux/switch.h` gives the tagged flag. -/
def mt7530_get_vlan_ports_step {σ : Type} (SWITCH_PORT_FLAG_TAGGED : Nat)
    (member etags : Nat) (v : vlan_ports_val σ) (i : Nat) : vlan_ports_val σ :=
  if member &&& BIT i = 0 then v
  else
    let p : switch_port := { v.ports v.len with id := i }
    let etag := (etags >>> (i * 2)) &&& 0x3
    if etag = ETAG_CTRL_TAG then
      { v with len := v.len + 1
               ports := Function.update v.ports v.len
                 { p with flags := (p.flags ||| BIT SWITCH_PORT_FLAG_TAGGED) % 2 ^ 32 } }
    else if etag ≠ ETAG_CTRL_UNTAG then
      { len := v.len + 1
        ports := Function.update v.ports v.len p
        world := printk v.world "vlan egress tag control neither untag nor tag.\n" }
    else
      { v with len := v.len + 1, ports := Function.update v.ports v.len p }

/-- The function `mt7530_get_vlan_ports`; `ports k` is the prior content of
`val->value.ports[k]`.  Returns the return code and the final `val->len`,
buffer and world. -/
def mt7530_get_vlan_ports {σ : Type} (SWITCH_PORT_FLAG_TAGGED : Nat) (H : Hw σ)
    (priv : mt7530_priv) (w : World σ) (port_vlan : Int) (ports : Nat → switch_port) :
    Int × vlan_ports_val σ :=
  if port_vlan < 0 ∨ port_vlan ≥ MT7530_NUM_VLANS then
    (-EINVAL, { len := 0, ports := ports, world := w })
  else
    let w1 := mt7530_vtcr H priv w 0 port_vlan.toNat
    let r1 := mt7530_r32 H priv w1 REG_ESW_VLAN_VAWD1
    let member := (r1.1 >>> 16) &&& 0xff
    let r2 := mt7530_r32 H priv r1.2 REG_ESW_VLAN_VAWD2
    let etags := r2.1
    (0, (List.range MT7530_NUM_PORTS).foldl
          (mt7530_get_vlan_ports_step SWITCH_PORT_FLAG_TAGGED member etags)
          { len := 0, ports := ports, world := r2.2 })

/-- The port records `val->value.ports[0 .. val->len - 1]` a caller reads
after `mt7530_get_vlan_ports`. -/
def vlan_ports_val.list {σ : Type} (v : vlan_ports_val σ) : List switch_port :=
  (List.range v.len).map v.ports

/-- The loop `for (i = 0; i < val->len; i++)` of `mt7530_set_vlan_ports` over
the remaining port records, with the current `u8 member` and `u8 etags`.
`none` is the early `return -EINVAL`. -/
def mt7530_set_vlan_ports_loop (SWITCH_PORT_FLAG_TAGGED : Nat) :
    List switch_port → Nat → Nat → Option (Nat × Nat)
  | [], member, etags => some (member, etags)
  | p :: ps, member, etags =>
    if p.id ≥ MT7530_NUM_PORTS then none
    else
      mt7530_set_vlan_ports_loop SWITCH_PORT_FLAG_TAGGED ps
        ((member ||| BIT p.id) % 2 ^ 8)
        (if p.flags &&& BIT SWITCH_PORT_FLAG_TAGGED ≠ 0 then (etags ||| BIT p.id) % 2 ^ 8
         else etags)

/-- The function `mt7530_set_vlan_ports`; `ports` is `val->value.ports[0 .. val->len - 1]`,
so `val->len` is the length of the list. -/
def mt7530_set_vlan_ports (SWITCH_PORT_FLAG_TAGGED : Nat) (priv : mt7530_priv)
    (port_vlan : Int) (ports : List switch_port) : Int × mt7530_priv :=
  if h : 0 ≤ port_vlan ∧ port_vlan < MT7530_NUM_VLANS then
    if ports.length > MT7530_NUM_PORTS then (-EINVAL, priv)
    else
      match mt7530_set_vlan_ports_loop SWITCH_PORT_FLAG_TAGGED ports 0 0 with
      | none => (-EINVAL, priv)
      | some me =>
        let slot : Fin MT7530_NUM_VLANS := ⟨port_vlan.toNat, by omega⟩
        (0, { priv with
              vlan_entries := Function.update priv.vlan_entries slot
                { priv.vlan_entries slot with member := me.1, etags := me.2 } })
  else (-EINVAL, priv)

/-- The function `mt7530_set_vid`; `port_vlan` is `val->port_vlan`, `i` is `val->value.i`.
The value is first converted to the local `u16 vid`. -/
def mt7530_set_vid (priv : mt7530_priv) (port_vlan : Int) (i : Int) : Int × mt7530_priv :=
  let vlan := port_vlan
  let vid : Int := i % 2 ^ 16
  if h : 0 ≤ vlan ∧ vlan < MT7530_NUM_VLANS then
    if vid < MT7530_MIN_VID ∨ vid > MT7530_MAX_VID then (-EINVAL, priv)
    else
      let slot : Fin MT7530_NUM_VLANS := ⟨vlan.toNat, by omega⟩
      (0, { priv with
            vlan_entries := Function.update priv.vlan_entries slot
              { priv.vlan_entries slot with vid := vid.toNat } })
  else (-EINVAL, priv)

/-- The function `mt7530_get_vid`; returns the return code, the new `val->value.i` and the
world.  `vlan & 1` on a two's-complement `int` is its parity. -/
def mt7530_get_vid {σ : Type} (H : Hw σ) (priv : mt7530_priv) (w : World σ)
    (port_vlan : Int) : Int × Nat × World σ :=
  let vlan := port_vlan
  let r := mt7530_r32 H priv w (u32 (REG_ESW_VLAN_VTIM vlan))
  let vid := if vlan % 2 ≠ 0 then r.1 >>> 12 else r.1
  let vid := vid &&& 0xfff
  (0, vid, r.2)

/-! ## Synchronisation of the model to hardware (lines 381-454) -/

/-- The egress-tag word built by the inner loop
`for (j = 0; j < MT7530_NUM_PORTS; j++)` of `mt7530_apply_config`. -/
def mt7530_etag_word (etags : Nat) : Nat :=
  (List.range MT7530_NUM_PORTS).foldl
    (fun val j =>
      if etags &&& BIT j ≠ 0 then val ||| (ETAG_CTRL_TAG <<< (j * 2))
      else val ||| (ETAG_CTRL_UNTAG <<< (j * 2)))
    0

/-- The new content of the VID-timing register for slot `i`, computed from
the value `val` just read and the slot's `vid` (lines 413-419). -/
def mt7530_vtim_word (i : Nat) (val vid : Nat) : Nat :=
  if i % 2 = 0 then (val &&& 0xfff000) ||| vid
  else (val &&& 0xfff) ||| (vid <<< 12)

/-- The word `mt7530_apply_config` writes to `REG_ESW_VLAN_VAWD1` for a slot
with this `member` mask (lines 423-428). -/
def mt7530_vawd1_word (member : Nat) : Nat :=
  if member ≠ 0 then
    REG_ESW_VLAN_VAWD1_IVL_MAC ||| REG_ESW_VLAN_VAWD1_VTAG_EN ||| (member <<< 16) |||
      REG_ESW_VLAN_VAWD1_VALID
  else 0

/-- The body of `for (i = 0; i < MT7530_NUM_VLANS; i++)` in
`mt7530_apply_config` (lines 405-442). -/
def mt7530_apply_vlan {σ : Type} (H : Hw σ) (priv : mt7530_priv) (w : World σ)
    (i : Fin MT7530_NUM_VLANS) : World σ :=
  let vid := (priv.vlan_entries i).vid % 2 ^ 16
  let member := (priv.vlan_entries i).member % 2 ^ 8
  let etags := (priv.vlan_entries i).etags % 2 ^ 8
  let r := mt7530_r32 H priv w (u32 (REG_ESW_VLAN_VTIM i.val))
  let w1 := mt7530_w32 H priv r.2 (u32 (REG_ESW_VLAN_VTIM i.val))
    (mt7530_vtim_word i.val r.1 vid)
  let w2 :=
    if member ≠ 0 then
      mt7530_w32 H priv w1 REG_ESW_VLAN_VAWD1
        (REG_ESW_VLAN_VAWD1_IVL_MAC ||| REG_ESW_VLAN_VAWD1_VTAG_EN ||| (member <<< 16) |||
          REG_ESW_VLAN_VAWD1_VALID)
    else mt7530_w32 H priv w1 REG_ESW_VLAN_VAWD1 0
  let w3 := mt7530_w32 H priv w2 REG_ESW_VLAN_VAWD2 (mt7530_etag_word etags)
  mt7530_vtcr H priv w3 1 i.val

/-- The body of the last loop of `mt7530_apply_config` (lines 445-451);
`~0xfff` as a `u32` is `0xfffff000`. -/
def mt7530_apply_pvid {σ : Type} (H : Hw σ) (priv : mt7530_priv) (w : World σ)
    (i : Fin MT7530_NUM_PORTS) : World σ :=
  let r := mt7530_r32 H priv w (REG_ESW_PORT_PPBV1 i.val)
  let val := (r.1 &&& 0xfffff000) ||| ((priv.port_entries i).pvid % 2 ^ 16)
  mt7530_w32 H priv r.2 (REG_ESW_PORT_PPBV1 i.val) val

def mt7530_apply_config {σ : Type} (H : Hw σ) (priv : mt7530_priv) (w : World σ) :
    Int × World σ :=
  if ¬ priv.global_vlan_enable then
    let w1 := (List.range MT7530_NUM_PORTS).foldl
      (fun w i => mt7530_w32 H priv w (REG_ESW_PORT_PCR i) 0x00ff0000) w
    let w2 := (List.range MT7530_NUM_PORTS).foldl
      (fun w i => mt7530_w32 H priv w (REG_ESW_PORT_PVC i) 0x810000c0) w1
    (0, w2)
  else
    let w1 := (List.range MT7530_NUM_PORTS).foldl
      (fun w i => mt7530_w32 H priv w (REG_ESW_PORT_PCR i) 0x00ff0003) w
    let w2 := (List.range MT7530_NUM_PORTS).foldl
      (fun w i => mt7530_w32 H priv w (REG_ESW_PORT_PVC i) 0x81000000) w1
    let w3 := (List.finRange MT7530_NUM_VLANS).foldl (mt7530_apply_vlan H priv) w2
    let w4 := (List.finRange MT7530_NUM_PORTS).foldl (mt7530_apply_pvid H priv) w3
    (0, w4)

/-! ## Link status (lines 456-489) -/

/-- The function `mt7530_get_port_link`; `link` is the prior content of `*link`. -/
def mt7530_get_port_link {σ : Type} (H : Hw σ) (priv : mt7530_priv) (w : World σ)
    (port : Int) (link : switch_port_link) : Int × switch_port_link × World σ :=
  if port < 0 ∨ port ≥ MT7530_NUM_PORTS then (-EINVAL, link, w)
  else
    let r := mt7530_r32 H priv w (u32 (0x3008 + 0x100 * port))
    let pmsr := r.1
    let speed := (pmsr >>> 2) &&& 3
    (0,
     { link with
       link := decide (pmsr &&& 1 ≠ 0)
       duplex := decide ((pmsr >>> 1) &&& 1 ≠ 0)
       speed :=
         match speed with
         | 0 => switch_port_speed.SWITCH_PORT_SPEED_10
         | 1 => switch_port_speed.SWITCH_PORT_SPEED_100
         | 2 => switch_port_speed.SWITCH_PORT_SPEED_1000
         | 3 => switch_port_speed.SWITCH_PORT_SPEED_1000
         | _ => switch_port_speed.SWITCH_PORT_SPEED_UNKNOWN },
     r.2)

/-- The (id, tagged) record a caller reads off a port. -/
def switch_port.key (T : Nat) (p : switch_port) : Nat × Bool := (p.id, p.flags.testBit T)

/-! ## A register-level model of the switch hardware

The driver's sources do not contain the hardware; the claims that relate what
`mt7530_apply_config` writes to what the getters read back need a model of
it.  `Chip` is a register file in which a read returns the last value written,
together with the VLAN table behind the CAM control register: a write of a
command word with the busy bit set to `REG_ESW_VLAN_VTCR` executes the command
at once (command 1 stores the current VAWD1/VAWD2 words in the addressed
slot, command 0 loads them back) and leaves the word with the busy bit
cleared in the register. -/

structure Chip where
  regs : Nat → Nat
  cam : Nat → Nat × Nat

def Chip.read (c : Chip) (reg : Nat) : Nat := c.regs reg

def Chip.write (c : Chip) (reg val : Nat) : Chip :=
  if reg = REG_ESW_VLAN_VTCR ∧ val &&& BIT 31 ≠ 0 then
    let slot := val &&& 0xfff
    let cmd := (val >>> 12) &&& 0xf
    let done := val &&& 0x7fffffff
    if cmd = 1 then
      { regs := Function.update c.regs REG_ESW_VLAN_VTCR done
        cam := Function.update c.cam slot
          (c.regs REG_ESW_VLAN_VAWD1, c.regs REG_ESW_VLAN_VAWD2) }
    else if cmd = 0 then
      { regs := Function.update
          (Function.update (Function.update c.regs REG_ESW_VLAN_VTCR done)
            REG_ESW_VLAN_VAWD1 (c.cam slot).1)
          REG_ESW_VLAN_VAWD2 (c.cam slot).2
        cam := c.cam }
    else { c with regs := Function.update c.regs REG_ESW_VLAN_VTCR done }
  else { c with regs := Function.update c.regs reg val }

/-- The chip with every register and every VLAN table entry zero. -/
def chip0 : Chip := { regs := fun _ => 0, cam := fun _ => (0, 0) }

/-- The memory-mapped variant (MT7620): the chip's registers appear at
`base + reg`; there is no MDIO bus. -/
def mmio_hw (base : Nat) : Hw Chip :=
  { mdiobus_write := fun s _ _ _ _ => s
    mdiobus_read := fun s _ _ _ => (0xffff, s)
    ioread32 := fun s addr => (s.read (addr - base), s)
    iowrite32 := fun s val addr => s.write (addr - base) val
    udelay := fun s _ => s }

/-- State of the MDIO front end of the MT7530: the chip behind it, the page
selector, the data sub-register and low half-word of a write in progress,
and the high half-word latched by the last data read. -/
structure MdioChip where
  chip : Chip
  page : Nat
  sel : Nat
  low : Nat
  high : Nat

/-- The MDIO variant (MT7530) at PHY address `0x1f`: sub-register `0x1f`
selects the page, a data sub-register 0-15 carries the low half-word, and
sub-register `0x10` the high half-word; a write is committed to the chip when
its high half-word arrives, a read is performed when its low half-word is
fetched. -/
def mdio_hw : Hw MdioChip :=
  { mdiobus_write := fun s _ addr regnum val =>
      if addr ≠ 0x1f then s
      else if regnum = 0x1f then { s with page := val &&& 0x3ff }
      else if regnum = 0x10 then
        { s with chip := s.chip.write ((s.page <<< 6) ||| (s.sel <<< 2))
                   (((val &&& 0xffff) <<< 16) ||| s.low) }
      else { s with sel := regnum &&& 0xf, low := val &&& 0xffff }
    mdiobus_read := fun s _ addr regnum =>
      if addr ≠ 0x1f then (0xffff, s)
      else if regnum = 0x10 then (s.high, s)
      else
        let v := s.chip.read ((s.page <<< 6) ||| ((regnum &&& 0xf) <<< 2))
        (v &&& 0xffff, { s with high := (v >>> 16) &&& 0xffff })
    ioread32 := fun s _ => (0xffffffff, s)
    iowrite32 := fun s _ _ => s
    udelay := fun s _ => s }

/-- The device `H`, accessed through `mt7530_r32` and `mt7530_w32` by a driver
instance with this `bus` and `base`, behaves as the chip model `abs s`: on the
4-byte-aligned register addresses below `0x10000` a read returns the
register's 32-bit content and changes nothing, a write has the effect of
`Chip.write`, and a delay changes nothing. -/
structure ChipTransport {σ : Type} (H : Hw σ) (bus : Option Nat) (base : Nat)
    (abs : σ → Chip) : Prop where
  read_val : ∀ (priv : mt7530_priv) (w : World σ) (reg : Nat),
    priv.bus = bus → priv.base = base → reg % 4 = 0 → reg < 2 ^ 16 →
    (mt7530_r32 H priv w reg).1 = (abs w.hw).read reg % 2 ^ 32
  read_hw : ∀ (priv : mt7530_priv) (w : World σ) (reg : Nat),
    priv.bus = bus → priv.base = base → reg % 4 = 0 → reg < 2 ^ 16 →
    abs (mt7530_r32 H priv w reg).2.hw = abs w.hw
  write_hw : ∀ (priv : mt7530_priv) (w : World σ) (reg val : Nat),
    priv.bus = bus → priv.base = base → reg % 4 = 0 → reg < 2 ^ 16 →
    abs (mt7530_w32 H priv w reg val).hw = (abs w.hw).write reg (val % 2 ^ 32)
  delay : ∀ (s : σ) (n : Nat), abs (H.udelay s n) = abs s

/-! ## Concrete states and devices used to exercise the code -/

/-- The state `devm_kzalloc` leaves at attach: everything zero, here for the
memory-mapped variant at base address 0 with VLANs enabled. -/
def priv0 : mt7530_priv :=
  { base := 0, bus := none, global_vlan_enable := true,
    vlan_entries := fun _ => { vid := 0, member := 0, etags := 0 },
    port_entries := fun _ => { pvid := 0 } }

/-- A device without state: every read returns `v`, writes are lost. -/
def const_hw (v : Nat) : Hw Unit :=
  { mdiobus_write := fun s _ _ _ _ => s
    mdiobus_read := fun s _ _ _ => (v, s)
    ioread32 := fun s _ => (v, s)
    iowrite32 := fun s _ _ => s
    udelay := fun s _ => s }

/-- The empty world over the stateless device. -/
def world0 : World Unit := { hw := (), log := [], console := [] }

/-- The sixteen register writes of a disabled-mode `mt7530_apply_config`. -/
def disabled_writes : List RegAccess :=
  [ RegAccess.w32 0x2004 0x00ff0000, RegAccess.w32 0x2104 0x00ff0000,
    RegAccess.w32 0x2204 0x00ff0000, RegAccess.w32 0x2304 0x00ff0000,
    RegAccess.w32 0x2404 0x00ff0000, RegAccess.w32 0x2504 0x00ff0000,
    RegAccess.w32 0x2604 0x00ff0000, RegAccess.w32 0x2704 0x00ff0000,
    RegAccess.w32 0x2010 0x810000c0, RegAccess.w32 0x2110 0x810000c0,
    RegAccess.w32 0x2210 0x810000c0, RegAccess.w32 0x2310 0x810000c0,
    RegAccess.w32 0x2410 0x810000c0, RegAccess.w32 0x2510 0x810000c0,
    RegAccess.w32 0x2610 0x810000c0, RegAccess.w32 0x2710 0x810000c0 ]

/-- The world over the zeroed chip, nothing traced or printed yet. -/
def chip_world0 : World Chip := { hw := chip0, log := [], console := [] }

/-- The world over the zeroed chip behind its MDIO front end. -/
def mdio_world0 : World MdioChip :=
  { hw := { chip := chip0, page := 0, sel := 0, low := 0, high := 0 }, log := [], console := [] }

/-- A zeroed port buffer, as the caller of `get_vlan_ports` passes it. -/
def ports0 : Nat → switch_port := fun _ => { id := 0, flags := 0 }

/-- The zeroed state seeded with the preset "llllw", the way `mt7530_probe`
seeds it, with VLANs enabled. -/
def priv_llllw : mt7530_priv :=
  match mt7530_find_mapping (some "llllw") with
  | some map => mt7530_apply_mapping priv0 map
  | none => priv0

/-! ## Polling schedule of `mt7530_vtcr`

`poll_world H priv w j` is the world in which poll number `j` (from 0) of the
CAM control register takes place when no earlier poll ended the loop, and
`poll_value H priv w j` the value that poll returns. -/

def poll_world {σ : Type} (H : Hw σ) (priv : mt7530_priv) (w : World σ) : Nat → World σ
  | 0 => w
  | j + 1 => udelay H (mt7530_r32 H priv (poll_world H priv w j) REG_ESW_VLAN_VTCR).2 1000

def poll_value {σ : Type} (H : Hw σ) (priv : mt7530_priv) (w : World σ) (j : Nat) : Nat :=
  (mt7530_r32 H priv (poll_world H priv w j) REG_ESW_VLAN_VTCR).1

/-! ## Attach (lines 539-588) -/

/-- The errno value `ENOMEM` of the kernel. -/
def ENOMEM : Int := 12

/-- The state `mt7530_probe` holds after `devm_kzalloc` (all zero) and the
three assignments of `base`, `bus` and `global_vlan_enable` (lines 547-553);
the `int vlan` becomes a `bool`. -/
def mt7530_probe_alloc (base : Nat) (bus : Option Nat) (vlan : Int) : mt7530_priv :=
  { base := base, bus := bus, global_vlan_enable := decide (vlan ≠ 0),
    vlan_entries := fun _ => { vid := 0, member := 0, etags := 0 },
    port_entries := fun _ => { pvid := 0 } }

/-- The function `mt7530_probe`.  `alloc_ok` tells whether `devm_kzalloc`
succeeded, `register_ret` is what `register_switch` returns, `port_map` the
result of reading the property "ralink,port-map".  Returns the return code,
the driver state that stays registered (if any) and the world; `dev_err` and
`dev_info` print to the console. -/
def mt7530_probe {σ : Type} (H : Hw σ) (w : World σ) (alloc_ok : Bool) (base : Nat)
    (bus : Option Nat) (vlan : Int) (register_ret : Int) (port_map : Option String) :
    Int × Option mt7530_priv × World σ :=
  if ¬ alloc_ok then (-ENOMEM, none, w)
  else if register_ret ≠ 0 then
    (register_ret, none, printk w "failed to register mt7530\n")
  else
    let mt7530 :=
      match mt7530_find_mapping port_map with
      | some map => mt7530_apply_mapping (mt7530_probe_alloc base bus vlan) map
      | none => mt7530_probe_alloc base bus vlan
    let w1 := (mt7530_apply_config H mt7530 w).2
    let w2 :=
      if bus.isSome then
        let r := mt7530_r32 H mt7530 w1 REG_HWTRAP
        if r.1 ≠ 0x1117edf then
          mt7530_w32 H mt7530
            (printk r.2 "fixing up MHWTRAP register - bootloader probably played with it\n")
            REG_HWTRAP 0x1117edf
        else r.2
      else w1
    (0, some mt7530,
      printk w2 (if bus.isSome then "loaded mt7530 driver\n" else "loaded mt7620 driver\n"))

/-! ## Calls of the driver's interface

The operations that change the driver state or the hardware, as a data type,
so that sequences of calls can be run.  In the source the setters and
`mt7530_reset_switch` contain no call of `mt7530_r32` or `mt7530_w32`: their
embeddings are functions of the driver state alone, and `Call.exec` hands the
world through. -/

inductive Call
  | apply_preset (port_map : Option String)
  | reset_switch
  | set_vlan_enable (i : Int)
  | set_port_pvid (port pvid : Int)
  | set_vlan_ports (port_vlan : Int) (ports : List switch_port)
  | set_vid (port_vlan : Int) (i : Int)
  | apply_config

/-- The calls that only stage a change in the driver state. -/
def Call.staged : Call → Bool
  | Call.reset_switch => true
  | Call.set_vlan_enable _ => true
  | Call.set_port_pvid _ _ => true
  | Call.set_vlan_ports _ _ => true
  | Call.set_vid _ _ => true
  | _ => false

/-- One call on a driver state and world.  `apply_preset` is the seeding step
of `mt7530_probe` (lines 575-577).  `none`: the call has no defined outcome
(`mt7530_set_port_pvid` with a negative port). -/
def Call.exec {σ : Type} (SWITCH_PORT_FLAG_TAGGED : Nat) (H : Hw σ) :
    Call → mt7530_priv × World σ → Option (mt7530_priv × World σ)
  | Call.apply_preset port_map, s =>
    some (match mt7530_find_mapping port_map with
          | some map => mt7530_apply_mapping s.1 map
          | none => s.1, s.2)
  | Call.reset_switch, s => some ((mt7530_reset_switch s.1).2, s.2)
  | Call.set_vlan_enable i, s => some ((mt7530_set_vlan_enable s.1 i).2, s.2)
  | Call.set_port_pvid port pvid, s =>
    (mt7530_set_port_pvid s.1 port pvid).map (fun r => (r.2, s.2))
  | Call.set_vlan_ports port_vlan ports, s =>
    some ((mt7530_set_vlan_ports SWITCH_PORT_FLAG_TAGGED s.1 port_vlan ports).2, s.2)
  | Call.set_vid port_vlan i, s => some ((mt7530_set_vid s.1 port_vlan i).2, s.2)
  | Call.apply_config, s => some (s.1, (mt7530_apply_config H s.1 s.2).2)

/-- A sequence of calls, one after the other. -/
def run {σ : Type} (SWITCH_PORT_FLAG_TAGGED : Nat) (H : Hw σ) :
    List Call → mt7530_priv × World σ → Option (mt7530_priv × World σ)
  | [], s => some s
  | c :: cs, s => (c.exec SWITCH_PORT_FLAG_TAGGED H s).bind (run SWITCH_PORT_FLAG_TAGGED H cs)

/-! ## The indirect (MDIO) addressing of a register -/

/-- The page selector `mt7530_r32` and `mt7530_w32` write to sub-register
`0x1f` (lines 194 and 211). -/
def mt7530_mdio_page (reg : Nat) : Nat := (reg >>> 6) &&& 0x3ff

/-- The data sub-register `mt7530_r32` and `mt7530_w32` use for the low
half-word (lines 195 and 212). -/
def mt7530_mdio_sub (reg : Nat) : Nat := (reg >>> 2) &&& 0xf

/-- One call of a bus primitive. -/
inductive BusOp
  | mdio_write (bus addr regnum val : Nat)
  | mdio_read (bus addr regnum : Nat)
  | io_read (addr : Nat)
  | io_write (val addr : Nat)
  | delay (usecs : Nat)
deriving DecidableEq, Repr

/-- A device that records every primitive called on it.  A read of
sub-register `0x10` returns `high`, any other read returns `low`. -/
def trace_hw (low high : Nat) : Hw (List BusOp) :=
  { mdiobus_write := fun s bus addr regnum val => s ++ [BusOp.mdio_write bus addr regnum val]
    mdiobus_read := fun s bus addr regnum =>
      (if regnum = 0x10 then high else low, s ++ [BusOp.mdio_read bus addr regnum])
    ioread32 := fun s addr => (low, s ++ [BusOp.io_read addr])
    iowrite32 := fun s val addr => s ++ [BusOp.io_write val addr]
    udelay := fun s usecs => s ++ [BusOp.delay usecs] }

/-! ## Register-file transports -/

/-- The three registers of the CAM protocol. -/
def cam_reg (reg : Nat) : Prop :=
  reg = REG_ESW_VLAN_VTCR ∨ reg = REG_ESW_VLAN_VAWD1 ∨ reg = REG_ESW_VLAN_VAWD2

/-- The device `H`, accessed through `mt7530_r32` and `mt7530_w32` by a driver
instance with this `bus` and `base`, is a register file with contents
`view s`: on the 4-byte-aligned addresses below `0x10000` a read returns the
32-bit content and changes no register, a write stores the value and changes
no other register, a delay changes nothing.  Nothing is asked of the content
of the three CAM registers after a write, so that the plain register file
and the chip model both qualify. -/
structure RegFileTransport {σ : Type} (H : Hw σ) (bus : Option Nat) (base : Nat)
    (view : σ → Nat → Nat) : Prop where
  read_val : ∀ (priv : mt7530_priv) (w : World σ) (reg : Nat),
    priv.bus = bus → priv.base = base → reg % 4 = 0 → reg < 2 ^ 16 →
    (mt7530_r32 H priv w reg).1 = view w.hw reg % 2 ^ 32
  read_hw : ∀ (priv : mt7530_priv) (w : World σ) (reg : Nat),
    priv.bus = bus → priv.base = base → reg % 4 = 0 → reg < 2 ^ 16 →
    view (mt7530_r32 H priv w reg).2.hw = view w.hw
  write_same : ∀ (priv : mt7530_priv) (w : World σ) (reg val : Nat),
    priv.bus = bus → priv.base = base → reg % 4 = 0 → reg < 2 ^ 16 → ¬ cam_reg reg →
    view (mt7530_w32 H priv w reg val).hw reg = val % 2 ^ 32
  write_other : ∀ (priv : mt7530_priv) (w : World σ) (reg val reg' : Nat),
    priv.bus = bus → priv.base = base → reg % 4 = 0 → reg < 2 ^ 16 → reg' ≠ reg →
    ¬ cam_reg reg' →
    view (mt7530_w32 H priv w reg val).hw reg' = view w.hw reg'
  delay : ∀ (s : σ) (n : Nat), view (H.udelay s n) = view s

/-- The plain register file, memory-mapped at `base`: a read returns the last
value written to the address, also for the CAM registers. -/
def regfile_hw (base : Nat) : Hw (Nat → Nat) :=
  { mdiobus_write := fun s _ _ _ _ => s
    mdiobus_read := fun s _ _ _ => (0xffff, s)
    ioread32 := fun s addr => (s (addr - base), s)
    iowrite32 := fun s val addr => Function.update s (addr - base) val
    udelay := fun s _ => s }

/-- The world over the zeroed plain register file. -/
def regfile_world0 : World (Nat → Nat) := { hw := fun _ => 0, log := [], console := [] }

/-- The writes to the three CAM registers in a trace, in order. -/
def cam_writes (log : List RegAccess) : List RegAccess :=
  log.filter (fun a =>
    match a with
    | RegAccess.w32 reg _ =>
      decide (reg = REG_ESW_VLAN_VTCR ∨ reg = REG_ESW_VLAN_VAWD1 ∨ reg = REG_ESW_VLAN_VAWD2)
    | RegAccess.r32 _ _ => false)

/-- A port buffer that still holds the tagged flag (bit 2) in every record. -/
def ports_stale : Nat → switch_port := fun _ => { id := 0, flags := 4 }

/-- The calls used to exercise sequences of staged operations. -/
def staged_calls : List Call :=
  [Call.set_vlan_enable 1, Call.set_port_pvid 4 2, Call.set_vlan_ports 1 [⟨6, 4⟩, ⟨0, 0⟩],
   Call.set_vid 1 7, Call.reset_switch, Call.set_vid 3 4095]

/-- The calls used to exercise the state invariant: a preset, accepted and
rejected setters, and two synchronisations. -/
def mixed_calls : List Call :=
  [Call.apply_preset (some "llllw"), Call.apply_config, Call.set_port_pvid 2 4095,
   Call.set_port_pvid 2 4096, Call.set_vid 3 4095, Call.set_vid 3 70000,
   Call.set_vlan_ports 1 [⟨6, 4⟩], Call.apply_config]

/-! ## State invariant -/

/-- Every vid and pvid of the state fits in 12 bits. -/
def vid_bounded (priv : mt7530_priv) : Prop :=
  (∀ i : Fin 16, (priv.vlan_entries i).vid < 4096) ∧
  (∀ p : Fin 8, (priv.port_entries p).pvid < 4096)

/-- The 12-bit field of slot `s` in a VID-timing word. -/
def vtim_field (s : Nat) (x : Nat) : Nat :=
  if s % 2 = 0 then x &&& 0xfff else (x >>> 12) &&& 0xfff

/-! ## Basic facts about the transport -/

section transport

variable {σ : Type} (H : Hw σ) (priv : mt7530_priv) (w : World σ)

theorem mt7530_r32_lt (reg : Nat) : (mt7530_r32 H priv w reg).1 < 2 ^ 32 := by
  unfold mt7530_r32
  cases priv.bus <;> exact Nat.mod_lt _ (by decide)

@[simp] theorem mt7530_r32_log (reg : Nat) :
    (mt7530_r32 H priv w reg).2.log
      = w.log ++ [RegAccess.r32 reg (mt7530_r32 H priv w reg).1] := by
  unfold mt7530_r32
  cases priv.bus <;> rfl

@[simp] theorem mt7530_r32_console (reg : Nat) :
    (mt7530_r32 H priv w reg).2.console = w.console := by
  unfold mt7530_r32
  cases priv.bus <;> rfl

@[simp] theorem mt7530_w32_log (reg val : Nat) :
    (mt7530_w32 H priv w reg val).log = w.log ++ [RegAccess.w32 reg (val % 2 ^ 32)] := by
  unfold mt7530_w32
  cases priv.bus <;> rfl

@[simp] theorem mt7530_w32_console (reg val : Nat) :
    (mt7530_w32 H priv w reg val).console = w.console := by
  unfold mt7530_w32
  cases priv.bus <;> rfl

end transport

/-! ## Bit-level helpers -/

theorem and_BIT_eq_zero_iff (x n : Nat) : x &&& BIT n = 0 ↔ x.testBit n = false := by
  unfold BIT
  rw [Nat.one_shiftLeft]
  constructor
  · intro h
    have := congrArg (fun y => Nat.testBit y n) h
    simpa [Nat.testBit_two_pow] using this
  · intro h
    apply Nat.eq_of_testBit_eq
    intro i
    by_cases hi : n = i
    · subst hi; simp [h]
    · simp [Nat.testBit_two_pow, hi]

theorem and_BIT_ne_zero_iff (x n : Nat) : x &&& BIT n ≠ 0 ↔ x.testBit n = true := by
  rw [Ne, and_BIT_eq_zero_iff]; simp

theorem testBit_BIT (n i : Nat) : (BIT n).testBit i = decide (n = i) := by
  unfold BIT
  rw [Nat.one_shiftLeft, Nat.testBit_two_pow]

/-! ## `mt7530_set_vlan_ports`: validation and packing -/

theorem set_vlan_ports_loop_none_iff (T : Nat) (ports : List switch_port) (m e : Nat) :
    mt7530_set_vlan_ports_loop T ports m e = none ↔ ∃ p ∈ ports, p.id ≥ MT7530_NUM_PORTS := by
  induction ports generalizing m e with
  | nil => simp [mt7530_set_vlan_ports_loop]
  | cons p ps ih =>
    unfold mt7530_set_vlan_ports_loop
    by_cases hp : p.id ≥ MT7530_NUM_PORTS
    · simp [hp]
    · simp only [hp, if_false, ih, List.mem_cons, exists_eq_or_imp, false_or]

theorem set_vlan_ports_loop_bits (T : Nat) (ports : List switch_port) (m e : Nat)
    (hm : m < 2 ^ 8) (he : e < 2 ^ 8) (hp : ∀ p ∈ ports, p.id < MT7530_NUM_PORTS) :
    ∃ m' e', mt7530_set_vlan_ports_loop T ports m e = some (m', e') ∧ m' < 2 ^ 8 ∧ e' < 2 ^ 8 ∧
      (∀ i, m'.testBit i = (m.testBit i || ports.any (fun q => q.id == i))) ∧
      (∀ i, e'.testBit i
        = (e.testBit i || ports.any (fun q => q.id == i && q.flags.testBit T))) := by
  induction ports generalizing m e with
  | nil => exact ⟨m, e, rfl, hm, he, by simp, by simp⟩
  | cons p ps ih =>
    have hpid : p.id < 8 := hp p (List.mem_cons_self _ _)
    have hps : ∀ q ∈ ps, q.id < MT7530_NUM_PORTS := fun q hq => hp q (List.mem_cons_of_mem _ hq)
    unfold mt7530_set_vlan_ports_loop
    have hnot : ¬ p.id ≥ MT7530_NUM_PORTS := by simpa using hpid
    simp only [hnot, if_false]
    have hm1 : (m ||| BIT p.id) % 2 ^ 8 < 2 ^ 8 := Nat.mod_lt _ (by decide)
    have he1 : (if p.flags &&& BIT T ≠ 0 then (e ||| BIT p.id) % 2 ^ 8 else e) < 2 ^ 8 := by
      split
      · exact Nat.mod_lt _ (by decide)
      · exact he
    obtain ⟨m', e', hl, hm', he', hmb, heb⟩ := ih _ _ hm1 he1 hps
    refine ⟨m', e', hl, hm', he', ?_, ?_⟩
    · intro i
      rw [hmb i, Nat.testBit_mod_two_pow, Nat.testBit_or, testBit_BIT, List.any_cons]
      by_cases hi : p.id = i
      · subst hi; simp [hpid]
      · have : m.testBit i = true → i < 8 := fun h => by
          by_contra hc
          have := Nat.testBit_lt_two_pow (x := m) (i := i)
            (lt_of_lt_of_le hm (Nat.pow_le_pow_right (by decide) (by omega)))
          simp [this] at h
        cases hb : m.testBit i <;> simp [hi, hb] 
        exact Or.inl (this hb)
    · intro i
      rw [heb i, List.any_cons]
      have hE : e.testBit i = true → i < 8 := fun h => by
          by_contra hc
          have := Nat.testBit_lt_two_pow (x := e) (i := i)
            (lt_of_lt_of_le he (Nat.pow_le_pow_right (by decide) (by omega)))
          simp [this] at h
      by_cases ht : p.flags.testBit T = true
      · have h1 : p.flags &&& BIT T ≠ 0 := (and_BIT_ne_zero_iff _ _).2 ht
        simp only [h1, if_true, ne_eq, not_false_eq_true]
        rw [Nat.testBit_mod_two_pow, Nat.testBit_or, testBit_BIT]
        by_cases hi : p.id = i
        · subst hi; simp [hpid, ht]
        · cases hb : e.testBit i <;> simp [hi, hb]
          exact Or.inl (hE hb)
      · have h1 : ¬ (p.flags &&& BIT T ≠ 0) := by
          rw [and_BIT_ne_zero_iff]; exact ht
        simp only [h1, if_false]
        simp [ht]


theorem set_vlan_ports_ok (T : Nat) (priv : mt7530_priv) (slot : Int) (ports : List switch_port)
    (me : Nat × Nat) (h : 0 ≤ slot ∧ slot < MT7530_NUM_VLANS)
    (hlen : ports.length ≤ MT7530_NUM_PORTS)
    (hl : mt7530_set_vlan_ports_loop T ports 0 0 = some me) :
    mt7530_set_vlan_ports T priv slot ports
      = (0, { priv with
              vlan_entries := Function.update priv.vlan_entries ⟨slot.toNat, by omega⟩
                { priv.vlan_entries ⟨slot.toNat, by omega⟩ with
                  member := me.1, etags := me.2 } }) := by
  unfold mt7530_set_vlan_ports
  have hlen' : ¬ ports.length > MT7530_NUM_PORTS := by omega
  simp only [h, and_self, dif_pos, hlen', if_false, hl]

/-- C5: `mt7530_set_vlan_ports` returns `-EINVAL` exactly when the slot is
outside [0,15], or the list is longer than 8, or some listed port id is at
least 8; a failing call leaves the state as it was, a call that does not fail
returns 0, and an offending port id is rejected wherever it stands in the
list. -/
theorem set_vlan_ports_einval_iff (T : Nat) (priv : mt7530_priv) (port_vlan : Int)
    (ports : List switch_port) :
    ((mt7530_set_vlan_ports T priv port_vlan ports).1 = -EINVAL ↔
      (port_vlan < 0 ∨ port_vlan ≥ 16 ∨ ports.length > 8 ∨ ∃ p ∈ ports, p.id ≥ 8)) ∧
    ((mt7530_set_vlan_ports T priv port_vlan ports).1 = -EINVAL →
      (mt7530_set_vlan_ports T priv port_vlan ports).2 = priv) ∧
    ((mt7530_set_vlan_ports T priv port_vlan ports).1 ≠ -EINVAL →
      (mt7530_set_vlan_ports T priv port_vlan ports).1 = 0) ∧
    (∀ (pre post : List switch_port) (p : switch_port), p.id ≥ 8 →
      mt7530_set_vlan_ports T priv port_vlan (pre ++ p :: post) = (-EINVAL, priv)) := by
  have key : ∀ ports : List switch_port,
      ((mt7530_set_vlan_ports T priv port_vlan ports).1 = -EINVAL ↔
        (port_vlan < 0 ∨ port_vlan ≥ 16 ∨ ports.length > 8 ∨ ∃ p ∈ ports, p.id ≥ 8)) ∧
      ((mt7530_set_vlan_ports T priv port_vlan ports).1 = -EINVAL →
        (mt7530_set_vlan_ports T priv port_vlan ports).2 = priv) ∧
      ((mt7530_set_vlan_ports T priv port_vlan ports).1 ≠ -EINVAL →
        (mt7530_set_vlan_ports T priv port_vlan ports).1 = 0) := by
    intro ports
    by_cases h : 0 ≤ port_vlan ∧ port_vlan < MT7530_NUM_VLANS
    · by_cases hlen : ports.length > MT7530_NUM_PORTS
      · have e : mt7530_set_vlan_ports T priv port_vlan ports = (-EINVAL, priv) := by
          unfold mt7530_set_vlan_ports; simp only [h, and_self, dif_pos, hlen, if_true]
        rw [e]; simp; right; right; left; exact hlen
      · cases hl : mt7530_set_vlan_ports_loop T ports 0 0 with
        | none =>
          have e : mt7530_set_vlan_ports T priv port_vlan ports = (-EINVAL, priv) := by
            unfold mt7530_set_vlan_ports; simp only [h, and_self, dif_pos, hlen, if_false, hl]
          rw [e]; simp
          right; right; right
          exact (set_vlan_ports_loop_none_iff T ports 0 0).1 hl
        | some me =>
          rw [set_vlan_ports_ok T priv port_vlan ports me h (by omega) hl]
          have hne : ¬ ∃ p ∈ ports, p.id ≥ MT7530_NUM_PORTS := by
            rw [← set_vlan_ports_loop_none_iff T ports 0 0, hl]; simp
          have h0 : (0 : Int) ≠ -EINVAL := by decide
          simp only [h0, false_iff, false_implies, true_and, ne_eq, not_false_eq_true,
            implies_true, and_true]
          have h' : 0 ≤ port_vlan ∧ port_vlan < 16 := by exact_mod_cast h
          rintro (h1 | h1 | h1 | h1)
          · omega
          · omega
          · exact hlen h1
          · exact hne h1
    · have e : mt7530_set_vlan_ports T priv port_vlan ports = (-EINVAL, priv) := by
        unfold mt7530_set_vlan_ports; simp only [h, dif_neg, not_false_eq_true]
      rw [e]; simp
      by_cases h0 : 0 ≤ port_vlan
      · right; left; simp only [h0, true_and, not_lt] at h; exact_mod_cast h
      · left; omega
  refine ⟨(key ports).1, (key ports).2.1, (key ports).2.2, ?_⟩
  intro pre post p hp
  have k := key (pre ++ p :: post)
  have h1 : (mt7530_set_vlan_ports T priv port_vlan (pre ++ p :: post)).1 = -EINVAL :=
    k.1.2 (Or.inr (Or.inr (Or.inr ⟨p, by simp, hp⟩)))
  exact Prod.ext h1 (k.2.1 h1)


theorem any_id_eq_true_iff (ports : List switch_port) (i : Nat) :
    ports.any (fun q => q.id == i) = true ↔ ∃ q ∈ ports, q.id = i := by
  simp [List.any_eq_true]

theorem any_id_tag_eq_true_iff (T : Nat) (ports : List switch_port) (i : Nat) :
    ports.any (fun q => q.id == i && q.flags.testBit T) = true
      ↔ ∃ q ∈ ports, q.id = i ∧ q.flags.testBit T = true := by
  simp [List.any_eq_true]

theorem set_vlan_ports_ok_fin (T : Nat) (priv : mt7530_priv) (slot : Fin 16)
    (ports : List switch_port) (me : Nat × Nat) (hlen : ports.length ≤ 8)
    (hl : mt7530_set_vlan_ports_loop T ports 0 0 = some me) :
    mt7530_set_vlan_ports T priv (slot.val : Int) ports
      = (0, { priv with
              vlan_entries := Function.update priv.vlan_entries slot
                { priv.vlan_entries slot with member := me.1, etags := me.2 } }) := by
  have hs : 0 ≤ (slot.val : Int) ∧ (slot.val : Int) < MT7530_NUM_VLANS :=
    ⟨by omega, by exact_mod_cast slot.isLt⟩
  rw [set_vlan_ports_ok T priv _ ports me hs hlen hl]
  have : (⟨((slot.val : Int)).toNat, by omega⟩ : Fin MT7530_NUM_VLANS) = slot :=
    Fin.ext (Int.toNat_ofNat _)
  simp only [this]

/-- C6: a valid `mt7530_set_vlan_ports` (slot in [0,15], at most 8 ports, all
ids below 8) returns 0; afterwards bit `p` of `vlan_entries[slot].member` is
set exactly when a listed port has id `p`, bit `p` of `vlan_entries[slot].etags`
exactly when a listed port with id `p` carries the tagged flag; the slot's
`vid`, every other slot, the port entries and `global_vlan_enable` are
unchanged; and two lists with the same set of (id, tagged) records give the
same result. -/
theorem set_vlan_ports_packs (T : Nat) (priv : mt7530_priv) (slot : Fin 16)
    (ports : List switch_port) (hlen : ports.length ≤ 8) (hid : ∀ p ∈ ports, p.id < 8) :
    (mt7530_set_vlan_ports T priv (slot.val : Int) ports).1 = 0 ∧
    (∀ p, ((mt7530_set_vlan_ports T priv (slot.val : Int) ports).2.vlan_entries
              slot).member.testBit p = true
            ↔ ∃ q ∈ ports, q.id = p) ∧
    (∀ p, ((mt7530_set_vlan_ports T priv (slot.val : Int) ports).2.vlan_entries
              slot).etags.testBit p = true
            ↔ ∃ q ∈ ports, q.id = p ∧ q.flags.testBit T = true) ∧
    ((mt7530_set_vlan_ports T priv (slot.val : Int) ports).2.vlan_entries slot).vid
      = (priv.vlan_entries slot).vid ∧
    (∀ j : Fin 16, j ≠ slot →
      (mt7530_set_vlan_ports T priv (slot.val : Int) ports).2.vlan_entries j
        = priv.vlan_entries j) ∧
    (mt7530_set_vlan_ports T priv (slot.val : Int) ports).2.port_entries
      = priv.port_entries ∧
    (mt7530_set_vlan_ports T priv (slot.val : Int) ports).2.global_vlan_enable
      = priv.global_vlan_enable ∧
    (mt7530_set_vlan_ports T priv (slot.val : Int) ports).2.base = priv.base ∧
    (mt7530_set_vlan_ports T priv (slot.val : Int) ports).2.bus = priv.bus ∧
    (∀ ports2 : List switch_port, ports2.length ≤ 8 →
      (∀ i b, (∃ q ∈ ports, q.id = i ∧ q.flags.testBit T = b)
            ↔ (∃ q ∈ ports2, q.id = i ∧ q.flags.testBit T = b)) →
      mt7530_set_vlan_ports T priv (slot.val : Int) ports2
        = mt7530_set_vlan_ports T priv (slot.val : Int) ports) := by
  obtain ⟨m, e, hl, -, -, hmb, heb⟩ :=
    set_vlan_ports_loop_bits T ports 0 0 (by decide) (by decide) hid
  rw [set_vlan_ports_ok_fin T priv slot ports (m, e) hlen hl]
  refine ⟨rfl, ?_, ?_, ?_, ?_, rfl, rfl, rfl, rfl, ?_⟩
  · intro p
    simp only [Function.update_same]
    rw [hmb p, Nat.zero_testBit, Bool.false_or, any_id_eq_true_iff]
  · intro p
    simp only [Function.update_same]
    rw [heb p, Nat.zero_testBit, Bool.false_or, any_id_tag_eq_true_iff]
  · simp only [Function.update_same]
  · intro j hj
    simp only [Function.update_noteq hj]
  · intro ports2 hlen2 hsame
    have hid2 : ∀ p ∈ ports2, p.id < 8 := by
      intro p hp
      obtain ⟨q, hq, hqi, -⟩ := (hsame p.id (p.flags.testBit T)).2 ⟨p, hp, rfl, rfl⟩
      rw [← hqi]; exact hid q hq
    obtain ⟨m2, e2, hl2, -, -, hmb2, heb2⟩ :=
      set_vlan_ports_loop_bits T ports2 0 0 (by decide) (by decide) hid2
    rw [set_vlan_ports_ok_fin T priv slot ports2 (m2, e2) hlen2 hl2]
    have hm : m2 = m := by
      apply Nat.eq_of_testBit_eq
      intro i
      rw [hmb i, hmb2 i, Bool.eq_iff_iff, Nat.zero_testBit, Bool.false_or, Bool.false_or,
        any_id_eq_true_iff, any_id_eq_true_iff]
      constructor
      · rintro ⟨q, hq, hqi⟩
        obtain ⟨q', hq', hqi', -⟩ := (hsame i (q.flags.testBit T)).2 ⟨q, hq, hqi, rfl⟩
        exact ⟨q', hq', hqi'⟩
      · rintro ⟨q, hq, hqi⟩
        obtain ⟨q', hq', hqi', -⟩ := (hsame i (q.flags.testBit T)).1 ⟨q, hq, hqi, rfl⟩
        exact ⟨q', hq', hqi'⟩
    have he : e2 = e := by
      apply Nat.eq_of_testBit_eq
      intro i
      rw [heb i, heb2 i, Bool.eq_iff_iff, Nat.zero_testBit, Bool.false_or, Bool.false_or,
        any_id_tag_eq_true_iff, any_id_tag_eq_true_iff]
      exact (hsame i true).symm
    rw [hm, he]

/-- C6 at a concrete input: slot 1 of the zeroed state, ports 6 (tagged) and 0
(untagged). -/
theorem set_vlan_ports_packs_witness :
    ([⟨6, 4⟩, ⟨0, 0⟩] : List switch_port).length ≤ 8 ∧
    (∀ p ∈ ([⟨6, 4⟩, ⟨0, 0⟩] : List switch_port), p.id < 8) ∧
    (mt7530_set_vlan_ports 2 priv0 ((1 : Fin 16).val : Int) [⟨6, 4⟩, ⟨0, 0⟩]).1 = 0 :=
  ⟨by decide, by decide,
    (set_vlan_ports_packs 2 priv0 1 [⟨6, 4⟩, ⟨0, 0⟩] (by decide) (by decide)).1⟩

/-! ## The CAM command/poll protocol -/

section
variable {σ : Type} (H : Hw σ) (priv : mt7530_priv)

@[simp] theorem udelay_log (w : World σ) (n : Nat) : (udelay H w n).log = w.log := rfl
@[simp] theorem udelay_console (w : World σ) (n : Nat) : (udelay H w n).console = w.console := rfl
@[simp] theorem printk_log (w : World σ) (m : String) : (printk w m).log = w.log := rfl
@[simp] theorem printk_hw (w : World σ) (m : String) : (printk w m).hw = w.hw := rfl

theorem poll_world_shift (w : World σ) (j : Nat) :
    poll_world H priv (udelay H (mt7530_r32 H priv w REG_ESW_VLAN_VTCR).2 1000) j
      = poll_world H priv w (j + 1) := by
  induction j with
  | zero => rfl
  | succ j ih =>
    show udelay H (mt7530_r32 H priv (poll_world H priv _ j) REG_ESW_VLAN_VTCR).2 1000 = _
    rw [ih]
    rfl

theorem poll_value_shift (w : World σ) (j : Nat) :
    poll_value H priv (udelay H (mt7530_r32 H priv w REG_ESW_VLAN_VTCR).2 1000) j
      = poll_value H priv w (j + 1) := by
  unfold poll_value
  rw [poll_world_shift]

theorem poll_world_log (w : World σ) (j : Nat) :
    (poll_world H priv w j).log
      = w.log ++ (List.range j).map
          (fun t => RegAccess.r32 REG_ESW_VLAN_VTCR (poll_value H priv w t)) := by
  induction j with
  | zero => simp [poll_world]
  | succ j ih =>
    show (udelay H (mt7530_r32 H priv (poll_world H priv w j) REG_ESW_VLAN_VTCR).2 1000).log = _
    rw [udelay_log, mt7530_r32_log, ih, List.range_succ, List.map_append, List.append_assoc]
    rfl

theorem poll_world_console (w : World σ) (j : Nat) :
    (poll_world H priv w j).console = w.console := by
  induction j with
  | zero => rfl
  | succ j ih =>
    show (udelay H (mt7530_r32 H priv (poll_world H priv w j) REG_ESW_VLAN_VTCR).2 1000).console
      = _
    rw [udelay_console, mt7530_r32_console, ih]

theorem vtcr_poll_busy (n : Nat) (w : World σ)
    (hb : ∀ j < n, poll_value H priv w j &&& BIT 31 ≠ 0) :
    mt7530_vtcr_poll H priv n w = (true, poll_world H priv w n) := by
  induction n generalizing w with
  | zero => rfl
  | succ n ih =>
    unfold mt7530_vtcr_poll
    have h0 : (mt7530_r32 H priv w REG_ESW_VLAN_VTCR).1 &&& BIT 31 ≠ 0 := hb 0 (by omega)
    simp only [h0, if_false]
    rw [ih]
    · rw [poll_world_shift]
    · intro j hj
      rw [poll_value_shift]
      exact hb (j + 1) (by omega)

theorem vtcr_poll_clear (n k : Nat) (w : World σ) (hk : k < n)
    (hb : ∀ j < k, poll_value H priv w j &&& BIT 31 ≠ 0)
    (hc : poll_value H priv w k &&& BIT 31 = 0) :
    mt7530_vtcr_poll H priv n w
      = (false, (mt7530_r32 H priv (poll_world H priv w k) REG_ESW_VLAN_VTCR).2) := by
  induction n generalizing w k with
  | zero => omega
  | succ n ih =>
    unfold mt7530_vtcr_poll
    cases k with
    | zero =>
      have h0 : (mt7530_r32 H priv w REG_ESW_VLAN_VTCR).1 &&& BIT 31 = 0 := hc
      simp only [h0, if_true]
      rfl
    | succ k =>
      have h0 : (mt7530_r32 H priv w REG_ESW_VLAN_VTCR).1 &&& BIT 31 ≠ 0 := hb 0 (by omega)
      simp only [h0, if_false]
      rw [ih k _ (by omega)]
      · rw [poll_world_shift]
      · intro j hj
        rw [poll_value_shift]
        exact hb (j + 1) (by omega)
      · rw [poll_value_shift]
        exact hc

/-- C9: `mt7530_vtcr` writes the command word `BIT(31) | (cmd << 12) | val`
(as a `u32`) to the CAM control register once and then polls that register.
If each of the 20 polls returns the busy bit set, the trace is that write
followed by exactly 20 reads, the timeout line is printed and the function
returns.  If poll number `k` (1 to 20) is the first to return the busy bit
clear, the trace is that write followed by exactly `k` reads and nothing is
printed. -/
theorem vtcr_poll_bound (w : World σ) (cmd val : Nat) :
    ((∀ j < 20, poll_value H priv
          (mt7530_w32 H priv w REG_ESW_VLAN_VTCR (BIT 31 ||| (cmd <<< 12) ||| val)) j
          &&& BIT 31 ≠ 0) →
      (mt7530_vtcr H priv w cmd val).log
        = w.log ++ RegAccess.w32 REG_ESW_VLAN_VTCR ((BIT 31 ||| (cmd <<< 12) ||| val) % 2 ^ 32)
            :: (List.range 20).map (fun j => RegAccess.r32 REG_ESW_VLAN_VTCR
                (poll_value H priv
                  (mt7530_w32 H priv w REG_ESW_VLAN_VTCR (BIT 31 ||| (cmd <<< 12) ||| val)) j))
      ∧ (mt7530_vtcr H priv w cmd val).console = w.console ++ ["mt7530: vtcr timeout\n"]) ∧
    (∀ k, 1 ≤ k → k ≤ 20 →
      (∀ j < k - 1, poll_value H priv
          (mt7530_w32 H priv w REG_ESW_VLAN_VTCR (BIT 31 ||| (cmd <<< 12) ||| val)) j
          &&& BIT 31 ≠ 0) →
      poll_value H priv
          (mt7530_w32 H priv w REG_ESW_VLAN_VTCR (BIT 31 ||| (cmd <<< 12) ||| val)) (k - 1)
          &&& BIT 31 = 0 →
      (mt7530_vtcr H priv w cmd val).log
        = w.log ++ RegAccess.w32 REG_ESW_VLAN_VTCR ((BIT 31 ||| (cmd <<< 12) ||| val) % 2 ^ 32)
            :: (List.range k).map (fun j => RegAccess.r32 REG_ESW_VLAN_VTCR
                (poll_value H priv
                  (mt7530_w32 H priv w REG_ESW_VLAN_VTCR (BIT 31 ||| (cmd <<< 12) ||| val)) j))
      ∧ (mt7530_vtcr H priv w cmd val).console = w.console) := by
  constructor
  · intro hb
    unfold mt7530_vtcr
    simp only [vtcr_poll_busy H priv 20 _ hb, if_true]
    simp only [printk_log, poll_world_log, mt7530_w32_log, List.append_assoc,
      List.singleton_append]
    refine ⟨trivial, ?_⟩
    simp only [printk, poll_world_console, mt7530_w32_console]
  · intro k hk1 hk20 hb hc
    unfold mt7530_vtcr
    simp only [vtcr_poll_clear H priv 20 (k - 1) _ (by omega) hb hc, Bool.false_eq_true, if_false, mt7530_r32_log, mt7530_r32_console, poll_world_log,
      poll_world_console, mt7530_w32_log, mt7530_w32_console, List.append_assoc,
      List.singleton_append, and_true]
    have : k = (k - 1) + 1 := by omega
    conv_rhs => rw [this, List.range_succ, List.map_append]
    rfl

end

/-! ## Range checks of the setters and of `mt7530_get_vid` -/

/-- C2 (the code at the failing input): `mt7530_set_port_pvid` on port 0 with
pvid 4095, a value outside [0,4094], does not return `-EINVAL`: it returns 0
and stores 4095 in `port_entries[0].pvid`. -/
theorem set_port_pvid_accepts_4095 (priv : mt7530_priv) :
    mt7530_set_port_pvid priv 0 4095
      = some (0, { priv with
                   port_entries := Function.update priv.port_entries 0 { pvid := 4095 } }) := by
  unfold mt7530_set_port_pvid
  simp [MT7530_MIN_VID, MT7530_MAX_VID]

/-- C3 (the code at the failing inputs): `mt7530_set_vid` on slot 0 accepts
the value 4095, outside [0,4094], and stores it; and it accepts the value
65541, which the conversion to `u16` turns into 5 before the range check, and
stores 5, not the requested value. -/
theorem set_vid_accepts_4095_and_wraps (priv : mt7530_priv) :
    mt7530_set_vid priv 0 4095
      = (0, { priv with
              vlan_entries := Function.update priv.vlan_entries 0
                { priv.vlan_entries 0 with vid := 4095 } }) ∧
    mt7530_set_vid priv 0 65541
      = (0, { priv with
              vlan_entries := Function.update priv.vlan_entries 0
                { priv.vlan_entries 0 with vid := 5 } }) := by
  constructor
  · unfold mt7530_set_vid
    simp [MT7530_MIN_VID, MT7530_MAX_VID]
  · unfold mt7530_set_vid
    simp [MT7530_MIN_VID, MT7530_MAX_VID]

/-- C4 (the code at the failing inputs): `mt7530_get_vid` has no check of the
slot.  For slot 16 it returns 0 after reading register `0x120`, the read being
recorded in the trace; for slot -1 it returns 0 after reading register
`0x100`. -/
theorem get_vid_unchecked_slot {σ : Type} (H : Hw σ) (priv : mt7530_priv) (w : World σ) :
    mt7530_get_vid H priv w 16
      = ((0 : Int), (mt7530_r32 H priv w 0x120).1 &&& 0xfff, (mt7530_r32 H priv w 0x120).2) ∧
    (mt7530_get_vid H priv w 16).2.2.log
      = w.log ++ [RegAccess.r32 0x120 (mt7530_r32 H priv w 0x120).1] ∧
    mt7530_get_vid H priv w (-1)
      = ((0 : Int), ((mt7530_r32 H priv w 0x100).1 >>> 12) &&& 0xfff,
          (mt7530_r32 H priv w 0x100).2) := by
  have e1 : u32 (REG_ESW_VLAN_VTIM 16) = 0x120 := by decide
  have e2 : u32 (REG_ESW_VLAN_VTIM (-1)) = 0x100 := by decide
  refine ⟨?_, ?_, ?_⟩
  · unfold mt7530_get_vid
    simp only [e1]
    rfl
  · unfold mt7530_get_vid
    simp only [e1, mt7530_r32_log]
  · unfold mt7530_get_vid
    simp only [e2]
    rfl

/-! ## Disabled-mode `mt7530_apply_config` -/

section
variable {σ : Type} (H : Hw σ) (priv : mt7530_priv)

theorem foldl_w32_log (f : Nat → Nat) (v : Nat) (l : List Nat) (w : World σ) :
    (l.foldl (fun w i => mt7530_w32 H priv w (f i) v) w).log
      = w.log ++ l.map (fun i => RegAccess.w32 (f i) (v % 2 ^ 32)) := by
  induction l generalizing w with
  | nil => simp
  | cons a l ih => simp [ih]

theorem foldl_w32_console (f : Nat → Nat) (v : Nat) (l : List Nat) (w : World σ) :
    (l.foldl (fun w i => mt7530_w32 H priv w (f i) v) w).console = w.console := by
  induction l generalizing w with
  | nil => simp
  | cons a l ih => simp [ih]

/-- C8: with `global_vlan_enable` false, `mt7530_apply_config` returns 0 and
its trace is exactly sixteen writes and no read: `0x00ff0000` to
`REG_ESW_PORT_PCR(i)` and then `0x810000c0` to `REG_ESW_PORT_PVC(i)` for the
ports 0 to 7.  None of them addresses the CAM control register, VAWD1, VAWD2,
a VID-timing register or a PVID register, and nothing is printed. -/
theorem apply_config_disabled (w : World σ) (h : priv.global_vlan_enable = false) :
    (mt7530_apply_config H priv w).1 = 0 ∧
    (mt7530_apply_config H priv w).2.log = w.log ++ disabled_writes ∧
    (mt7530_apply_config H priv w).2.console = w.console ∧
    disabled_writes.length = 16 ∧
    disabled_writes
      = (List.range 8).map (fun i => RegAccess.w32 (REG_ESW_PORT_PCR i) 0x00ff0000)
        ++ (List.range 8).map (fun i => RegAccess.w32 (REG_ESW_PORT_PVC i) 0x810000c0) ∧
    (∀ reg val, RegAccess.r32 reg val ∉ disabled_writes) ∧
    (∀ reg val, RegAccess.w32 reg val ∈ disabled_writes →
      reg ≠ REG_ESW_VLAN_VTCR ∧ reg ≠ REG_ESW_VLAN_VAWD1 ∧ reg ≠ REG_ESW_VLAN_VAWD2 ∧
      (∀ i : Fin 16, reg ≠ u32 (REG_ESW_VLAN_VTIM i.val)) ∧
      (∀ i : Fin 8, reg ≠ REG_ESW_PORT_PPBV1 i.val)) := by
  have hl : disabled_writes
      = (List.range 8).map (fun i => RegAccess.w32 (REG_ESW_PORT_PCR i) 0x00ff0000)
        ++ (List.range 8).map (fun i => RegAccess.w32 (REG_ESW_PORT_PVC i) 0x810000c0) := by
    decide
  refine ⟨?_, ?_, ?_, by decide, hl, ?_, ?_⟩
  · unfold mt7530_apply_config
    simp [h]
  · unfold mt7530_apply_config
    simp only [h, Bool.false_eq_true, not_false_eq_true, if_true]
    rw [foldl_w32_log, foldl_w32_log, hl, List.append_assoc]
    rfl
  · unfold mt7530_apply_config
    simp only [h, Bool.false_eq_true, not_false_eq_true, if_true]
    rw [foldl_w32_console, foldl_w32_console]
  · intro reg val hm
    simp [disabled_writes] at hm
  · intro reg val hm
    simp only [disabled_writes, List.mem_cons, RegAccess.w32.injEq, List.mem_singleton,
      List.not_mem_nil, or_false] at hm
    have hreg : reg ∈ [0x2004, 0x2104, 0x2204, 0x2304, 0x2404, 0x2504, 0x2604, 0x2704,
        0x2010, 0x2110, 0x2210, 0x2310, 0x2410, 0x2510, 0x2610, 0x2710] := by
      simp only [List.mem_cons, List.mem_singleton]
      rcases hm with h | h | h | h | h | h | h | h | h | h | h | h | h | h | h | h <;>
        simp [h.1]
    revert hreg
    generalize reg = r
    revert r
    decide

end

/-! ## Link status decoding -/

section
variable {σ : Type} (H : Hw σ) (priv : mt7530_priv)

theorem and_one_ne_zero_iff (x : Nat) : (x &&& 1 ≠ 0) ↔ x.testBit 0 = true := by
  have := and_BIT_ne_zero_iff x 0
  unfold BIT at this
  exact this

theorem shiftRight_two_and_three_lt (x : Nat) : (x >>> 2) &&& 3 < 4 := by
  have : (x >>> 2) &&& 3 = (x >>> 2) % 2 ^ 2 := Nat.and_pow_two_sub_one_eq_mod _ 2
  rw [this]; exact Nat.mod_lt _ (by decide)

/-- C10: for a port in [0,7] `mt7530_get_port_link` returns 0 after one read
of the port status register (a 32-bit value); `link` is bit 0 and `duplex`
bit 1 of that value, whatever the other bits; the speed code, bits [3:2], is
always below 4 and decodes as 0 to 10 Mb/s, 1 to 100 Mb/s, 2 or 3 to
1000 Mb/s, any other code to unknown; the raw value `0b0101` gives link up,
half duplex, 100 Mb/s.  For a port outside [0,7] it returns `-EINVAL` and
touches neither `*link` nor the hardware. -/
theorem get_port_link_decode (w : World σ) (link : switch_port_link) :
    (∀ port : Fin 8,
      (mt7530_r32 H priv w (0x3008 + 0x100 * port.val)).1 < 2 ^ 32 ∧
      (mt7530_get_port_link H priv w (port.val : Int) link).1 = 0 ∧
      (mt7530_get_port_link H priv w (port.val : Int) link).2.2
        = (mt7530_r32 H priv w (0x3008 + 0x100 * port.val)).2 ∧
      (mt7530_get_port_link H priv w (port.val : Int) link).2.1.link
        = (mt7530_r32 H priv w (0x3008 + 0x100 * port.val)).1.testBit 0 ∧
      (mt7530_get_port_link H priv w (port.val : Int) link).2.1.duplex
        = (mt7530_r32 H priv w (0x3008 + 0x100 * port.val)).1.testBit 1 ∧
      (((mt7530_r32 H priv w (0x3008 + 0x100 * port.val)).1 >>> 2) &&& 3 = 0 →
        (mt7530_get_port_link H priv w (port.val : Int) link).2.1.speed
          = switch_port_speed.SWITCH_PORT_SPEED_10) ∧
      (((mt7530_r32 H priv w (0x3008 + 0x100 * port.val)).1 >>> 2) &&& 3 = 1 →
        (mt7530_get_port_link H priv w (port.val : Int) link).2.1.speed
          = switch_port_speed.SWITCH_PORT_SPEED_100) ∧
      (((mt7530_r32 H priv w (0x3008 + 0x100 * port.val)).1 >>> 2) &&& 3 = 2 ∨
       ((mt7530_r32 H priv w (0x3008 + 0x100 * port.val)).1 >>> 2) &&& 3 = 3 →
        (mt7530_get_port_link H priv w (port.val : Int) link).2.1.speed
          = switch_port_speed.SWITCH_PORT_SPEED_1000) ∧
      ((mt7530_r32 H priv w (0x3008 + 0x100 * port.val)).1 >>> 2) &&& 3 < 4 ∧
      (3 < ((mt7530_r32 H priv w (0x3008 + 0x100 * port.val)).1 >>> 2) &&& 3 →
        (mt7530_get_port_link H priv w (port.val : Int) link).2.1.speed
          = switch_port_speed.SWITCH_PORT_SPEED_UNKNOWN) ∧
      ((mt7530_r32 H priv w (0x3008 + 0x100 * port.val)).1 = 0b0101 →
        (mt7530_get_port_link H priv w (port.val : Int) link).2.1
          = { link := true, duplex := false,
              speed := switch_port_speed.SWITCH_PORT_SPEED_100 })) ∧
    (∀ port : Int, port < 0 ∨ port ≥ 8 →
      mt7530_get_port_link H priv w port link = (-EINVAL, link, w)) := by
  constructor
  · intro port
    have hreg : u32 (0x3008 + 0x100 * (port.val : Int)) = 0x3008 + 0x100 * port.val := by
      unfold u32
      have : (0x3008 + 0x100 * (port.val : Int)) % 2 ^ 32 = 0x3008 + 0x100 * (port.val : Int) :=
        Int.emod_eq_of_lt (by omega) (by omega)
      rw [this]
      omega
    have hnot : ¬ ((port.val : Int) < 0 ∨ (port.val : Int) ≥ MT7530_NUM_PORTS) := by
      have := port.isLt
      simp only [MT7530_NUM_PORTS]
      omega
    generalize hp : (mt7530_r32 H priv w (0x3008 + 0x100 * port.val)) = r
    have hlt : r.1 < 2 ^ 32 := by rw [← hp]; exact mt7530_r32_lt H priv w _
    have e : mt7530_get_port_link H priv w (port.val : Int) link
        = (0, { link with
                link := decide (r.1 &&& 1 ≠ 0)
                duplex := decide ((r.1 >>> 1) &&& 1 ≠ 0)
                speed :=
                  match (r.1 >>> 2) &&& 3 with
                  | 0 => switch_port_speed.SWITCH_PORT_SPEED_10
                  | 1 => switch_port_speed.SWITCH_PORT_SPEED_100
                  | 2 => switch_port_speed.SWITCH_PORT_SPEED_1000
                  | 3 => switch_port_speed.SWITCH_PORT_SPEED_1000
                  | _ => switch_port_speed.SWITCH_PORT_SPEED_UNKNOWN }, r.2) := by
      unfold mt7530_get_port_link
      simp only [hnot, if_false, hreg, hp]
    rw [e]
    refine ⟨hlt, rfl, rfl, ?_, ?_, ?_, ?_, ?_, shiftRight_two_and_three_lt r.1, ?_, ?_⟩
    · simp only [and_one_ne_zero_iff]
      cases r.1.testBit 0 <;> simp
    · simp only [and_one_ne_zero_iff, Nat.testBit_shiftRight]
      cases r.1.testBit (1 + 0) <;> simp
    · intro h; simp only [h]
    · intro h; simp only [h]
    · rintro (h | h) <;> simp only [h]
    · intro h
      have := shiftRight_two_and_three_lt r.1
      omega
    · intro h
      simp only [h]
      decide
  · intro port hport
    unfold mt7530_get_port_link
    have : port < 0 ∨ port ≥ (MT7530_NUM_PORTS : Int) := by
      simpa [MT7530_NUM_PORTS] using hport
    simp only [this, if_true]

/-- C10 at concrete inputs: port 2 of a device whose status register reads
`0b0101`, and the invalid port -1. -/
theorem get_port_link_decode_witness :
    ((-1 : Int) < 0 ∨ (-1 : Int) ≥ 8) ∧
    (mt7530_r32 (const_hw 5) priv0 world0 (0x3008 + 0x100 * (2 : Fin 8).val)).1 = 0b0101 ∧
    (mt7530_get_port_link (const_hw 5) priv0 world0 ((2 : Fin 8).val : Int)
        ⟨false, false, switch_port_speed.SWITCH_PORT_SPEED_UNKNOWN⟩).2.1
      = { link := true, duplex := false, speed := switch_port_speed.SWITCH_PORT_SPEED_100 } ∧
    mt7530_get_port_link (const_hw 5) priv0 world0 (-1)
        ⟨false, false, switch_port_speed.SWITCH_PORT_SPEED_UNKNOWN⟩
      = (-EINVAL, ⟨false, false, switch_port_speed.SWITCH_PORT_SPEED_UNKNOWN⟩, world0) :=
  ⟨by decide, by decide,
    ((get_port_link_decode (const_hw 5) priv0 world0
        ⟨false, false, switch_port_speed.SWITCH_PORT_SPEED_UNKNOWN⟩).1 2).2.2.2.2.2.2.2.2.2.2
      (by decide),
    (get_port_link_decode (const_hw 5) priv0 world0
        ⟨false, false, switch_port_speed.SWITCH_PORT_SPEED_UNKNOWN⟩).2 (-1) (by decide)⟩

end

/-! ## VID-timing register packing -/

theorem testBit_lt_of_lt_two_pow {x n i : Nat} (hx : x < 2 ^ n) (h : x.testBit i = true) :
    i < n := by
  by_contra hc
  have := Nat.testBit_lt_two_pow (x := x) (i := i)
    (lt_of_lt_of_le hx (Nat.pow_le_pow_right (by decide) (by omega)))
  simp [this] at h

theorem testBit_eq_false_of_lt_two_pow {x n i : Nat} (hx : x < 2 ^ n) (h : n ≤ i) :
    x.testBit i = false := by
  cases hb : x.testBit i
  · rfl
  · have := testBit_lt_of_lt_two_pow hx hb
    omega

theorem c_0xfff : (0xfff : Nat) = 2 ^ 12 - 1 := by decide
theorem c_0xfff000 : (0xfff000 : Nat) = (2 ^ 12 - 1) <<< 12 := by decide

theorem vtim_word_even (val vid : Nat) (hvid : vid < 2 ^ 12) :
    ((val &&& 0xfff000) ||| vid) &&& 0xfff = vid ∧
    (((val &&& 0xfff000) ||| vid) >>> 12) &&& 0xfff = (val >>> 12) &&& 0xfff := by
  rw [c_0xfff, c_0xfff000]
  constructor
  · apply Nat.eq_of_testBit_eq
    intro i
    simp only [Nat.testBit_and, Nat.testBit_or, Nat.testBit_shiftLeft,
      Nat.testBit_two_pow_sub_one]
    by_cases hi : i < 12
    · have : ¬ i ≥ 12 := by omega
      simp [hi, this]
    · simp [hi, testBit_eq_false_of_lt_two_pow hvid (by omega : 12 ≤ i)]
  · apply Nat.eq_of_testBit_eq
    intro i
    simp only [Nat.testBit_and, Nat.testBit_or, Nat.testBit_shiftLeft, Nat.testBit_shiftRight,
      Nat.testBit_two_pow_sub_one]
    have h1 : vid.testBit (12 + i) = false :=
      testBit_eq_false_of_lt_two_pow hvid (by omega)
    have h2 : 12 + i ≥ 12 := by omega
    have h3 : 12 + i - 12 = i := by omega
    simp [h1, h2, h3]

theorem vtim_word_odd (val vid : Nat) (hvid : vid < 2 ^ 12) :
    (((val &&& 0xfff) ||| (vid <<< 12)) >>> 12) &&& 0xfff = vid ∧
    ((val &&& 0xfff) ||| (vid <<< 12)) &&& 0xfff = val &&& 0xfff := by
  rw [c_0xfff]
  constructor
  · apply Nat.eq_of_testBit_eq
    intro i
    simp only [Nat.testBit_and, Nat.testBit_or, Nat.testBit_shiftLeft, Nat.testBit_shiftRight,
      Nat.testBit_two_pow_sub_one]
    have h2 : 12 + i ≥ 12 := by omega
    have h3 : 12 + i - 12 = i := by omega
    have h4 : ¬ 12 + i < 12 := by omega
    by_cases hi : i < 12
    · simp [h2, h3, h4, hi]
    · simp [h2, h3, h4, hi, testBit_eq_false_of_lt_two_pow hvid (by omega : 12 ≤ i)]
  · apply Nat.eq_of_testBit_eq
    intro i
    simp only [Nat.testBit_and, Nat.testBit_or, Nat.testBit_shiftLeft,
      Nat.testBit_two_pow_sub_one]
    by_cases hi : i < 12
    · have : ¬ i ≥ 12 := by omega
      simp [hi, this]
    · simp [hi]

theorem vtim_word_lt (i val vid : Nat) (hvid : vid < 2 ^ 12) :
    mt7530_vtim_word i val vid < 2 ^ 32 := by
  unfold mt7530_vtim_word
  split
  · apply Nat.or_lt_two_pow
    · exact lt_of_le_of_lt Nat.and_le_right (by decide)
    · exact lt_of_lt_of_le hvid (by decide)
  · apply Nat.or_lt_two_pow
    · exact lt_of_le_of_lt Nat.and_le_right (by decide)
    · rw [Nat.shiftLeft_eq]
      have : vid * 2 ^ 12 < 2 ^ 12 * 2 ^ 12 := Nat.mul_lt_mul_of_pos_right hvid (by decide)
      exact lt_of_lt_of_le this (by decide)

theorem u32_VTIM (i : Nat) (hi : i < 16) : u32 (REG_ESW_VLAN_VTIM (i : Int)) = 0x100 + 4 * (i / 2) := by
  unfold u32 REG_ESW_VLAN_VTIM
  have h1 : (i : Int).tdiv 2 = ((i / 2 : Nat) : Int) := by
    rw [Int.tdiv_eq_ediv (by omega) (by decide)]
    omega
  rw [h1]
  have : (0x100 + 4 * ((i / 2 : Nat) : Int)) % 2 ^ 32 = 0x100 + 4 * ((i / 2 : Nat) : Int) :=
    Int.emod_eq_of_lt (by omega) (by omega)
  rw [this]
  omega



section
variable {σ : Type} (H : Hw σ) (priv : mt7530_priv)

theorem vtcr_poll_log_prefix (n : Nat) (w : World σ) :
    ∃ rest, (mt7530_vtcr_poll H priv n w).2.log = w.log ++ rest := by
  induction n generalizing w with
  | zero => exact ⟨[], by simp [mt7530_vtcr_poll]⟩
  | succ n ih =>
    unfold mt7530_vtcr_poll
    by_cases h0 : (mt7530_r32 H priv w REG_ESW_VLAN_VTCR).1 &&& BIT 31 = 0
    · simp only [h0, if_true]
      exact ⟨_, mt7530_r32_log H priv w _⟩
    · simp only [h0, if_false]
      obtain ⟨rest, hr⟩ := ih (udelay H (mt7530_r32 H priv w REG_ESW_VLAN_VTCR).2 1000)
      rw [hr, udelay_log, mt7530_r32_log, List.append_assoc]
      exact ⟨_, rfl⟩

theorem vtcr_log_prefix (w : World σ) (cmd val : Nat) :
    ∃ rest, (mt7530_vtcr H priv w cmd val).log
      = w.log ++ RegAccess.w32 REG_ESW_VLAN_VTCR ((BIT 31 ||| (cmd <<< 12) ||| val) % 2 ^ 32)
          :: rest := by
  unfold mt7530_vtcr
  obtain ⟨rest, hr⟩ := vtcr_poll_log_prefix H priv 20
    (mt7530_w32 H priv w REG_ESW_VLAN_VTCR (BIT 31 ||| (cmd <<< 12) ||| val))
  refine ⟨rest, ?_⟩
  simp only []
  split
  · rw [printk_log, hr, mt7530_w32_log, List.append_assoc]; rfl
  · rw [hr, mt7530_w32_log, List.append_assoc]; rfl

theorem apply_vlan_log_prefix (w : World σ) (i : Fin 16) :
    ∃ rest, (mt7530_apply_vlan H priv w i).log
      = w.log ++
        RegAccess.r32 (u32 (REG_ESW_VLAN_VTIM i.val))
            (mt7530_r32 H priv w (u32 (REG_ESW_VLAN_VTIM i.val))).1
        :: RegAccess.w32 (u32 (REG_ESW_VLAN_VTIM i.val))
            (mt7530_vtim_word i.val (mt7530_r32 H priv w (u32 (REG_ESW_VLAN_VTIM i.val))).1
              ((priv.vlan_entries i).vid % 2 ^ 16) % 2 ^ 32)
        :: rest := by
  unfold mt7530_apply_vlan
  simp only []
  obtain ⟨rest, hr⟩ := vtcr_log_prefix H priv
    (mt7530_w32 H priv
      (if (priv.vlan_entries i).member % 2 ^ 8 ≠ 0 then
        mt7530_w32 H priv
          (mt7530_w32 H priv (mt7530_r32 H priv w (u32 (REG_ESW_VLAN_VTIM i.val))).2
            (u32 (REG_ESW_VLAN_VTIM i.val))
            (mt7530_vtim_word i.val (mt7530_r32 H priv w (u32 (REG_ESW_VLAN_VTIM i.val))).1
              ((priv.vlan_entries i).vid % 2 ^ 16)))
          REG_ESW_VLAN_VAWD1
          (REG_ESW_VLAN_VAWD1_IVL_MAC ||| REG_ESW_VLAN_VAWD1_VTAG_EN |||
            ((priv.vlan_entries i).member % 2 ^ 8) <<< 16 ||| REG_ESW_VLAN_VAWD1_VALID)
      else
        mt7530_w32 H priv
          (mt7530_w32 H priv (mt7530_r32 H priv w (u32 (REG_ESW_VLAN_VTIM i.val))).2
            (u32 (REG_ESW_VLAN_VTIM i.val))
            (mt7530_vtim_word i.val (mt7530_r32 H priv w (u32 (REG_ESW_VLAN_VTIM i.val))).1
              ((priv.vlan_entries i).vid % 2 ^ 16)))
          REG_ESW_VLAN_VAWD1 0)
      REG_ESW_VLAN_VAWD2 (mt7530_etag_word ((priv.vlan_entries i).etags % 2 ^ 8)))
    1 i.val
  rw [hr]
  split <;> simp

end

/-- C7: the word `mt7530_apply_config` writes back to the VID-timing register
of slot `i`, computed from the value `old` just read and a `vid` in [0,4094],
holds `vid` in the slot's own 12-bit field (bits 0-11 for an even slot, bits
12-23 for an odd one) and keeps the other 12-bit field as it was in `old`;
and the slot's step of the enabled-mode loop begins with exactly that read and
that write of register `0x100 + 4 * (i / 2)`. -/
theorem apply_vlan_vtim_isolated (i : Fin 16) (old vid : Nat) (hvid : vid ≤ 4094) :
    (i.val % 2 = 0 →
      mt7530_vtim_word i.val old vid &&& 0xfff = vid ∧
      (mt7530_vtim_word i.val old vid >>> 12) &&& 0xfff = (old >>> 12) &&& 0xfff) ∧
    (i.val % 2 = 1 →
      (mt7530_vtim_word i.val old vid >>> 12) &&& 0xfff = vid ∧
      mt7530_vtim_word i.val old vid &&& 0xfff = old &&& 0xfff) ∧
    (∀ {σ : Type} (H : Hw σ) (priv : mt7530_priv) (w : World σ),
      (priv.vlan_entries i).vid = vid →
      (mt7530_r32 H priv w (0x100 + 4 * (i.val / 2))).1 = old →
      ∃ rest, (mt7530_apply_vlan H priv w i).log
        = w.log ++ RegAccess.r32 (0x100 + 4 * (i.val / 2)) old
            :: RegAccess.w32 (0x100 + 4 * (i.val / 2)) (mt7530_vtim_word i.val old vid)
            :: rest) := by
  have hv : vid < 2 ^ 12 := by
    have : (2 : Nat) ^ 12 = 4096 := by decide
    omega
  refine ⟨?_, ?_, ?_⟩
  · intro h
    unfold mt7530_vtim_word
    simp only [h, if_true]
    exact vtim_word_even old vid hv
  · intro h
    unfold mt7530_vtim_word
    have : ¬ i.val % 2 = 0 := by omega
    simp only [this, if_false]
    exact vtim_word_odd old vid hv
  · intro σ H priv w hpv hr
    obtain ⟨rest, hrest⟩ := apply_vlan_log_prefix H priv w i
    refine ⟨rest, ?_⟩
    have h16 : vid % 2 ^ 16 = vid := Nat.mod_eq_of_lt (lt_trans hv (by decide))
    rw [hrest, u32_VTIM i.val i.isLt, hr, hpv, h16,
      Nat.mod_eq_of_lt (vtim_word_lt i.val old vid hv)]


/-- C7 at a concrete input: odd slot 3, prior register value `0xabc123`, vid
`0x456`. -/
theorem apply_vlan_vtim_isolated_witness :
    (0x456 : Nat) ≤ 4094 ∧ (3 : Fin 16).val % 2 = 1 ∧
    (mt7530_vtim_word (3 : Fin 16).val 0xabc123 0x456 >>> 12) &&& 0xfff = 0x456 ∧
    mt7530_vtim_word (3 : Fin 16).val 0xabc123 0x456 &&& 0xfff = 0xabc123 &&& 0xfff :=
  ⟨by decide, by decide,
    (apply_vlan_vtim_isolated 3 0xabc123 0x456 (by decide)).2.1 (by decide)⟩
/-! ## The claims exercised on the stateless device -/

/-- C8 at a concrete input: the zeroed state with VLANs disabled, on the
stateless device. -/
theorem apply_config_disabled_witness :
    ({ priv0 with global_vlan_enable := false } : mt7530_priv).global_vlan_enable = false ∧
    (mt7530_apply_config (const_hw 0) { priv0 with global_vlan_enable := false } world0).2.log
      = world0.log ++ disabled_writes :=
  ⟨rfl, (apply_config_disabled (const_hw 0) { priv0 with global_vlan_enable := false }
      world0 rfl).2.1⟩

theorem poll_value_const (v : Nat) (w : World Unit) (j : Nat) :
    poll_value (const_hw v) priv0 w j = v % 2 ^ 32 := by
  unfold poll_value mt7530_r32
  rfl

/-- C9 at concrete inputs: command 1, slot 3, on a device that always reads
`0xffffffff` (never ready: 20 polls) and on one that always reads 0 (ready
at the first poll). -/
theorem vtcr_poll_bound_witness :
    (∀ j < 20, poll_value (const_hw 0xffffffff) priv0
        (mt7530_w32 (const_hw 0xffffffff) priv0 world0 REG_ESW_VLAN_VTCR
          (BIT 31 ||| (1 <<< 12) ||| 3)) j &&& BIT 31 ≠ 0) ∧
    (mt7530_vtcr (const_hw 0xffffffff) priv0 world0 1 3).log
      = RegAccess.w32 0x90 0x80001003 :: List.replicate 20 (RegAccess.r32 0x90 0xffffffff) ∧
    (mt7530_vtcr (const_hw 0) priv0 world0 1 3).log
      = [RegAccess.w32 0x90 0x80001003, RegAccess.r32 0x90 0] :=
  ⟨fun j _ => by rw [poll_value_const]; decide,
   (((vtcr_poll_bound (const_hw 0xffffffff) priv0 world0 1 3).1
      (fun j _ => by rw [poll_value_const]; decide)).1).trans
      (by simp only [poll_value_const]; decide),
   (((vtcr_poll_bound (const_hw 0) priv0 world0 1 3).2 1 (by decide) (by decide)
      (fun j hj => absurd hj (Nat.not_lt_zero j)) (by rw [poll_value_const]; decide)).1).trans
      (by simp only [poll_value_const]; decide)⟩

/-! ## Both transports implement the chip model -/

theorem mmio_chip_transport (base : Nat) : ChipTransport (mmio_hw base) none base id := by
  constructor
  · intro priv w reg hbus hbase _ _
    unfold mt7530_r32
    simp [hbus, hbase, mmio_hw]
  · intro priv w reg hbus hbase _ _
    unfold mt7530_r32
    simp [hbus, hbase, mmio_hw]
  · intro priv w reg val hbus hbase _ _
    unfold mt7530_w32
    simp [hbus, hbase, mmio_hw]
  · intro s n
    rfl

theorem c_0x3ff : (0x3ff : Nat) = 2 ^ 10 - 1 := by decide
theorem c_0xf : (0xf : Nat) = 2 ^ 4 - 1 := by decide
theorem c_0xffff : (0xffff : Nat) = 2 ^ 16 - 1 := by decide

/-- The page selector and the data sub-register of an aligned address below
`0x10000` determine the address. -/
theorem mdio_addr_roundtrip (reg : Nat) (ha : reg % 4 = 0) (hlt : reg < 2 ^ 16) :
    ((((reg >>> 6) &&& 0x3ff) &&& 0x3ff) <<< 6) ||| ((((reg >>> 2) &&& 0xf) &&& 0xf) <<< 2)
      = reg := by
  rw [c_0x3ff, c_0xf]
  apply Nat.eq_of_testBit_eq
  intro i
  simp only [Nat.testBit_or, Nat.testBit_and, Nat.testBit_shiftLeft, Nat.testBit_shiftRight,
    Nat.testBit_two_pow_sub_one]
  by_cases h6 : i ≥ 6
  · have e : 6 + (i - 6) = i := by omega
    by_cases h16 : i < 16
    · have : i - 6 < 10 := by omega
      have h2 : ¬ (i - 2 < 4) := by omega
      simp [h6, e, this, h2]
    · have : reg.testBit i = false := testBit_eq_false_of_lt_two_pow hlt (by omega)
      have h1 : ¬ (i - 6 < 10) := by omega
      have h2 : ¬ (i - 2 < 4) := by omega
      simp [h6, e, this, h1, h2]
  · by_cases h2 : i ≥ 2
    · have e : 2 + (i - 2) = i := by omega
      have : i - 2 < 4 := by omega
      simp [h6, h2, e, this]
    · have hb : reg.testBit i = false := by
        have h4 : reg = 4 * (reg / 4) := by omega
        rw [h4, Nat.testBit_to_div_mod]
        have : i = 0 ∨ i = 1 := by omega
        rcases this with h | h <;> subst h <;> simp <;> omega
      simp [h6, h2, hb]

theorem mdio_val_roundtrip (v : Nat) :
    (((((v >>> 16) &&& 0xffff) % 2 ^ 16) <<< 16) ||| (((v &&& 0xffff) % 2 ^ 16) &&& 0xffff))
        % 2 ^ 32 = v % 2 ^ 32 := by
  rw [c_0xffff]
  apply Nat.eq_of_testBit_eq
  intro i
  simp only [Nat.testBit_mod_two_pow, Nat.testBit_or, Nat.testBit_and, Nat.testBit_shiftLeft,
    Nat.testBit_shiftRight, Nat.testBit_two_pow_sub_one]
  by_cases h16 : i ≥ 16
  · have e : 16 + (i - 16) = i := by omega
    by_cases h32 : i < 32
    · have : i - 16 < 16 := by omega
      have h1 : ¬ i < 16 := by omega
      simp [h16, e, this, h1, h32]
    · simp [h32]
  · have : i < 16 := by omega
    have h32 : i < 32 := by omega
    simp [h16, this, h32]

theorem mdio_val_split (v : Nat) (hv : v < 2 ^ 32) :
    ((((v >>> 16) &&& 0xffff) <<< 16) ||| (v &&& 0xffff)) = v := by
  rw [c_0xffff]
  apply Nat.eq_of_testBit_eq
  intro i
  simp only [Nat.testBit_or, Nat.testBit_and, Nat.testBit_shiftLeft,
    Nat.testBit_shiftRight, Nat.testBit_two_pow_sub_one]
  by_cases h16 : i ≥ 16
  · have e : 16 + (i - 16) = i := by omega
    by_cases h32 : i < 32
    · have : i - 16 < 16 := by omega
      have h1 : ¬ i < 16 := by omega
      simp [h16, e, this, h1]
    · have : v.testBit i = false := testBit_eq_false_of_lt_two_pow hv (by omega)
      simp [this, e, h16]
  · have : i < 16 := by omega
    simp [h16, this]

theorem mdio_chip_transport (b base : Nat) :
    ChipTransport mdio_hw (some b) base MdioChip.chip := by
  constructor
  · intro priv w reg hbus hbase ha hlt
    unfold mt7530_r32
    simp only [hbus, mdio_hw, ne_eq, not_true_eq_false, if_false, if_true,
      show ((0x10 : Nat) = 0x1f) = False from by decide]
    have hsub : ¬ ((reg >>> 2) &&& 0xf = 0x1f) := by
      have : (reg >>> 2) &&& 0xf < 16 := by
        rw [c_0xf, Nat.and_pow_two_sub_one_eq_mod]; exact Nat.mod_lt _ (by decide)
      omega
    have hsub2 : ¬ ((reg >>> 2) &&& 0xf = 0x10) := by
      have : (reg >>> 2) &&& 0xf < 16 := by
        rw [c_0xf, Nat.and_pow_two_sub_one_eq_mod]; exact Nat.mod_lt _ (by decide)
      omega
    simp only [hsub, hsub2, if_false]
    rw [mdio_addr_roundtrip reg ha hlt]
    exact mdio_val_roundtrip _
  · intro priv w reg hbus hbase ha hlt
    unfold mt7530_r32
    simp only [hbus, mdio_hw, ne_eq, not_true_eq_false, if_false, if_true,
      show ((0x10 : Nat) = 0x1f) = False from by decide]
    have hsub : ¬ ((reg >>> 2) &&& 0xf = 0x1f) := by
      have : (reg >>> 2) &&& 0xf < 16 := by
        rw [c_0xf, Nat.and_pow_two_sub_one_eq_mod]; exact Nat.mod_lt _ (by decide)
      omega
    have hsub2 : ¬ ((reg >>> 2) &&& 0xf = 0x10) := by
      have : (reg >>> 2) &&& 0xf < 16 := by
        rw [c_0xf, Nat.and_pow_two_sub_one_eq_mod]; exact Nat.mod_lt _ (by decide)
      omega
    simp only [hsub, hsub2, if_false]
  · intro priv w reg val hbus hbase ha hlt
    unfold mt7530_w32
    simp only [hbus, mdio_hw, ne_eq, not_true_eq_false, if_false, if_true,
      show ((0x10 : Nat) = 0x1f) = False from by decide]
    have hsub : ¬ ((reg >>> 2) &&& 0xf = 0x1f) := by
      have : (reg >>> 2) &&& 0xf < 16 := by
        rw [c_0xf, Nat.and_pow_two_sub_one_eq_mod]; exact Nat.mod_lt _ (by decide)
      omega
    have hsub2 : ¬ ((reg >>> 2) &&& 0xf = 0x10) := by
      have : (reg >>> 2) &&& 0xf < 16 := by
        rw [c_0xf, Nat.and_pow_two_sub_one_eq_mod]; exact Nat.mod_lt _ (by decide)
      omega
    simp only [hsub, hsub2, if_false]
    rw [mdio_addr_roundtrip reg ha hlt]
    have hand : (val % 2 ^ 32 &&& 0xffff) &&& 0xffff = val % 2 ^ 32 &&& 0xffff := by
      rw [Nat.and_assoc, Nat.and_self]
    rw [hand, mdio_val_split _ (Nat.mod_lt _ (by decide))]
  · intro s n
    rfl

/-! ## Enabled-mode `mt7530_apply_config` over the chip model -/

theorem Chip.write_of_ne (c : Chip) (reg val : Nat) (h : reg ≠ REG_ESW_VLAN_VTCR) :
    c.write reg val = { c with regs := Function.update c.regs reg val } := by
  unfold Chip.write
  simp [h]

theorem Chip.write_vtcr_busy_clear (c : Chip) (val : Nat) :
    ((c.write REG_ESW_VLAN_VTCR val).read REG_ESW_VLAN_VTCR % 2 ^ 32) &&& BIT 31 = 0 := by
  rw [and_BIT_eq_zero_iff, Nat.testBit_mod_two_pow]
  have hdone : (val &&& 0x7fffffff).testBit 31 = false := by
    rw [show (0x7fffffff : Nat) = 2 ^ 31 - 1 from by decide, Nat.testBit_and,
      Nat.testBit_two_pow_sub_one]
    simp
  have h1 : REG_ESW_VLAN_VAWD1 ≠ REG_ESW_VLAN_VTCR := by decide
  have h2 : REG_ESW_VLAN_VAWD2 ≠ REG_ESW_VLAN_VTCR := by decide
  unfold Chip.write Chip.read
  by_cases hb : val &&& BIT 31 ≠ 0
  · simp only [hb, true_and, if_true, ne_eq, not_false_eq_true, and_self]
    split
    · simp [hdone]
    · split
      · simp [Function.update_noteq h1.symm, Function.update_noteq h2.symm, hdone]
      · simp [hdone]
  · simp only [hb, and_false, if_false]
    have : val.testBit 31 = false := by
      rw [← and_BIT_eq_zero_iff]; simpa using hb
    simp [this]

theorem Chip.write_vtcr_store (c : Chip) (val : Nat) (hb : val &&& BIT 31 ≠ 0)
    (hc : (val >>> 12) &&& 0xf = 1) :
    (c.write REG_ESW_VLAN_VTCR val).cam
      = Function.update c.cam (val &&& 0xfff)
          (c.regs REG_ESW_VLAN_VAWD1, c.regs REG_ESW_VLAN_VAWD2) := by
  unfold Chip.write
  simp only [hb, hc, true_and, if_true, ne_eq, not_false_eq_true, and_self]

theorem Chip.write_vtcr_load (c : Chip) (val : Nat) (hb : val &&& BIT 31 ≠ 0)
    (hc : (val >>> 12) &&& 0xf = 0) :
    (c.write REG_ESW_VLAN_VTCR val).read REG_ESW_VLAN_VAWD1 = (c.cam (val &&& 0xfff)).1 ∧
    (c.write REG_ESW_VLAN_VTCR val).read REG_ESW_VLAN_VAWD2 = (c.cam (val &&& 0xfff)).2 := by
  have h12 : REG_ESW_VLAN_VAWD1 ≠ REG_ESW_VLAN_VAWD2 := by decide
  unfold Chip.write Chip.read
  simp only [hb, hc, true_and, if_true, ne_eq, not_false_eq_true, and_self,
    show ((0 : Nat) = 1) = False from by decide, if_false]
  simp [Function.update_noteq h12]

/-- Fields of the command words the driver issues for a slot below 16. -/
theorem vtcr_word_fields :
    ∀ i : Fin 16,
      ((BIT 31 ||| (1 <<< 12) ||| i.val) % 2 ^ 32) &&& BIT 31 ≠ 0 ∧
      (((BIT 31 ||| (1 <<< 12) ||| i.val) % 2 ^ 32) >>> 12) &&& 0xf = 1 ∧
      ((BIT 31 ||| (1 <<< 12) ||| i.val) % 2 ^ 32) &&& 0xfff = i.val ∧
      ((BIT 31 ||| (0 <<< 12) ||| i.val) % 2 ^ 32) &&& BIT 31 ≠ 0 ∧
      (((BIT 31 ||| (0 <<< 12) ||| i.val) % 2 ^ 32) >>> 12) &&& 0xf = 0 ∧
      ((BIT 31 ||| (0 <<< 12) ||| i.val) % 2 ^ 32) &&& 0xfff = i.val := by
  decide

theorem ppbv1_reg_ok :
    ∀ i : Fin 8, REG_ESW_PORT_PPBV1 i.val % 4 = 0 ∧ REG_ESW_PORT_PPBV1 i.val < 2 ^ 16 ∧
      REG_ESW_PORT_PPBV1 i.val ≠ REG_ESW_VLAN_VTCR := by
  decide

theorem vtim_reg_ok (i : Fin 16) :
    u32 (REG_ESW_VLAN_VTIM i.val) % 4 = 0 ∧ u32 (REG_ESW_VLAN_VTIM i.val) < 2 ^ 16 ∧
      u32 (REG_ESW_VLAN_VTIM i.val) ≠ REG_ESW_VLAN_VTCR ∧
      u32 (REG_ESW_VLAN_VTIM i.val) ≠ REG_ESW_VLAN_VAWD1 ∧
      u32 (REG_ESW_VLAN_VTIM i.val) ≠ REG_ESW_VLAN_VAWD2 := by
  rw [u32_VTIM i.val i.isLt]
  have := i.isLt
  simp only [REG_ESW_VLAN_VTCR, REG_ESW_VLAN_VAWD1, REG_ESW_VLAN_VAWD2]
  omega

section
variable {σ : Type} {H : Hw σ} {bus : Option Nat} {base : Nat} {abs : σ → Chip}

theorem vtcr_chip (hT : ChipTransport H bus base abs) (priv : mt7530_priv)
    (hbus : priv.bus = bus) (hbase : priv.base = base) (w : World σ) (cmd val : Nat) :
    abs (mt7530_vtcr H priv w cmd val).hw
      = (abs w.hw).write REG_ESW_VLAN_VTCR ((BIT 31 ||| (cmd <<< 12) ||| val) % 2 ^ 32) := by
  have hreg : REG_ESW_VLAN_VTCR % 4 = 0 ∧ REG_ESW_VLAN_VTCR < 2 ^ 16 := by decide
  have hw1 := hT.write_hw priv w REG_ESW_VLAN_VTCR (BIT 31 ||| (cmd <<< 12) ||| val)
    hbus hbase hreg.1 hreg.2
  have hc : poll_value H priv
      (mt7530_w32 H priv w REG_ESW_VLAN_VTCR (BIT 31 ||| (cmd <<< 12) ||| val)) 0
      &&& BIT 31 = 0 := by
    unfold poll_value poll_world
    rw [hT.read_val priv _ REG_ESW_VLAN_VTCR hbus hbase hreg.1 hreg.2, hw1]
    exact Chip.write_vtcr_busy_clear _ _
  unfold mt7530_vtcr
  simp only [vtcr_poll_clear H priv 20 0 _ (by decide) (fun j hj => absurd hj (Nat.not_lt_zero j))
    hc, Bool.false_eq_true, if_false]
  unfold poll_world
  rw [hT.read_hw priv _ REG_ESW_VLAN_VTCR hbus hbase hreg.1 hreg.2, hw1]

theorem apply_vlan_w2 (priv : mt7530_priv) (w1 : World σ) (member : Nat) :
    (if member ≠ 0 then
        mt7530_w32 H priv w1 REG_ESW_VLAN_VAWD1
          (REG_ESW_VLAN_VAWD1_IVL_MAC ||| REG_ESW_VLAN_VAWD1_VTAG_EN ||| (member <<< 16) |||
            REG_ESW_VLAN_VAWD1_VALID)
      else mt7530_w32 H priv w1 REG_ESW_VLAN_VAWD1 0)
      = mt7530_w32 H priv w1 REG_ESW_VLAN_VAWD1 (mt7530_vawd1_word member) := by
  unfold mt7530_vawd1_word
  split <;> rfl

/-- The VLAN table after the step for slot `i` of the enabled-mode loop. -/
theorem apply_vlan_cam (hT : ChipTransport H bus base abs) (priv : mt7530_priv)
    (hbus : priv.bus = bus) (hbase : priv.base = base) (w : World σ) (i : Fin 16) :
    (abs (mt7530_apply_vlan H priv w i).hw).cam
      = Function.update (abs w.hw).cam i.val
          (mt7530_vawd1_word ((priv.vlan_entries i).member % 2 ^ 8) % 2 ^ 32,
           mt7530_etag_word ((priv.vlan_entries i).etags % 2 ^ 8) % 2 ^ 32) := by
  obtain ⟨hv4, hv16, hv1, hv2, hv3⟩ := vtim_reg_ok i
  have ha1 : REG_ESW_VLAN_VAWD1 % 4 = 0 ∧ REG_ESW_VLAN_VAWD1 < 2 ^ 16 ∧
      REG_ESW_VLAN_VAWD1 ≠ REG_ESW_VLAN_VTCR := by decide
  have ha2 : REG_ESW_VLAN_VAWD2 % 4 = 0 ∧ REG_ESW_VLAN_VAWD2 < 2 ^ 16 ∧
      REG_ESW_VLAN_VAWD2 ≠ REG_ESW_VLAN_VTCR ∧ REG_ESW_VLAN_VAWD1 ≠ REG_ESW_VLAN_VAWD2 := by
    decide
  obtain ⟨hf1, hf2, hf3, -, -, -⟩ := vtcr_word_fields i
  unfold mt7530_apply_vlan
  simp only [apply_vlan_w2]
  rw [vtcr_chip hT priv hbus hbase, hT.write_hw priv _ _ _ hbus hbase ha2.1 ha2.2.1,
    hT.write_hw priv _ _ _ hbus hbase ha1.1 ha1.2.1,
    hT.write_hw priv _ _ _ hbus hbase hv4 hv16,
    hT.read_hw priv _ _ hbus hbase hv4 hv16,
    Chip.write_vtcr_store _ _ hf1 hf2, hf3,
    Chip.write_of_ne _ _ _ hv1, Chip.write_of_ne _ _ _ ha1.2.2, Chip.write_of_ne _ _ _ ha2.2.2.1]
  simp [Function.update_noteq ha2.2.2.2]

theorem apply_pvid_cam (hT : ChipTransport H bus base abs) (priv : mt7530_priv)
    (hbus : priv.bus = bus) (hbase : priv.base = base) (w : World σ) (i : Fin 8) :
    (abs (mt7530_apply_pvid H priv w i).hw).cam = (abs w.hw).cam := by
  obtain ⟨h4, h16, hne⟩ := ppbv1_reg_ok i
  unfold mt7530_apply_pvid
  simp only []
  rw [hT.write_hw priv _ _ _ hbus hbase h4 h16, hT.read_hw priv _ _ hbus hbase h4 h16,
    Chip.write_of_ne _ _ _ hne]

theorem foldl_apply_pvid_cam (hT : ChipTransport H bus base abs) (priv : mt7530_priv)
    (hbus : priv.bus = bus) (hbase : priv.base = base) (l : List (Fin 8)) (w : World σ) :
    (abs (l.foldl (mt7530_apply_pvid H priv) w).hw).cam = (abs w.hw).cam := by
  induction l generalizing w with
  | nil => rfl
  | cons a l ih => rw [List.foldl_cons, ih, apply_pvid_cam hT priv hbus hbase]

theorem foldl_apply_vlan_cam (hT : ChipTransport H bus base abs) (priv : mt7530_priv)
    (hbus : priv.bus = bus) (hbase : priv.base = base) (l : List (Fin 16)) (w : World σ)
    (s : Fin 16) (hs : s ∈ l) :
    (abs (l.foldl (mt7530_apply_vlan H priv) w).hw).cam s.val
      = (mt7530_vawd1_word ((priv.vlan_entries s).member % 2 ^ 8) % 2 ^ 32,
         mt7530_etag_word ((priv.vlan_entries s).etags % 2 ^ 8) % 2 ^ 32) := by
  induction l using List.reverseRecOn with
  | nil => simp at hs
  | append_singleton l a ih =>
    rw [List.foldl_append, List.foldl_cons, List.foldl_nil, apply_vlan_cam hT priv hbus hbase]
    by_cases hsa : s = a
    · subst hsa
      simp
    · have : s.val ≠ a.val := fun h => hsa (Fin.ext h)
      rw [Function.update_noteq this]
      apply ih
      simpa [hsa] using hs

/-- After an enabled-mode `mt7530_apply_config` over the chip model, the VLAN
table holds for every slot the VAWD1 and VAWD2 words built from the slot's
`member` and `etags`. -/
theorem apply_config_cam (hT : ChipTransport H bus base abs) (priv : mt7530_priv)
    (hbus : priv.bus = bus) (hbase : priv.base = base) (hen : priv.global_vlan_enable = true)
    (w : World σ) (s : Fin 16) :
    (abs (mt7530_apply_config H priv w).2.hw).cam s.val
      = (mt7530_vawd1_word ((priv.vlan_entries s).member % 2 ^ 8) % 2 ^ 32,
         mt7530_etag_word ((priv.vlan_entries s).etags % 2 ^ 8) % 2 ^ 32) := by
  unfold mt7530_apply_config
  simp only [hen, not_true_eq_false, if_false]
  rw [foldl_apply_pvid_cam hT priv hbus hbase]
  exact foldl_apply_vlan_cam hT priv hbus hbase _ _ s (List.mem_finRange s)

end
/-! ## Decoding in `mt7530_get_vlan_ports` -/

section
variable {σ : Type}

theorem vlan_ports_list_push (v : vlan_ports_val σ) (p : switch_port) (w : World σ) :
    vlan_ports_val.list
        ({ len := v.len + 1, ports := Function.update v.ports v.len p, world := w } :
          vlan_ports_val σ)
      = v.list ++ [p] := by
  unfold vlan_ports_val.list
  simp only [List.range_succ, List.map_append, List.map_cons, List.map_nil,
    Function.update_same]
  congr 1
  apply List.map_congr_left
  intro k hk
  have : k ≠ v.len := by
    have := List.mem_range.1 hk
    omega
  exact Function.update_noteq this _ _

theorem and_three_eq_two_iff (x : Nat) : x &&& 3 = 2 ↔ (x.testBit 1 = true ∧ x.testBit 0 = false) := by
  have h3 : x &&& 3 = x % 2 ^ 2 := Nat.and_pow_two_sub_one_eq_mod x 2
  rw [h3, Nat.testBit_to_div_mod, Nat.testBit_to_div_mod]
  simp only [decide_eq_true_eq, decide_eq_false_iff_not]
  omega

theorem get_vlan_ports_step_spec (T : Nat) (hT : T < 32) (member etags : Nat)
    (v : vlan_ports_val σ) (i : Nat)
    (hclean : ∀ k, v.len ≤ k → (v.ports k).flags.testBit T = false) :
    ((mt7530_get_vlan_ports_step T member etags v i).list.map (switch_port.key T)
      = v.list.map (switch_port.key T)
        ++ (if member.testBit i then [(i, decide ((etags >>> (i * 2)) &&& 0x3 = 2))] else [])) ∧
    (∀ k, (mt7530_get_vlan_ports_step T member etags v i).len ≤ k →
      ((mt7530_get_vlan_ports_step T member etags v i).ports k).flags.testBit T = false) := by
  unfold mt7530_get_vlan_ports_step
  by_cases hm : member &&& BIT i = 0
  · have hb : member.testBit i = false := (and_BIT_eq_zero_iff _ _).1 hm
    simp only [hm, if_true, hb, Bool.false_eq_true, if_false, List.append_nil, true_and]
    exact hclean
  · have hb : member.testBit i = true := (and_BIT_ne_zero_iff _ _).1 hm
    have hc := hclean v.len (Nat.le_refl _)
    simp only [hm, if_false, hb, if_true]
    by_cases h2 : (etags >>> (i * 2)) &&& 0x3 = ETAG_CTRL_TAG
    · simp only [h2, if_true]
      constructor
      · rw [vlan_ports_list_push, List.map_append]
        simp only [List.map_cons, List.map_nil, switch_port.key, ETAG_CTRL_TAG, decide_True,
          Nat.testBit_mod_two_pow, Nat.testBit_or, testBit_BIT, hT, Bool.or_true,
          Bool.and_true]
      · intro k hk
        have hk' : v.len + 1 ≤ k := hk
        have hne : k ≠ v.len := by omega
        simp only [Function.update_noteq hne]
        exact hclean k (by omega)
    · have h2' : ¬ ((etags >>> (i * 2)) &&& 0x3 = 2) := h2
      simp only [h2, if_false]
      split
      · constructor
        · rw [vlan_ports_list_push, List.map_append]
          simp only [List.map_cons, List.map_nil, switch_port.key, h2', decide_False, hc]
        · intro k hk
          have hk' : v.len + 1 ≤ k := hk
          have hne : k ≠ v.len := by omega
          simp only [Function.update_noteq hne]
          exact hclean k (by omega)
      · constructor
        · rw [vlan_ports_list_push, List.map_append]
          simp only [List.map_cons, List.map_nil, switch_port.key, h2', decide_False, hc]
        · intro k hk
          have hk' : v.len + 1 ≤ k := hk
          have hne : k ≠ v.len := by omega
          simp only [Function.update_noteq hne]
          exact hclean k (by omega)

theorem get_vlan_ports_fold_spec (T : Nat) (hT : T < 32) (member etags : Nat) (l : List Nat)
    (v : vlan_ports_val σ)
    (hclean : ∀ k, v.len ≤ k → (v.ports k).flags.testBit T = false) :
    (l.foldl (mt7530_get_vlan_ports_step T member etags) v).list.map (switch_port.key T)
      = v.list.map (switch_port.key T)
        ++ (l.filter (fun i => member.testBit i)).map
            (fun i => (i, decide ((etags >>> (i * 2)) &&& 0x3 = 2))) := by
  induction l generalizing v with
  | nil => simp
  | cons a l ih =>
    obtain ⟨h1, h2⟩ := get_vlan_ports_step_spec T hT member etags v a hclean
    rw [List.foldl_cons, ih _ h2, h1, List.append_assoc]
    congr 1
    by_cases hb : member.testBit a = true
    · simp [hb, List.filter_cons]
    · simp [hb, List.filter_cons]

end

set_option maxRecDepth 100000 in
theorem vawd1_word_member :
    ∀ m : Fin 256, ((mt7530_vawd1_word (m.val % 2 ^ 8) % 2 ^ 32 % 2 ^ 32) >>> 16) &&& 0xff
      = m.val := by
  decide

set_option maxRecDepth 100000 in
theorem etag_word_field :
    ∀ e : Fin 256, ∀ i : Fin 8,
      (((mt7530_etag_word (e.val % 2 ^ 8) % 2 ^ 32 % 2 ^ 32) >>> (i.val * 2)) &&& 0x3 = 2)
        ↔ e.val.testBit i.val = true := by
  decide

/-! ## Round trip of a port list through the hardware -/

section
variable {σ : Type} {H : Hw σ} {bus : Option Nat} {base : Nat} {abs : σ → Chip}

/-- Over the chip model, `mt7530_get_vlan_ports` on a slot in [0,15] returns 0
and decodes the VAWD1/VAWD2 words the VLAN table holds for that slot. -/
theorem get_vlan_ports_chip (hT : ChipTransport H bus base abs) (priv : mt7530_priv)
    (hbus : priv.bus = bus) (hbase : priv.base = base) (w : World σ) (slot : Fin 16)
    (buf : Nat → switch_port) (T : Nat) :
    ∃ w2 : World σ,
      mt7530_get_vlan_ports T H priv w (slot.val : Int) buf
        = ((0 : Int), (List.range MT7530_NUM_PORTS).foldl
            (mt7530_get_vlan_ports_step T
              (((((abs w.hw).cam slot.val).1 % 2 ^ 32) >>> 16) &&& 0xff)
              (((abs w.hw).cam slot.val).2 % 2 ^ 32))
            { len := 0, ports := buf, world := w2 }) := by
  have hnot : ¬ ((slot.val : Int) < 0 ∨ (slot.val : Int) ≥ MT7530_NUM_VLANS) := by
    have := slot.isLt
    simp only [MT7530_NUM_VLANS]
    omega
  have ha1 : REG_ESW_VLAN_VAWD1 % 4 = 0 ∧ REG_ESW_VLAN_VAWD1 < 2 ^ 16 := by decide
  have ha2 : REG_ESW_VLAN_VAWD2 % 4 = 0 ∧ REG_ESW_VLAN_VAWD2 < 2 ^ 16 := by decide
  obtain ⟨-, -, -, hf1, hf2, hf3⟩ := vtcr_word_fields slot
  unfold mt7530_get_vlan_ports
  simp only [hnot, if_false, Int.toNat_ofNat]
  have hm : (mt7530_r32 H priv (mt7530_vtcr H priv w 0 slot.val) REG_ESW_VLAN_VAWD1).1
      = ((abs w.hw).cam slot.val).1 % 2 ^ 32 := by
    rw [hT.read_val priv _ _ hbus hbase ha1.1 ha1.2, vtcr_chip hT priv hbus hbase,
      (Chip.write_vtcr_load _ _ hf1 hf2).1, hf3]
  have he : (mt7530_r32 H priv
        (mt7530_r32 H priv (mt7530_vtcr H priv w 0 slot.val) REG_ESW_VLAN_VAWD1).2
        REG_ESW_VLAN_VAWD2).1
      = ((abs w.hw).cam slot.val).2 % 2 ^ 32 := by
    rw [hT.read_val priv _ _ hbus hbase ha2.1 ha2.2, hT.read_hw priv _ _ hbus hbase ha1.1 ha1.2,
      vtcr_chip hT priv hbus hbase, (Chip.write_vtcr_load _ _ hf1 hf2).2, hf3]
  rw [hm, he]
  exact ⟨_, rfl⟩


/-- C1 (amended): over a transport that implements the chip model, for every
slot in [0,15] and every list of at most 8 ports with ids in [0,7] and no id
listed twice, `mt7530_set_vlan_ports`, then `mt7530_apply_config` with
`global_vlan_enable` set, then `mt7530_get_vlan_ports` on the same slot into a
port buffer whose tagged flags are clear, returns 0 and exactly the ports that
were set, in ascending order of port id, each with the tagged flag it was set
with. -/
theorem set_apply_get_vlan_ports (hT : ChipTransport H bus base abs) (T : Nat) (hT32 : T < 32)
    (priv : mt7530_priv) (hbus : priv.bus = bus) (hbase : priv.base = base)
    (hen : priv.global_vlan_enable = true) (w : World σ) (slot : Fin 16)
    (ports : List switch_port) (hlen : ports.length ≤ 8) (hid : ∀ p ∈ ports, p.id < 8)
    (hnd : (ports.map (fun p => p.id)).Nodup)
    (buf : Nat → switch_port) (hbuf : ∀ k, (buf k).flags.testBit T = false) :
    (mt7530_set_vlan_ports T priv (slot.val : Int) ports).1 = 0 ∧
    (mt7530_get_vlan_ports T H (mt7530_set_vlan_ports T priv (slot.val : Int) ports).2
        (mt7530_apply_config H (mt7530_set_vlan_ports T priv (slot.val : Int) ports).2 w).2
        (slot.val : Int) buf).1 = 0 ∧
    (mt7530_get_vlan_ports T H (mt7530_set_vlan_ports T priv (slot.val : Int) ports).2
        (mt7530_apply_config H (mt7530_set_vlan_ports T priv (slot.val : Int) ports).2 w).2
        (slot.val : Int) buf).2.list.map (switch_port.key T)
      = ((List.range 8).filter (fun i => ports.any (fun q => q.id == i))).map
          (fun i => (i, ports.any (fun q => q.id == i && q.flags.testBit T))) ∧
    ((mt7530_get_vlan_ports T H (mt7530_set_vlan_ports T priv (slot.val : Int) ports).2
        (mt7530_apply_config H (mt7530_set_vlan_ports T priv (slot.val : Int) ports).2 w).2
        (slot.val : Int) buf).2.list.map (fun p => p.id)).Pairwise (· < ·) ∧
    (∀ i b,
      (∃ p ∈ (mt7530_get_vlan_ports T H
          (mt7530_set_vlan_ports T priv (slot.val : Int) ports).2
          (mt7530_apply_config H (mt7530_set_vlan_ports T priv (slot.val : Int) ports).2 w).2
          (slot.val : Int) buf).2.list, p.id = i ∧ p.flags.testBit T = b)
      ↔ (∃ p ∈ ports, p.id = i ∧ p.flags.testBit T = b)) := by
  obtain ⟨m, e, hl, hm8, he8, hmb, heb⟩ :=
    set_vlan_ports_loop_bits T ports 0 0 (by decide) (by decide) hid
  rw [set_vlan_ports_ok_fin T priv slot ports (m, e) hlen hl]
  generalize hs : ({ priv with
      vlan_entries := Function.update priv.vlan_entries slot
        { priv.vlan_entries slot with member := (m, e).1, etags := (m, e).2 } } : mt7530_priv)
    = s
  have hsbus : s.bus = bus := by rw [← hs]; exact hbus
  have hsbase : s.base = base := by rw [← hs]; exact hbase
  have hsen : s.global_vlan_enable = true := by rw [← hs]; exact hen
  have hsm : (s.vlan_entries slot).member = m := by rw [← hs]; simp
  have hse : (s.vlan_entries slot).etags = e := by rw [← hs]; simp
  have hcam := apply_config_cam hT s hsbus hsbase hsen w slot
  rw [hsm, hse] at hcam
  obtain ⟨w2, hget⟩ := get_vlan_ports_chip hT s hsbus hsbase (mt7530_apply_config H s w).2 slot
    buf T
  rw [hcam] at hget
  have hmem : ((mt7530_vawd1_word (m % 2 ^ 8) % 2 ^ 32 % 2 ^ 32) >>> 16) &&& 0xff = m :=
    vawd1_word_member ⟨m, hm8⟩
  simp only [] at hget
  rw [hmem] at hget
  have hkey : (mt7530_get_vlan_ports T H s (mt7530_apply_config H s w).2 (slot.val : Int)
        buf).2.list.map (switch_port.key T)
      = ((List.range 8).filter (fun i => ports.any (fun q => q.id == i))).map
          (fun i => (i, ports.any (fun q => q.id == i && q.flags.testBit T))) := by
    rw [hget]
    simp only []
    rw [get_vlan_ports_fold_spec T hT32 _ _ _ _ (fun k _ => hbuf k)]
    have hnil : (vlan_ports_val.list
        ({ len := 0, ports := buf, world := w2 } : vlan_ports_val σ)) = [] := rfl
    rw [hnil, List.map_nil, List.nil_append]
    have hfilt : (List.range MT7530_NUM_PORTS).filter (fun i => m.testBit i)
        = (List.range 8).filter (fun i => ports.any (fun q => q.id == i)) := by
      apply List.filter_congr
      intro i _
      rw [hmb i, Nat.zero_testBit, Bool.false_or]
    rw [hfilt]
    apply List.map_congr_left
    intro i hi
    have hi8 : i < 8 := List.mem_range.1 (List.mem_filter.1 hi).1
    have hfield := etag_word_field ⟨e, he8⟩ ⟨i, hi8⟩
    simp only [] at hfield
    have : decide ((mt7530_etag_word (e % 2 ^ 8) % 2 ^ 32 % 2 ^ 32) >>> (i * 2) &&& 0x3 = 2)
        = e.testBit i := by
      rw [Bool.eq_iff_iff, decide_eq_true_eq]
      exact hfield
    rw [this, heb i, Nat.zero_testBit, Bool.false_or]
  have hinj := List.inj_on_of_nodup_map hnd
  refine ⟨rfl, ?_, hkey, ?_, ?_⟩
  · rw [hget]
  · have hids : (mt7530_get_vlan_ports T H s (mt7530_apply_config H s w).2 (slot.val : Int)
          buf).2.list.map (fun p => p.id)
        = (List.range 8).filter (fun i => ports.any (fun q => q.id == i)) := by
      have := congrArg (List.map Prod.fst) hkey
      simp only [List.map_map] at this
      rw [show (Prod.fst ∘ switch_port.key T) = (fun p : switch_port => p.id) from rfl] at this
      rw [this]
      rw [show (Prod.fst ∘ fun i => (i, ports.any (fun q => q.id == i && q.flags.testBit T)))
        = (id : Nat → Nat) from rfl, List.map_id]
    rw [hids]
    exact (List.pairwise_lt_range 8).filter _
  · intro i b
    have hk : (∃ p ∈ (mt7530_get_vlan_ports T H s (mt7530_apply_config H s w).2
          (slot.val : Int) buf).2.list, p.id = i ∧ p.flags.testBit T = b)
        ↔ (i, b) ∈ (mt7530_get_vlan_ports T H s (mt7530_apply_config H s w).2
          (slot.val : Int) buf).2.list.map (switch_port.key T) := by
      simp only [List.mem_map, switch_port.key, Prod.mk.injEq]
    rw [hk, hkey]
    simp only [List.mem_map, List.mem_filter, List.mem_range, Prod.mk.injEq,
      any_id_eq_true_iff]
    constructor
    · rintro ⟨j, ⟨-, p, hp, hpj⟩, hji, hb⟩
      subst hji
      refine ⟨p, hp, hpj, ?_⟩
      rw [← hb]
      cases ht : p.flags.testBit T
      · symm
        rw [Bool.eq_false_iff]
        intro hany
        obtain ⟨q, hq, hqj, hqt⟩ := (any_id_tag_eq_true_iff T ports j).1 hany
        have : q = p := hinj hq hp (by rw [hqj, hpj])
        rw [this, ht] at hqt
        exact Bool.false_ne_true hqt
      · symm
        exact (any_id_tag_eq_true_iff T ports j).2 ⟨p, hp, hpj, ht⟩
    · rintro ⟨p, hp, hpi, hb⟩
      refine ⟨i, ⟨by rw [← hpi]; exact hid p hp, p, hp, hpi⟩, rfl, ?_⟩
      rw [← hb]
      cases ht : p.flags.testBit T
      · rw [Bool.eq_false_iff]
        intro hany
        obtain ⟨q, hq, hqj, hqt⟩ := (any_id_tag_eq_true_iff T ports i).1 hany
        have : q = p := hinj hq hp (by rw [hqj, hpi])
        rw [this, ht] at hqt
        exact Bool.false_ne_true hqt
      · exact (any_id_tag_eq_true_iff T ports i).2 ⟨p, hp, hpi, ht⟩

end

/-- C1 (counterexample): on the zeroed chip, `mt7530_set_vlan_ports` of slot 0
with the single untagged port 0 succeeds, and `mt7530_get_vlan_ports` of slot 0
right after it succeeds too but returns no port at all: the setter only
stages the list in the driver's state, the getter reads the hardware. -/
theorem set_get_vlan_ports_stale :
    (mt7530_set_vlan_ports 2 priv0 0 [⟨0, 0⟩]).1 = 0 ∧
    (mt7530_get_vlan_ports 2 (mmio_hw 0) (mt7530_set_vlan_ports 2 priv0 0 [⟨0, 0⟩]).2
        chip_world0 0 ports0).1 = 0 ∧
    (mt7530_get_vlan_ports 2 (mmio_hw 0) (mt7530_set_vlan_ports 2 priv0 0 [⟨0, 0⟩]).2
        chip_world0 0 ports0).2.list = [] ∧
    (mt7530_get_vlan_ports 2 (mmio_hw 0) (mt7530_set_vlan_ports 2 priv0 0 [⟨0, 0⟩]).2
        chip_world0 0 ports0).2.list.map (switch_port.key 2)
      ≠ ([⟨0, 0⟩] : List switch_port).map (switch_port.key 2) := by
  decide


/-- C1 (amended) at concrete inputs: slot 1, ports 6 (tagged) and 0 (untagged),
from the zeroed state, over the memory-mapped and over the MDIO transport. -/
theorem set_apply_get_vlan_ports_witness :
    (2 : Nat) < 32 ∧ priv0.global_vlan_enable = true ∧
    ([⟨6, 4⟩, ⟨0, 0⟩] : List switch_port).length ≤ 8 ∧
    (∀ p ∈ ([⟨6, 4⟩, ⟨0, 0⟩] : List switch_port), p.id < 8) ∧
    (([⟨6, 4⟩, ⟨0, 0⟩] : List switch_port).map (fun p => p.id)).Nodup ∧
    (∀ k, (ports0 k).flags.testBit 2 = false) ∧
    (mt7530_get_vlan_ports 2 (mmio_hw 0)
        (mt7530_set_vlan_ports 2 priv0 ((1 : Fin 16).val : Int) [⟨6, 4⟩, ⟨0, 0⟩]).2
        (mt7530_apply_config (mmio_hw 0)
          (mt7530_set_vlan_ports 2 priv0 ((1 : Fin 16).val : Int) [⟨6, 4⟩, ⟨0, 0⟩]).2
          chip_world0).2
        ((1 : Fin 16).val : Int) ports0).2.list.map (switch_port.key 2)
      = [(0, false), (6, true)] ∧
    (mt7530_get_vlan_ports 2 mdio_hw
        (mt7530_set_vlan_ports 2 { priv0 with bus := some 0 } ((1 : Fin 16).val : Int)
          [⟨6, 4⟩, ⟨0, 0⟩]).2
        (mt7530_apply_config mdio_hw
          (mt7530_set_vlan_ports 2 { priv0 with bus := some 0 } ((1 : Fin 16).val : Int)
            [⟨6, 4⟩, ⟨0, 0⟩]).2
          mdio_world0).2
        ((1 : Fin 16).val : Int) ports0).2.list.map (switch_port.key 2)
      = [(0, false), (6, true)] :=
  ⟨by decide, rfl, by decide, by decide, by decide, fun _ => Nat.zero_testBit 2,
   ((set_apply_get_vlan_ports (mmio_chip_transport 0) 2 (by decide) priv0 rfl rfl rfl
      chip_world0 1 [⟨6, 4⟩, ⟨0, 0⟩] (by decide) (by decide) (by decide) ports0
      (fun _ => Nat.zero_testBit 2)).2.2.1).trans (by decide),
   ((set_apply_get_vlan_ports (mdio_chip_transport 0 0) 2 (by decide)
      { priv0 with bus := some 0 } rfl rfl rfl
      mdio_world0 1 [⟨6, 4⟩, ⟨0, 0⟩] (by decide) (by decide) (by decide) ports0
      (fun _ => Nat.zero_testBit 2)).2.2.1).trans (by decide)⟩

/-! ## Reset, preset lookup and attach -/

/-- C11: for every prior state `mt7530_reset_switch` returns 0 and leaves
every port's pvid 0, every slot's `member` and `etags` 0 and the vid of slot
`i` equal to `i`; `global_vlan_enable` (and `base`, `bus`) are unchanged, and
the call does not touch the world: no register is read or written. -/
theorem reset_switch_state (priv : mt7530_priv) :
    (mt7530_reset_switch priv).1 = 0 ∧
    (∀ p : Fin 8, ((mt7530_reset_switch priv).2.port_entries p).pvid = 0) ∧
    (∀ i : Fin 16, ((mt7530_reset_switch priv).2.vlan_entries i).member = 0 ∧
      ((mt7530_reset_switch priv).2.vlan_entries i).etags = 0 ∧
      ((mt7530_reset_switch priv).2.vlan_entries i).vid = i.val) ∧
    (mt7530_reset_switch priv).2.global_vlan_enable = priv.global_vlan_enable ∧
    (mt7530_reset_switch priv).2.base = priv.base ∧
    (mt7530_reset_switch priv).2.bus = priv.bus ∧
    (∀ {σ : Type} (T : Nat) (H : Hw σ) (w : World σ),
      Call.exec T H Call.reset_switch (priv, w) = some ((mt7530_reset_switch priv).2, w)) := by
  refine ⟨rfl, fun _ => rfl, fun _ => ⟨rfl, rfl, rfl⟩, rfl, rfl, rfl, ?_⟩
  intro σ T H w
  rfl

theorem find_mapping_key (key : String) :
    mt7530_find_mapping (some key)
      = if key = "llllw" then mt7530_defaults[0]?
        else if key = "wllll" then mt7530_defaults[1]? else none := by
  unfold mt7530_find_mapping mt7530_defaults
  by_cases h1 : key = "llllw"
  · subst h1
    simp [List.find?]
  · by_cases h2 : key = "wllll"
    · subst h2
      simp [List.find?]
    · have e1 : (key == "llllw") = false := by simp [h1]
      have e2 : (key == "wllll") = false := by simp [h2]
      simp [List.find?, h1, h2, e1, e2]


/-- The rows of `mt7530_defaults`, spelled out. -/
theorem defaults_rows :
    ∃ llllw wllll : mt7530_mapping,
      mt7530_defaults = [llllw, wllll] ∧
      llllw.name = "llllw" ∧ wllll.name = "wllll" ∧
      (List.finRange 8).map llllw.pvids = [1, 1, 1, 1, 2, 1, 1, 0] ∧
      (List.finRange 16).map llllw.members
        = [0, 0x6f, 0x50, 0, 0, 0, 0, 0, 0, 0, 0, 0, 0, 0, 0, 0] ∧
      (List.finRange 16).map llllw.etags
        = [0, 0x40, 0x40, 0, 0, 0, 0, 0, 0, 0, 0, 0, 0, 0, 0, 0] ∧
      (List.finRange 16).map llllw.vids = [0, 1, 2, 0, 0, 0, 0, 0, 0, 0, 0, 0, 0, 0, 0, 0] ∧
      (List.finRange 8).map wllll.pvids = [2, 1, 1, 1, 1, 1, 1, 0] ∧
      (List.finRange 16).map wllll.members
        = [0, 0x7e, 0x41, 0, 0, 0, 0, 0, 0, 0, 0, 0, 0, 0, 0, 0] ∧
      (List.finRange 16).map wllll.etags
        = [0, 0x40, 0x40, 0, 0, 0, 0, 0, 0, 0, 0, 0, 0, 0, 0, 0] ∧
      (List.finRange 16).map wllll.vids = [0, 1, 2, 0, 0, 0, 0, 0, 0, 0, 0, 0, 0, 0, 0, 0] :=
  ⟨_, _, rfl, rfl, rfl, by decide, by decide, by decide, by decide, by decide, by decide,
    by decide, by decide⟩

/-- C14: `mt7530_find_mapping` yields no match for a key other than "llllw"
and "wllll" and for an absent key, and for each of these two keys the row of
`mt7530_defaults` with exactly that name.  `mt7530_apply_mapping` makes
`port_entries[i].pvid` equal to the preset's `pvids[i]` for all 8 ports and
`member`, `etags`, `vid` of every slot equal to the preset's `members[i]`,
`etags[i]`, `vids[i]`, whatever the prior state, and leaves
`global_vlan_enable` unchanged.  In `mt7530_probe` and in the seeding call,
no match leaves the state as it was. -/
theorem find_and_apply_mapping :
    (∀ key : String, key ≠ "llllw" → key ≠ "wllll" → mt7530_find_mapping (some key) = none) ∧
    mt7530_find_mapping none = none ∧
    (∃ llllw wllll : mt7530_mapping,
      mt7530_defaults = [llllw, wllll] ∧
      mt7530_find_mapping (some "llllw") = some llllw ∧ llllw.name = "llllw" ∧
      mt7530_find_mapping (some "wllll") = some wllll ∧ wllll.name = "wllll") ∧
    (∀ (priv : mt7530_priv) (map : mt7530_mapping),
      (∀ i : Fin 8, ((mt7530_apply_mapping priv map).port_entries i).pvid = map.pvids i) ∧
      (∀ i : Fin 16,
        ((mt7530_apply_mapping priv map).vlan_entries i).member = map.members i ∧
        ((mt7530_apply_mapping priv map).vlan_entries i).etags = map.etags i ∧
        ((mt7530_apply_mapping priv map).vlan_entries i).vid = map.vids i) ∧
      (mt7530_apply_mapping priv map).global_vlan_enable = priv.global_vlan_enable ∧
      (mt7530_apply_mapping priv map).base = priv.base ∧
      (mt7530_apply_mapping priv map).bus = priv.bus) ∧
    (∀ {σ : Type} (H : Hw σ) (w : World σ) (base : Nat) (bus : Option Nat) (vlan : Int)
        (port_map : Option String),
      (mt7530_find_mapping port_map = none →
        (mt7530_probe H w true base bus vlan 0 port_map).2.1
          = some (mt7530_probe_alloc base bus vlan)) ∧
      (∀ map, mt7530_find_mapping port_map = some map →
        (mt7530_probe H w true base bus vlan 0 port_map).2.1
          = some (mt7530_apply_mapping (mt7530_probe_alloc base bus vlan) map))) ∧
    (∀ {σ : Type} (T : Nat) (H : Hw σ) (s : mt7530_priv × World σ) (port_map : Option String),
      mt7530_find_mapping port_map = none →
      Call.exec T H (Call.apply_preset port_map) s = some s) := by
  refine ⟨?_, rfl, ?_, ?_, ?_, ?_⟩
  · intro key h1 h2
    rw [find_mapping_key]
    simp [h1, h2]
  · refine ⟨_, _, rfl, ?_, rfl, ?_, rfl⟩
    · rw [find_mapping_key]; rfl
    · rw [find_mapping_key]; rfl
  · intro priv map
    exact ⟨fun _ => rfl, fun _ => ⟨rfl, rfl, rfl⟩, rfl, rfl, rfl⟩
  · intro σ H w base bus vlan port_map
    constructor
    · intro h
      unfold mt7530_probe
      simp [h]
    · intro map h
      unfold mt7530_probe
      simp [h]
  · intro σ T H s port_map h
    unfold Call.exec
    simp [h]

section
variable {σ : Type} (H : Hw σ) (priv : mt7530_priv)

/-! ## Staged calls and the hardware -/

theorem foldl_log_prefix {α : Type} (f : World σ → α → World σ)
    (hf : ∀ w a, ∃ rest, (f w a).log = w.log ++ rest) (l : List α) (w : World σ) :
    ∃ rest, (l.foldl f w).log = w.log ++ rest := by
  induction l generalizing w with
  | nil => exact ⟨[], by simp⟩
  | cons a l ih =>
    obtain ⟨r1, h1⟩ := hf w a
    obtain ⟨r2, h2⟩ := ih (f w a)
    exact ⟨r1 ++ r2, by rw [List.foldl_cons, h2, h1, List.append_assoc]⟩

theorem apply_pvid_log (w : World σ) (i : Fin 8) :
    (mt7530_apply_pvid H priv w i).log
      = w.log ++
        [RegAccess.r32 (REG_ESW_PORT_PPBV1 i.val)
            (mt7530_r32 H priv w (REG_ESW_PORT_PPBV1 i.val)).1,
         RegAccess.w32 (REG_ESW_PORT_PPBV1 i.val)
            ((((mt7530_r32 H priv w (REG_ESW_PORT_PPBV1 i.val)).1 &&& 0xfffff000) |||
              ((priv.port_entries i).pvid % 2 ^ 16)) % 2 ^ 32)] := by
  unfold mt7530_apply_pvid
  simp

/-- Both modes of `mt7530_apply_config` begin with the eight writes of the
port control registers and the eight writes of the ingress control
registers. -/
theorem apply_config_log_head (w : World σ) :
    ∃ rest, (mt7530_apply_config H priv w).2.log
      = w.log
        ++ (List.range 8).map (fun i => RegAccess.w32 (REG_ESW_PORT_PCR i)
              (if priv.global_vlan_enable then 0x00ff0003 else 0x00ff0000))
        ++ (List.range 8).map (fun i => RegAccess.w32 (REG_ESW_PORT_PVC i)
              (if priv.global_vlan_enable then 0x81000000 else 0x810000c0))
        ++ rest := by
  unfold mt7530_apply_config
  cases hen : priv.global_vlan_enable
  · refine ⟨[], ?_⟩
    simp only [Bool.false_eq_true, not_false_eq_true, if_true, if_false]
    rw [foldl_w32_log, foldl_w32_log, List.append_nil]
    rfl
  · simp only [not_true_eq_false, if_false, if_true]
    obtain ⟨r2, h2⟩ := foldl_log_prefix (mt7530_apply_pvid H priv)
      (fun w a => ⟨_, apply_pvid_log H priv w a⟩) (List.finRange MT7530_NUM_PORTS)
      ((List.finRange MT7530_NUM_VLANS).foldl (mt7530_apply_vlan H priv)
        ((List.range MT7530_NUM_PORTS).foldl
          (fun w i => mt7530_w32 H priv w (REG_ESW_PORT_PVC i) 0x81000000)
          ((List.range MT7530_NUM_PORTS).foldl
            (fun w i => mt7530_w32 H priv w (REG_ESW_PORT_PCR i) 0x00ff0003) w)))
    obtain ⟨r1, h1⟩ := foldl_log_prefix (mt7530_apply_vlan H priv)
      (fun w a => by
        obtain ⟨rest, hr⟩ := apply_vlan_log_prefix H priv w a
        exact ⟨_, hr⟩) (List.finRange MT7530_NUM_VLANS)
      ((List.range MT7530_NUM_PORTS).foldl
          (fun w i => mt7530_w32 H priv w (REG_ESW_PORT_PVC i) 0x81000000)
          ((List.range MT7530_NUM_PORTS).foldl
            (fun w i => mt7530_w32 H priv w (REG_ESW_PORT_PCR i) 0x00ff0003) w))
    refine ⟨r1 ++ r2, ?_⟩
    rw [h2, h1, foldl_w32_log, foldl_w32_log]
    simp only [List.append_assoc]
    rfl

end

theorem exec_staged_world {σ : Type} (T : Nat) (H : Hw σ) (c : Call) (hc : c.staged = true)
    (s s' : mt7530_priv × World σ) (h : c.exec T H s = some s') : s'.2 = s.2 := by
  cases c with
  | apply_preset k => simp [Call.staged] at hc
  | apply_config => simp [Call.staged] at hc
  | reset_switch =>
    simp only [Call.exec, Option.some.injEq] at h
    rw [← h]
  | set_vlan_enable i =>
    simp only [Call.exec, Option.some.injEq] at h
    rw [← h]
  | set_port_pvid port pvid =>
    simp only [Call.exec, Option.map_eq_some'] at h
    obtain ⟨r, -, hr⟩ := h
    rw [← hr]
  | set_vlan_ports slot ports =>
    simp only [Call.exec, Option.some.injEq] at h
    rw [← h]
  | set_vid slot i =>
    simp only [Call.exec, Option.some.injEq] at h
    rw [← h]

theorem run_staged_world {σ : Type} (T : Nat) (H : Hw σ) (calls : List Call)
    (hst : ∀ c ∈ calls, c.staged = true) (s s' : mt7530_priv × World σ)
    (h : run T H calls s = some s') : s'.2 = s.2 := by
  induction calls generalizing s with
  | nil =>
    simp only [run, Option.some.injEq] at h
    rw [← h]
  | cons c cs ih =>
    simp only [run, Option.bind_eq_some] at h
    obtain ⟨s1, h1, h2⟩ := h
    rw [ih (fun c hc => hst c (List.mem_cons_of_mem _ hc)) s1 h2,
      exec_staged_world T H c (hst c (List.mem_cons_self _ _)) s s1 h1]

theorem set_port_pvid_defined (priv : mt7530_priv) (port pvid : Int) (hport : 0 ≤ port) :
    ∃ r, mt7530_set_port_pvid priv port pvid = some r := by
  unfold mt7530_set_port_pvid
  split_ifs with a b c
  · exact ⟨_, rfl⟩
  · exact ⟨_, rfl⟩
  · exact ⟨_, rfl⟩
  · exfalso
    apply c
    have a' : ¬ (8 : Int) ≤ port := by exact_mod_cast a
    constructor
    · exact hport
    · have : port < 8 := by omega
      exact_mod_cast this

theorem run_defined {σ : Type} (T : Nat) (H : Hw σ) (calls : List Call)
    (hdef : ∀ port pvid, Call.set_port_pvid port pvid ∈ calls → 0 ≤ port)
    (s : mt7530_priv × World σ) : ∃ s', run T H calls s = some s' := by
  induction calls generalizing s with
  | nil => exact ⟨s, rfl⟩
  | cons c cs ih =>
    have hcs : ∀ port pvid, Call.set_port_pvid port pvid ∈ cs → 0 ≤ port :=
      fun port pvid h => hdef port pvid (List.mem_cons_of_mem _ h)
    have hex : ∃ s1, c.exec T H s = some s1 := by
      cases c with
      | set_port_pvid port pvid =>
        obtain ⟨r, hr⟩ := set_port_pvid_defined s.1 port pvid
          (hdef port pvid (List.mem_cons_self _ _))
        exact ⟨(r.2, s.2), by simp [Call.exec, hr]⟩
      | apply_preset k => exact ⟨_, rfl⟩
      | apply_config => exact ⟨_, rfl⟩
      | reset_switch => exact ⟨_, rfl⟩
      | set_vlan_enable i => exact ⟨_, rfl⟩
      | set_vlan_ports slot ports => exact ⟨_, rfl⟩
      | set_vid slot i => exact ⟨_, rfl⟩
    obtain ⟨s1, h1⟩ := hex
    obtain ⟨s2, h2⟩ := ih hcs s1
    exact ⟨s2, by simp [run, h1, h2]⟩

/-- C15: a sequence of calls of `mt7530_set_vlan_enable`,
`mt7530_set_port_pvid`, `mt7530_set_vlan_ports`, `mt7530_set_vid` and
`mt7530_reset_switch`, whatever their arguments, leaves the world (device
state, register trace, console) exactly as it was, and the sequence has an
outcome whenever no `mt7530_set_port_pvid` is given a negative port;
`mt7530_apply_config` does write: its trace begins with the sixteen writes of
the port control and ingress control registers. -/
theorem staged_calls_leave_hardware {σ : Type} (T : Nat) (H : Hw σ) (calls : List Call)
    (hst : ∀ c ∈ calls, c.staged = true) (s : mt7530_priv × World σ) :
    (∀ s', run T H calls s = some s' → s'.2 = s.2) ∧
    ((∀ port pvid, Call.set_port_pvid port pvid ∈ calls → 0 ≤ port) →
      ∃ s', run T H calls s = some s' ∧ s'.2 = s.2) ∧
    (∃ w' rest, Call.exec T H Call.apply_config s = some (s.1, w') ∧
      w'.log = s.2.log
        ++ (List.range 8).map (fun i => RegAccess.w32 (REG_ESW_PORT_PCR i)
              (if s.1.global_vlan_enable then 0x00ff0003 else 0x00ff0000))
        ++ (List.range 8).map (fun i => RegAccess.w32 (REG_ESW_PORT_PVC i)
              (if s.1.global_vlan_enable then 0x81000000 else 0x810000c0))
        ++ rest) := by
  refine ⟨fun s' h => run_staged_world T H calls hst s s' h, ?_, ?_⟩
  · intro hdef
    obtain ⟨s', h⟩ := run_defined T H calls hdef s
    exact ⟨s', h, run_staged_world T H calls hst s s' h⟩
  · obtain ⟨rest, hr⟩ := apply_config_log_head H s.1 s.2
    exact ⟨_, rest, rfl, hr⟩

/-! ## The vids and pvids of reachable states -/

theorem find_mapping_bounded (port_map : Option String) (map : mt7530_mapping)
    (h : mt7530_find_mapping port_map = some map) :
    (∀ i : Fin 16, map.vids i < 4096) ∧ (∀ p : Fin 8, map.pvids p < 4096) := by
  cases port_map with
  | none => simp [mt7530_find_mapping] at h
  | some key =>
    have hm : map ∈ mt7530_defaults := by
      unfold mt7530_find_mapping at h
      exact List.mem_of_find?_eq_some h
    simp only [mt7530_defaults, List.mem_cons, List.mem_singleton, List.not_mem_nil,
      or_false] at hm
    rcases hm with hm | hm
    · subst hm
      exact ⟨by decide, by decide⟩
    · subst hm
      exact ⟨by decide, by decide⟩

theorem set_port_pvid_bounded (priv : mt7530_priv) (port pvid : Int)
    (r : Int × mt7530_priv) (hb : vid_bounded priv)
    (h : mt7530_set_port_pvid priv port pvid = some r) : vid_bounded r.2 := by
  unfold mt7530_set_port_pvid at h
  split_ifs at h with a b c
  · simp only [Option.some.injEq] at h
    rw [← h]; exact hb
  · simp only [Option.some.injEq] at h
    rw [← h]; exact hb
  · simp only [Option.some.injEq] at h
    rw [← h]
    refine ⟨hb.1, ?_⟩
    intro p
    simp only [Function.update_apply]
    split
    · simp only [MT7530_MIN_VID, MT7530_MAX_VID, not_or, not_lt, not_le] at b
      have h1 : pvid.toNat < 4096 := by omega
      have : pvid.toNat % 2 ^ 16 = pvid.toNat := Nat.mod_eq_of_lt (by omega)
      rw [this]; exact h1
    · exact hb.2 p

theorem set_vid_bounded (priv : mt7530_priv) (port_vlan i : Int) (hb : vid_bounded priv) :
    vid_bounded (mt7530_set_vid priv port_vlan i).2 := by
  unfold mt7530_set_vid
  simp only []
  split_ifs with a b
  · exact hb
  · refine ⟨?_, hb.2⟩
    intro j
    simp only [Function.update_apply]
    split
    · simp only [MT7530_MIN_VID, MT7530_MAX_VID, not_or, not_lt, not_le] at b
      show (i % 2 ^ 16).toNat < 4096
      omega
    · exact hb.1 j
  · exact hb

theorem set_vlan_ports_bounded (T : Nat) (priv : mt7530_priv) (port_vlan : Int)
    (ports : List switch_port) (hb : vid_bounded priv) :
    vid_bounded (mt7530_set_vlan_ports T priv port_vlan ports).2 := by
  unfold mt7530_set_vlan_ports
  split_ifs with a b
  · exact hb
  · split
    · exact hb
    · refine ⟨?_, hb.2⟩
      intro j
      simp only [Function.update_apply]
      split
      · rename_i hj
        rw [← hj]; exact hb.1 j
      · exact hb.1 j
  · exact hb

theorem exec_bounded {σ : Type} (T : Nat) (H : Hw σ) (c : Call)
    (s s' : mt7530_priv × World σ) (hb : vid_bounded s.1) (h : c.exec T H s = some s') :
    vid_bounded s'.1 := by
  cases c with
  | apply_preset k =>
    simp only [Call.exec, Option.some.injEq] at h
    rw [← h]
    cases hf : mt7530_find_mapping k with
    | none => exact hb
    | some map =>
      obtain ⟨h1, h2⟩ := find_mapping_bounded k map hf
      exact ⟨fun i => h1 i, fun p => h2 p⟩
  | apply_config =>
    simp only [Call.exec, Option.some.injEq] at h
    rw [← h]; exact hb
  | reset_switch =>
    simp only [Call.exec, Option.some.injEq] at h
    rw [← h]
    refine ⟨fun i => ?_, fun p => ?_⟩
    · show i.val < 4096
      omega
    · show (0 : Nat) < 4096
      decide
  | set_vlan_enable i =>
    simp only [Call.exec, Option.some.injEq] at h
    rw [← h]; exact hb
  | set_port_pvid port pvid =>
    simp only [Call.exec, Option.map_eq_some'] at h
    obtain ⟨r, hr, hs⟩ := h
    rw [← hs]
    exact set_port_pvid_bounded s.1 port pvid r hb hr
  | set_vlan_ports slot ports =>
    simp only [Call.exec, Option.some.injEq] at h
    rw [← h]
    exact set_vlan_ports_bounded T s.1 slot ports hb
  | set_vid slot i =>
    simp only [Call.exec, Option.some.injEq] at h
    rw [← h]
    exact set_vid_bounded s.1 slot i hb

theorem run_bounded {σ : Type} (T : Nat) (H : Hw σ) (calls : List Call)
    (s s' : mt7530_priv × World σ) (hb : vid_bounded s.1) (h : run T H calls s = some s') :
    vid_bounded s'.1 := by
  induction calls generalizing s with
  | nil =>
    simp only [run, Option.some.injEq] at h
    rw [← h]; exact hb
  | cons c cs ih =>
    simp only [run, Option.bind_eq_some] at h
    obtain ⟨s1, h1, h2⟩ := h
    exact ih s1 (exec_bounded T H c s s1 hb h1) h2

theorem pvid_word_fields (old pvid : Nat) (hp : pvid < 2 ^ 12) :
    ((old &&& 0xfffff000) ||| pvid) &&& 0xfff = pvid ∧
    ((old &&& 0xfffff000) ||| pvid) >>> 12 = (old &&& 0xfffff000) >>> 12 := by
  have c1 : (0xfffff000 : Nat) = (2 ^ 20 - 1) <<< 12 := by decide
  rw [c_0xfff, c1]
  constructor
  · apply Nat.eq_of_testBit_eq
    intro i
    simp only [Nat.testBit_and, Nat.testBit_or, Nat.testBit_shiftLeft,
      Nat.testBit_two_pow_sub_one]
    by_cases hi : i < 12
    · have : ¬ i ≥ 12 := by omega
      simp [hi, this]
    · simp [hi, testBit_eq_false_of_lt_two_pow hp (by omega : 12 ≤ i)]
  · apply Nat.eq_of_testBit_eq
    intro i
    simp only [Nat.testBit_and, Nat.testBit_or, Nat.testBit_shiftLeft, Nat.testBit_shiftRight,
      Nat.testBit_two_pow_sub_one]
    have h1 : pvid.testBit (12 + i) = false :=
      testBit_eq_false_of_lt_two_pow hp (by omega)
    simp [h1]

/-- C19: from the state `mt7530_probe` allocates (all entries zero), every
state reached by a sequence of preset seeding, `mt7530_reset_switch`,
`mt7530_set_vlan_enable`, `mt7530_set_port_pvid`, `mt7530_set_vlan_ports`,
`mt7530_set_vid` and `mt7530_apply_config` calls, accepted or rejected, has
every vid and every pvid below 4096; hence the VID-timing word written for a
slot holds the vid in the slot's field and keeps the other field, and the PVID
word holds the pvid in bits 0-11 and keeps the bits above. -/
theorem reachable_vids_fit {σ : Type} (T : Nat) (H : Hw σ) (base : Nat) (bus : Option Nat)
    (vlan : Int) (w : World σ) (calls : List Call) (s' : mt7530_priv × World σ)
    (h : run T H calls (mt7530_probe_alloc base bus vlan, w) = some s') :
    (∀ i : Fin 16, (s'.1.vlan_entries i).vid < 4096) ∧
    (∀ p : Fin 8, (s'.1.port_entries p).pvid < 4096) ∧
    (∀ (i : Fin 16) (old : Nat),
      (i.val % 2 = 0 →
        mt7530_vtim_word i.val old ((s'.1.vlan_entries i).vid % 2 ^ 16) &&& 0xfff
          = (s'.1.vlan_entries i).vid ∧
        (mt7530_vtim_word i.val old ((s'.1.vlan_entries i).vid % 2 ^ 16) >>> 12) &&& 0xfff
          = (old >>> 12) &&& 0xfff) ∧
      (i.val % 2 = 1 →
        (mt7530_vtim_word i.val old ((s'.1.vlan_entries i).vid % 2 ^ 16) >>> 12) &&& 0xfff
          = (s'.1.vlan_entries i).vid ∧
        mt7530_vtim_word i.val old ((s'.1.vlan_entries i).vid % 2 ^ 16) &&& 0xfff
          = old &&& 0xfff)) ∧
    (∀ (p : Fin 8) (old : Nat),
      ((old &&& 0xfffff000) ||| ((s'.1.port_entries p).pvid % 2 ^ 16)) &&& 0xfff
        = (s'.1.port_entries p).pvid ∧
      ((old &&& 0xfffff000) ||| ((s'.1.port_entries p).pvid % 2 ^ 16)) >>> 12
        = (old &&& 0xfffff000) >>> 12) := by
  have h0 : vid_bounded (mt7530_probe_alloc base bus vlan) :=
    ⟨fun _ => (by decide : (0 : Nat) < 4096), fun _ => (by decide : (0 : Nat) < 4096)⟩
  obtain ⟨hv, hp⟩ := run_bounded T H calls _ s' h0 h
  refine ⟨hv, hp, ?_, ?_⟩
  · intro i old
    have hlt : (s'.1.vlan_entries i).vid < 2 ^ 12 := hv i
    have hmod : (s'.1.vlan_entries i).vid % 2 ^ 16 = (s'.1.vlan_entries i).vid :=
      Nat.mod_eq_of_lt (lt_trans hlt (by decide))
    rw [hmod]
    constructor
    · intro he
      unfold mt7530_vtim_word
      simp only [he, if_true]
      exact vtim_word_even old _ hlt
    · intro ho
      unfold mt7530_vtim_word
      have : ¬ i.val % 2 = 0 := by omega
      simp only [this, if_false]
      exact vtim_word_odd old _ hlt
  · intro p old
    have hlt : (s'.1.port_entries p).pvid < 2 ^ 12 := hp p
    have hmod : (s'.1.port_entries p).pvid % 2 ^ 16 = (s'.1.port_entries p).pvid :=
      Nat.mod_eq_of_lt (lt_trans hlt (by decide))
    rw [hmod]
    exact pvid_word_fields old _ hlt

/-! ## The bus accesses of the indirect transport -/

/-- C16: with a bus, `mt7530_w32` of a 32-bit value is exactly three bus
writes to device `0x1f`, in this order: `(reg >> 6) & 0x3ff` to sub-register
`0x1f`, `val & 0xffff` to sub-register `(reg >> 2) & 0xf`, `val >> 16` to
sub-register `0x10`; `mt7530_r32` is the same page-selector write, then a read
of sub-register `(reg >> 2) & 0xf` and a read of sub-register `0x10`, and for
16-bit results `low` and `high` it returns `high * 65536 + low`. -/
theorem indirect_transport_sequence {σ : Type} (priv : mt7530_priv) (b : Nat)
    (hbus : priv.bus = some b) (reg val : Nat) (hval : val < 2 ^ 32) :
    (∀ (H : Hw σ) (w : World σ),
      (mt7530_w32 H priv w reg val).hw
        = H.mdiobus_write
            (H.mdiobus_write
              (H.mdiobus_write w.hw b 0x1f 0x1f ((reg >>> 6) &&& 0x3ff))
              b 0x1f ((reg >>> 2) &&& 0xf) (val &&& 0xffff))
            b 0x1f 0x10 (val >>> 16)) ∧
    (∀ (low high : Nat) (w : World (List BusOp)),
      (mt7530_w32 (trace_hw low high) priv w reg val).hw
        = w.hw ++ [BusOp.mdio_write b 0x1f 0x1f ((reg >>> 6) &&& 0x3ff),
                   BusOp.mdio_write b 0x1f ((reg >>> 2) &&& 0xf) (val &&& 0xffff),
                   BusOp.mdio_write b 0x1f 0x10 (val >>> 16)]) ∧
    (∀ (low high : Nat) (w : World (List BusOp)),
      (mt7530_r32 (trace_hw low high) priv w reg).2.hw
        = w.hw ++ [BusOp.mdio_write b 0x1f 0x1f ((reg >>> 6) &&& 0x3ff),
                   BusOp.mdio_read b 0x1f ((reg >>> 2) &&& 0xf),
                   BusOp.mdio_read b 0x1f 0x10]) ∧
    (∀ (low high : Nat) (w : World (List BusOp)), low < 2 ^ 16 → high < 2 ^ 16 →
      (mt7530_r32 (trace_hw low high) priv w reg).1 = high * 65536 + low) := by
  have hsub : ¬ ((reg >>> 2) &&& 0xf = 0x10) := by
    have : (reg >>> 2) &&& 0xf < 16 := by
      rw [c_0xf, Nat.and_pow_two_sub_one_eq_mod]; exact Nat.mod_lt _ (by decide)
    omega
  refine ⟨?_, ?_, ?_, ?_⟩
  · intro H w
    unfold mt7530_w32
    simp only [hbus, Nat.mod_eq_of_lt hval]
  · intro low high w
    unfold mt7530_w32
    simp only [hbus, Nat.mod_eq_of_lt hval, trace_hw, List.append_assoc, List.singleton_append]
    rfl
  · intro low high w
    unfold mt7530_r32
    simp only [hbus, trace_hw, List.append_assoc, List.singleton_append]
    rfl
  · intro low high w hl hh
    unfold mt7530_r32
    simp only [hbus, trace_hw, hsub, if_false, if_true]
    rw [Nat.mod_eq_of_lt hl, Nat.mod_eq_of_lt hh, c_0xffff, Nat.and_pow_two_sub_one_eq_mod,
      Nat.mod_eq_of_lt hl, Nat.shiftLeft_eq, Nat.mul_comm high, ← Nat.mul_add_lt_is_or hl]
    have : 2 ^ 16 * high + low < 2 ^ 32 := by
      have : (2 : Nat) ^ 16 = 65536 := by decide
      have : (2 : Nat) ^ 32 = 4294967296 := by decide
      omega
    rw [Nat.mod_eq_of_lt this]

theorem indirect_transport_sequence_witness :
    ({ priv0 with bus := some 0 } : mt7530_priv).bus = some 0 ∧ (0x12345678 : Nat) < 2 ^ 32 ∧
    (mt7530_w32 (trace_hw 0x5678 0x1234) { priv0 with bus := some 0 }
        { hw := [], log := [], console := [] } 0x2014 0x12345678).hw
      = [BusOp.mdio_write 0 0x1f 0x1f 0x80, BusOp.mdio_write 0 0x1f 5 0x5678,
         BusOp.mdio_write 0 0x1f 0x10 0x1234] ∧
    (mt7530_r32 (trace_hw 0x5678 0x1234) { priv0 with bus := some 0 }
        { hw := [], log := [], console := [] } 0x2014).1 = 0x12345678 :=
  ⟨rfl, by decide,
   ((indirect_transport_sequence (σ := List BusOp) { priv0 with bus := some 0 } 0 rfl 0x2014
      0x12345678 (by decide)).2.1 0x5678 0x1234 { hw := [], log := [], console := [] }).trans
      (by decide),
   ((indirect_transport_sequence (σ := List BusOp) { priv0 with bus := some 0 } 0 rfl 0x2014
      0x12345678 (by decide)).2.2.2 0x5678 0x1234 { hw := [], log := [], console := [] }
      (by decide) (by decide)).trans (by decide)⟩

/-- C20: two 4-byte-aligned register addresses below `0x10000` with the same
page selector and the same data sub-register are equal; the data sub-register
is always below 16, hence never `0x10` or `0x1f`; these are the page selector
and sub-register `mt7530_w32` and `mt7530_r32` put on the bus; and every
register the driver addresses is 4-byte aligned and below `0x10000`. -/
theorem mdio_addressing_injective :
    (∀ r1 r2 : Nat, r1 % 4 = 0 → r2 % 4 = 0 → r1 < 0x10000 → r2 < 0x10000 →
      (mt7530_mdio_page r1, mt7530_mdio_sub r1) = (mt7530_mdio_page r2, mt7530_mdio_sub r2) →
      r1 = r2) ∧
    (∀ r : Nat, mt7530_mdio_sub r < 16 ∧ mt7530_mdio_sub r ≠ 0x10 ∧
      mt7530_mdio_sub r ≠ 0x1f) ∧
    (∀ {σ : Type} (H : Hw σ) (priv : mt7530_priv) (b : Nat) (w : World σ) (reg val : Nat),
      priv.bus = some b →
      (mt7530_w32 H priv w reg val).hw
        = H.mdiobus_write
            (H.mdiobus_write
              (H.mdiobus_write w.hw b 0x1f 0x1f (mt7530_mdio_page reg))
              b 0x1f (mt7530_mdio_sub reg) (val % 2 ^ 32 &&& 0xffff))
            b 0x1f 0x10 ((val % 2 ^ 32) >>> 16) ∧
      (mt7530_r32 H priv w reg).2.hw
        = (H.mdiobus_read
            (H.mdiobus_read
              (H.mdiobus_write w.hw b 0x1f 0x1f (mt7530_mdio_page reg))
              b 0x1f (mt7530_mdio_sub reg)).2
            b 0x1f 0x10).2) ∧
    (∀ reg ∈ [REG_ESW_VLAN_VTCR, REG_ESW_VLAN_VAWD1, REG_ESW_VLAN_VAWD2, REG_HWTRAP],
      reg % 4 = 0 ∧ reg < 0x10000) ∧
    (∀ i : Fin 16, u32 (REG_ESW_VLAN_VTIM i.val) % 4 = 0 ∧
      u32 (REG_ESW_VLAN_VTIM i.val) < 0x10000) ∧
    (∀ i : Fin 8,
      (REG_ESW_PORT_PCR i.val % 4 = 0 ∧ REG_ESW_PORT_PCR i.val < 0x10000) ∧
      (REG_ESW_PORT_PVC i.val % 4 = 0 ∧ REG_ESW_PORT_PVC i.val < 0x10000) ∧
      (REG_ESW_PORT_PPBV1 i.val % 4 = 0 ∧ REG_ESW_PORT_PPBV1 i.val < 0x10000) ∧
      ((0x3008 + 0x100 * i.val) % 4 = 0 ∧ 0x3008 + 0x100 * i.val < 0x10000)) := by
  refine ⟨?_, ?_, ?_, by decide, ?_, by decide⟩
  · intro r1 r2 a1 a2 l1 l2 h
    have hp : (r1 >>> 6) &&& 0x3ff = (r2 >>> 6) &&& 0x3ff := congrArg Prod.fst h
    have hs : (r1 >>> 2) &&& 0xf = (r2 >>> 2) &&& 0xf := congrArg Prod.snd h
    have e1 := mdio_addr_roundtrip r1 a1 (by simpa using l1)
    have e2 := mdio_addr_roundtrip r2 a2 (by simpa using l2)
    rw [hp, hs] at e1
    exact e1.symm.trans e2
  · intro r
    have : mt7530_mdio_sub r < 16 := by
      unfold mt7530_mdio_sub
      rw [c_0xf, Nat.and_pow_two_sub_one_eq_mod]; exact Nat.mod_lt _ (by decide)
    exact ⟨this, by omega, by omega⟩
  · intro σ H priv b w reg val hbus
    constructor
    · unfold mt7530_w32 mt7530_mdio_page mt7530_mdio_sub
      simp only [hbus]
    · unfold mt7530_r32 mt7530_mdio_page mt7530_mdio_sub
      simp only [hbus]
  · intro i
    have := vtim_reg_ok i
    exact ⟨this.1, by simpa using this.2.1⟩

/-- C20 at concrete inputs: the ingress-control and PVID registers of port 0
lie on the same page and are told apart by the data sub-register. -/
theorem mdio_addressing_injective_witness :
    (0x2010 : Nat) % 4 = 0 ∧ (0x2014 : Nat) % 4 = 0 ∧ (0x2010 : Nat) < 0x10000 ∧
    (0x2014 : Nat) < 0x10000 ∧
    mt7530_mdio_page 0x2010 = mt7530_mdio_page 0x2014 ∧
    mt7530_mdio_sub 0x2010 ≠ mt7530_mdio_sub 0x2014 ∧
    (mt7530_mdio_page 0x2010, mt7530_mdio_sub 0x2010)
      ≠ (mt7530_mdio_page 0x2014, mt7530_mdio_sub 0x2014) :=
  ⟨by decide, by decide, by decide, by decide, by decide, by decide,
    fun h => absurd
      (mdio_addressing_injective.1 0x2010 0x2014 (by decide) (by decide) (by decide)
        (by decide) h)
      (by decide)⟩

section
variable {σ : Type} (H : Hw σ) (priv : mt7530_priv)

/-! ## Trace of the enabled-mode VLAN loop -/

theorem vtcr_poll_log_reads (n : Nat) (w : World σ) :
    ∃ polls, (mt7530_vtcr_poll H priv n w).2.log = w.log ++ polls ∧
      polls.length ≤ n ∧ (0 < n → 0 < polls.length) ∧
      ∀ a ∈ polls, ∃ v, a = RegAccess.r32 REG_ESW_VLAN_VTCR v := by
  induction n generalizing w with
  | zero => exact ⟨[], by simp [mt7530_vtcr_poll], by simp, by simp, by simp⟩
  | succ n ih =>
    unfold mt7530_vtcr_poll
    by_cases h0 : (mt7530_r32 H priv w REG_ESW_VLAN_VTCR).1 &&& BIT 31 = 0
    · simp only [h0, if_true]
      refine ⟨[RegAccess.r32 REG_ESW_VLAN_VTCR (mt7530_r32 H priv w REG_ESW_VLAN_VTCR).1],
        mt7530_r32_log H priv w _, by simp, by simp, ?_⟩
      intro a ha
      exact ⟨_, List.mem_singleton.1 ha⟩
    · simp only [h0, if_false]
      obtain ⟨polls, hr, hlen, -, hall⟩ :=
        ih (udelay H (mt7530_r32 H priv w REG_ESW_VLAN_VTCR).2 1000)
      refine ⟨RegAccess.r32 REG_ESW_VLAN_VTCR (mt7530_r32 H priv w REG_ESW_VLAN_VTCR).1 :: polls,
        ?_, by simp; omega, by simp, ?_⟩
      · rw [hr, udelay_log, mt7530_r32_log, List.append_assoc]
        rfl
      · intro a ha
        rcases List.mem_cons.1 ha with h | h
        · exact ⟨_, h⟩
        · exact hall a h

theorem vtcr_log_reads (w : World σ) (cmd val : Nat) :
    ∃ polls, (mt7530_vtcr H priv w cmd val).log
      = w.log ++ RegAccess.w32 REG_ESW_VLAN_VTCR ((BIT 31 ||| (cmd <<< 12) ||| val) % 2 ^ 32)
          :: polls ∧
      1 ≤ polls.length ∧ polls.length ≤ 20 ∧
      ∀ a ∈ polls, ∃ v, a = RegAccess.r32 REG_ESW_VLAN_VTCR v := by
  unfold mt7530_vtcr
  obtain ⟨polls, hr, hlen, hpos, hall⟩ := vtcr_poll_log_reads H priv 20
    (mt7530_w32 H priv w REG_ESW_VLAN_VTCR (BIT 31 ||| (cmd <<< 12) ||| val))
  refine ⟨polls, ?_, hpos (by decide), hlen, hall⟩
  simp only []
  split
  · rw [printk_log, hr, mt7530_w32_log, List.append_assoc]; rfl
  · rw [hr, mt7530_w32_log, List.append_assoc]; rfl

set_option maxRecDepth 100000 in
theorem vawd1_word_lt : ∀ m : Fin 256, mt7530_vawd1_word (m.val % 2 ^ 8) < 2 ^ 32 := by
  decide

set_option maxRecDepth 100000 in
theorem etag_word_lt : ∀ e : Fin 256, mt7530_etag_word (e.val % 2 ^ 8) < 2 ^ 16 := by
  decide

set_option maxRecDepth 100000 in
theorem etag_word_codes :
    ∀ e : Fin 256, ∀ j : Fin 8,
      (mt7530_etag_word (e.val % 2 ^ 8) >>> (2 * j.val)) &&& 3
        = if e.val.testBit j.val then ETAG_CTRL_TAG else ETAG_CTRL_UNTAG := by
  decide

theorem vtcr_write_word : ∀ i : Fin 16,
    (BIT 31 ||| (1 <<< 12) ||| i.val) % 2 ^ 32 = BIT 31 ||| (1 <<< 12) ||| i.val := by
  decide

/-- The trace of the step for slot `i` of the enabled-mode loop: read and
write of the VID-timing register, write of VAWD1, write of VAWD2, write of the
CAM write command, then the polls of the CAM control register. -/
theorem apply_vlan_log (w : World σ) (i : Fin 16) :
    ∃ polls, (mt7530_apply_vlan H priv w i).log
      = w.log ++
        [RegAccess.r32 (0x100 + 4 * (i.val / 2))
            (mt7530_r32 H priv w (0x100 + 4 * (i.val / 2))).1,
         RegAccess.w32 (0x100 + 4 * (i.val / 2))
            (mt7530_vtim_word i.val (mt7530_r32 H priv w (0x100 + 4 * (i.val / 2))).1
              ((priv.vlan_entries i).vid % 2 ^ 16) % 2 ^ 32),
         RegAccess.w32 REG_ESW_VLAN_VAWD1
            (mt7530_vawd1_word ((priv.vlan_entries i).member % 2 ^ 8)),
         RegAccess.w32 REG_ESW_VLAN_VAWD2
            (mt7530_etag_word ((priv.vlan_entries i).etags % 2 ^ 8)),
         RegAccess.w32 REG_ESW_VLAN_VTCR (BIT 31 ||| (1 <<< 12) ||| i.val)]
        ++ polls ∧
      1 ≤ polls.length ∧ polls.length ≤ 20 ∧
      ∀ a ∈ polls, ∃ v, a = RegAccess.r32 REG_ESW_VLAN_VTCR v := by
  have hv1 : mt7530_vawd1_word ((priv.vlan_entries i).member % 2 ^ 8) % 2 ^ 32
      = mt7530_vawd1_word ((priv.vlan_entries i).member % 2 ^ 8) := by
    have := vawd1_word_lt ⟨(priv.vlan_entries i).member % 2 ^ 8, Nat.mod_lt _ (by decide)⟩
    simp only [Nat.mod_mod] at this
    exact Nat.mod_eq_of_lt this
  have hv2 : mt7530_etag_word ((priv.vlan_entries i).etags % 2 ^ 8) % 2 ^ 32
      = mt7530_etag_word ((priv.vlan_entries i).etags % 2 ^ 8) := by
    have := etag_word_lt ⟨(priv.vlan_entries i).etags % 2 ^ 8, Nat.mod_lt _ (by decide)⟩
    simp only [Nat.mod_mod] at this
    exact Nat.mod_eq_of_lt (lt_trans this (by decide))
  unfold mt7530_apply_vlan
  simp only [apply_vlan_w2]
  obtain ⟨polls, hr, hpos, hlen, hall⟩ := vtcr_log_reads H priv
    (mt7530_w32 H priv
      (mt7530_w32 H priv
        (mt7530_w32 H priv (mt7530_r32 H priv w (u32 (REG_ESW_VLAN_VTIM i.val))).2
          (u32 (REG_ESW_VLAN_VTIM i.val))
          (mt7530_vtim_word i.val (mt7530_r32 H priv w (u32 (REG_ESW_VLAN_VTIM i.val))).1
            ((priv.vlan_entries i).vid % 2 ^ 16)))
        REG_ESW_VLAN_VAWD1 (mt7530_vawd1_word ((priv.vlan_entries i).member % 2 ^ 8)))
      REG_ESW_VLAN_VAWD2 (mt7530_etag_word ((priv.vlan_entries i).etags % 2 ^ 8)))
    1 i.val
  refine ⟨polls, ?_, hpos, hlen, hall⟩
  rw [hr, vtcr_write_word i]
  simp only [mt7530_w32_log, mt7530_r32_log, hv1, hv2, u32_VTIM i.val i.isLt,
    List.append_assoc, List.singleton_append, List.cons_append, List.nil_append]


theorem cam_writes_append (a b : List RegAccess) :
    cam_writes (a ++ b) = cam_writes a ++ cam_writes b := by
  unfold cam_writes
  exact List.filter_append _ _

theorem cam_writes_reads (polls : List RegAccess)
    (h : ∀ a ∈ polls, ∃ v, a = RegAccess.r32 REG_ESW_VLAN_VTCR v) : cam_writes polls = [] := by
  unfold cam_writes
  rw [List.filter_eq_nil_iff]
  intro a ha
  obtain ⟨v, hv⟩ := h a ha
  rw [hv]
  simp

theorem cam_writes_r32 (reg val : Nat) : cam_writes [RegAccess.r32 reg val] = [] := rfl

theorem cam_writes_w32_cam (reg val : Nat)
    (h : reg = REG_ESW_VLAN_VTCR ∨ reg = REG_ESW_VLAN_VAWD1 ∨ reg = REG_ESW_VLAN_VAWD2) :
    cam_writes [RegAccess.w32 reg val] = [RegAccess.w32 reg val] := by
  unfold cam_writes
  simp [List.filter_cons, h]

theorem cam_writes_w32_plain (reg val : Nat)
    (h : ¬ (reg = REG_ESW_VLAN_VTCR ∨ reg = REG_ESW_VLAN_VAWD1 ∨ reg = REG_ESW_VLAN_VAWD2)) :
    cam_writes [RegAccess.w32 reg val] = [] := by
  unfold cam_writes
  simp [List.filter_cons, h]

/-- The three CAM writes of the step for slot `i`. -/
theorem cam_writes_apply_vlan (w : World σ) (i : Fin 16) :
    cam_writes (mt7530_apply_vlan H priv w i).log
      = cam_writes w.log ++
        [RegAccess.w32 REG_ESW_VLAN_VAWD1
            (mt7530_vawd1_word ((priv.vlan_entries i).member % 2 ^ 8)),
         RegAccess.w32 REG_ESW_VLAN_VAWD2
            (mt7530_etag_word ((priv.vlan_entries i).etags % 2 ^ 8)),
         RegAccess.w32 REG_ESW_VLAN_VTCR (BIT 31 ||| (1 <<< 12) ||| i.val)] := by
  obtain ⟨polls, hl, -, -, hall⟩ := apply_vlan_log H priv w i
  have hplain : ¬ (0x100 + 4 * (i.val / 2) = REG_ESW_VLAN_VTCR ∨
      0x100 + 4 * (i.val / 2) = REG_ESW_VLAN_VAWD1 ∨
      0x100 + 4 * (i.val / 2) = REG_ESW_VLAN_VAWD2) := by
    simp only [REG_ESW_VLAN_VTCR, REG_ESW_VLAN_VAWD1, REG_ESW_VLAN_VAWD2]
    omega
  rw [hl, cam_writes_append, cam_writes_append, cam_writes_reads polls hall, List.append_nil]
  congr 1
  have e : ∀ (a b c d e : RegAccess), [a, b, c, d, e] = [a] ++ ([b] ++ ([c] ++ ([d] ++ [e]))) :=
    fun _ _ _ _ _ => rfl
  rw [e, cam_writes_append, cam_writes_append, cam_writes_append, cam_writes_append,
    cam_writes_r32, cam_writes_w32_plain _ _ hplain,
    cam_writes_w32_cam _ _ (Or.inr (Or.inl rfl)),
    cam_writes_w32_cam _ _ (Or.inr (Or.inr rfl)),
    cam_writes_w32_cam _ _ (Or.inl rfl)]
  rfl

theorem cam_writes_foldl_apply_vlan (l : List (Fin 16)) (w : World σ) :
    cam_writes (l.foldl (mt7530_apply_vlan H priv) w).log
      = cam_writes w.log ++ l.flatMap (fun i =>
        [RegAccess.w32 REG_ESW_VLAN_VAWD1
            (mt7530_vawd1_word ((priv.vlan_entries i).member % 2 ^ 8)),
         RegAccess.w32 REG_ESW_VLAN_VAWD2
            (mt7530_etag_word ((priv.vlan_entries i).etags % 2 ^ 8)),
         RegAccess.w32 REG_ESW_VLAN_VTCR (BIT 31 ||| (1 <<< 12) ||| i.val)]) := by
  induction l generalizing w with
  | nil => simp
  | cons a l ih =>
    rw [List.foldl_cons, ih, cam_writes_apply_vlan, List.flatMap_cons, List.append_assoc]

theorem cam_writes_foldl_apply_pvid (l : List (Fin 8)) (w : World σ) :
    cam_writes (l.foldl (mt7530_apply_pvid H priv) w).log = cam_writes w.log := by
  induction l generalizing w with
  | nil => rfl
  | cons a l ih =>
    have hplain : ¬ (REG_ESW_PORT_PPBV1 a.val = REG_ESW_VLAN_VTCR ∨
        REG_ESW_PORT_PPBV1 a.val = REG_ESW_VLAN_VAWD1 ∨
        REG_ESW_PORT_PPBV1 a.val = REG_ESW_VLAN_VAWD2) := by
      revert a
      decide
    have e : ∀ (a b : RegAccess), [a, b] = [a] ++ [b] := fun _ _ => rfl
    rw [List.foldl_cons, ih, apply_pvid_log, cam_writes_append, e, cam_writes_append,
      cam_writes_r32, cam_writes_w32_plain _ _ hplain]
    simp

theorem cam_writes_foldl_w32 (f : Nat → Nat) (v : Nat) (l : List Nat) (w : World σ)
    (hf : ∀ i ∈ l, ¬ (f i = REG_ESW_VLAN_VTCR ∨ f i = REG_ESW_VLAN_VAWD1 ∨
      f i = REG_ESW_VLAN_VAWD2)) :
    cam_writes (l.foldl (fun w i => mt7530_w32 H priv w (f i) v) w).log = cam_writes w.log := by
  induction l generalizing w with
  | nil => rfl
  | cons a l ih =>
    rw [List.foldl_cons, ih _ (fun i hi => hf i (List.mem_cons_of_mem _ hi)), mt7530_w32_log,
      cam_writes_append, cam_writes_w32_plain _ _ (hf a (List.mem_cons_self _ _)),
      List.append_nil]

/-- C17: in enabled mode the writes of `mt7530_apply_config` to the three CAM
registers are, for the slots 0 to 15 in ascending order, the VAWD1 word, the
VAWD2 word and the CAM write command `BIT(31) | (1 << 12) | i` of the slot;
the step of slot `i` is the read and write of its VID-timing register, then
these three writes, then between 1 and 20 polls.  The VAWD1 word is
`BIT(30) | BIT(28) | (member << 16) | BIT(0)` for a member mask other than 0
and 0 otherwise; the VAWD2 word is below `2 ^ 16` and its 2-bit field of port
`j` is 2 if bit `j` of `etags` is set and 0 otherwise. -/
theorem apply_config_commits_slots (hen : priv.global_vlan_enable = true) (w : World σ) :
    cam_writes (mt7530_apply_config H priv w).2.log
      = cam_writes w.log ++ (List.finRange 16).flatMap (fun i =>
        [RegAccess.w32 REG_ESW_VLAN_VAWD1
            (mt7530_vawd1_word ((priv.vlan_entries i).member % 2 ^ 8)),
         RegAccess.w32 REG_ESW_VLAN_VAWD2
            (mt7530_etag_word ((priv.vlan_entries i).etags % 2 ^ 8)),
         RegAccess.w32 REG_ESW_VLAN_VTCR (BIT 31 ||| (1 <<< 12) ||| i.val)]) ∧
    (List.finRange 16).map (fun i => i.val) = List.range 16 ∧
    (∀ (w : World σ) (i : Fin 16),
      ∃ polls, (mt7530_apply_vlan H priv w i).log
        = w.log ++
          [RegAccess.r32 (0x100 + 4 * (i.val / 2))
              (mt7530_r32 H priv w (0x100 + 4 * (i.val / 2))).1,
           RegAccess.w32 (0x100 + 4 * (i.val / 2))
              (mt7530_vtim_word i.val (mt7530_r32 H priv w (0x100 + 4 * (i.val / 2))).1
                ((priv.vlan_entries i).vid % 2 ^ 16) % 2 ^ 32),
           RegAccess.w32 REG_ESW_VLAN_VAWD1
              (mt7530_vawd1_word ((priv.vlan_entries i).member % 2 ^ 8)),
           RegAccess.w32 REG_ESW_VLAN_VAWD2
              (mt7530_etag_word ((priv.vlan_entries i).etags % 2 ^ 8)),
           RegAccess.w32 REG_ESW_VLAN_VTCR (BIT 31 ||| (1 <<< 12) ||| i.val)]
          ++ polls ∧
        1 ≤ polls.length ∧ polls.length ≤ 20 ∧
        ∀ a ∈ polls, ∃ v, a = RegAccess.r32 REG_ESW_VLAN_VTCR v) ∧
    (∀ member : Nat,
      mt7530_vawd1_word member
        = if member ≠ 0 then BIT 30 ||| BIT 28 ||| (member <<< 16) ||| BIT 0 else 0) ∧
    (∀ etags : Nat,
      mt7530_etag_word (etags % 2 ^ 8) < 2 ^ 16 ∧
      ∀ j : Nat, j < 8 →
        (mt7530_etag_word (etags % 2 ^ 8) >>> (2 * j)) &&& 3
          = if etags.testBit j then 2 else 0) := by
  refine ⟨?_, by decide, fun w i => apply_vlan_log H priv w i, fun _ => rfl, ?_⟩
  · unfold mt7530_apply_config
    simp only [hen, not_true_eq_false, if_false]
    rw [cam_writes_foldl_apply_pvid, cam_writes_foldl_apply_vlan,
      cam_writes_foldl_w32 H priv _ _ _ _ (by decide),
      cam_writes_foldl_w32 H priv _ _ _ _ (by decide)]
  · intro etags
    have hlt := etag_word_lt ⟨etags % 2 ^ 8, Nat.mod_lt _ (by decide)⟩
    simp only [Nat.mod_mod] at hlt
    refine ⟨hlt, ?_⟩
    intro j hj
    have := etag_word_codes ⟨etags % 2 ^ 8, Nat.mod_lt _ (by decide)⟩ ⟨j, hj⟩
    simp only [Nat.mod_mod, Nat.testBit_mod_two_pow, hj, decide_True, Bool.true_and,
      ETAG_CTRL_TAG, ETAG_CTRL_UNTAG] at this
    exact this

end

/-- C17 at a concrete input: the preset "llllw" over the zeroed chip; the first
two slots are committed as (0, 0) and (`0x506f0001`, `0x2000`). -/
theorem apply_config_commits_slots_witness :
    priv_llllw.global_vlan_enable = true ∧
    (cam_writes (mt7530_apply_config (mmio_hw 0) priv_llllw chip_world0).2.log).take 6
      = [RegAccess.w32 0x94 0, RegAccess.w32 0x98 0, RegAccess.w32 0x90 0x80001000,
         RegAccess.w32 0x94 0x506f0001, RegAccess.w32 0x98 0x2000,
         RegAccess.w32 0x90 0x80001001] :=
  ⟨rfl,
   (congrArg (List.take 6)
      (apply_config_commits_slots (mmio_hw 0) priv_llllw rfl chip_world0).1).trans
      (by decide)⟩

/-! ## Register-file transports: instances -/

theorem regfile_transport (base : Nat) : RegFileTransport (regfile_hw base) none base id := by
  constructor
  · intro priv w reg hbus hbase _ _
    unfold mt7530_r32
    simp [hbus, hbase, regfile_hw]
  · intro priv w reg hbus hbase _ _
    unfold mt7530_r32
    simp [hbus, hbase, regfile_hw]
  · intro priv w reg val hbus hbase _ _ _
    unfold mt7530_w32
    simp [hbus, hbase, regfile_hw]
  · intro priv w reg val reg' hbus hbase _ _ hne _
    unfold mt7530_w32
    simp [hbus, hbase, regfile_hw, Function.update_noteq hne]
  · intro s n
    rfl

theorem Chip.write_regs_plain (c : Chip) (reg val reg' : Nat) (hne : reg' ≠ reg)
    (hp : ¬ cam_reg reg') : (c.write reg val).regs reg' = c.regs reg' := by
  have h0 : reg' ≠ REG_ESW_VLAN_VTCR := fun h => hp (Or.inl h)
  have h1 : reg' ≠ REG_ESW_VLAN_VAWD1 := fun h => hp (Or.inr (Or.inl h))
  have h2 : reg' ≠ REG_ESW_VLAN_VAWD2 := fun h => hp (Or.inr (Or.inr h))
  unfold Chip.write
  simp only []
  split_ifs
  · simp [Function.update_noteq h0]
  · simp [Function.update_noteq h0, Function.update_noteq h1, Function.update_noteq h2]
  · simp [Function.update_noteq h0]
  · simp [Function.update_noteq hne]

theorem Chip.write_regs_same (c : Chip) (reg val : Nat) (hp : ¬ cam_reg reg) :
    (c.write reg val).regs reg = val := by
  have h0 : reg ≠ REG_ESW_VLAN_VTCR := fun h => hp (Or.inl h)
  rw [Chip.write_of_ne c reg val h0]
  simp

/-- A transport that implements the chip model is a register file on the
registers outside the CAM protocol. -/
theorem ChipTransport.regfile {σ : Type} {H : Hw σ} {bus : Option Nat} {base : Nat}
    {abs : σ → Chip} (hT : ChipTransport H bus base abs) :
    RegFileTransport H bus base (fun s => (abs s).regs) := by
  constructor
  · intro priv w reg hbus hbase h4 h16
    exact hT.read_val priv w reg hbus hbase h4 h16
  · intro priv w reg hbus hbase h4 h16
    show (abs (mt7530_r32 H priv w reg).2.hw).regs = (abs w.hw).regs
    rw [hT.read_hw priv w reg hbus hbase h4 h16]
  · intro priv w reg val hbus hbase h4 h16 hp
    show (abs (mt7530_w32 H priv w reg val).hw).regs reg = val % 2 ^ 32
    rw [hT.write_hw priv w reg val hbus hbase h4 h16, Chip.write_regs_same _ _ _ hp]
  · intro priv w reg val reg' hbus hbase h4 h16 hne hp
    show (abs (mt7530_w32 H priv w reg val).hw).regs reg' = (abs w.hw).regs reg'
    rw [hT.write_hw priv w reg val hbus hbase h4 h16, Chip.write_regs_plain _ _ _ _ hne hp]
  · intro s n
    show (abs (H.udelay s n)).regs = (abs s).regs
    rw [hT.delay]

/-! ## Register contents after `mt7530_apply_config` on a register file -/

theorem ppbv1_plain : ∀ i : Fin 8, ¬ cam_reg (REG_ESW_PORT_PPBV1 i.val) := by
  unfold cam_reg
  decide

theorem vtim_plain (i : Fin 16) : ¬ cam_reg (u32 (REG_ESW_VLAN_VTIM i.val)) := by
  obtain ⟨-, -, h1, h2, h3⟩ := vtim_reg_ok i
  rintro (h | h | h)
  · exact h1 h
  · exact h2 h
  · exact h3 h

section
variable {σ : Type} {H : Hw σ} {bus : Option Nat} {base : Nat} {view : σ → Nat → Nat}

theorem rf_vtcr_poll_view (hR : RegFileTransport H bus base view) (priv : mt7530_priv)
    (hbus : priv.bus = bus) (hbase : priv.base = base) (n : Nat) (w : World σ) :
    view (mt7530_vtcr_poll H priv n w).2.hw = view w.hw := by
  have hreg : REG_ESW_VLAN_VTCR % 4 = 0 ∧ REG_ESW_VLAN_VTCR < 2 ^ 16 := by decide
  induction n generalizing w with
  | zero => rfl
  | succ n ih =>
    unfold mt7530_vtcr_poll
    simp only []
    split
    · exact hR.read_hw priv w _ hbus hbase hreg.1 hreg.2
    · rw [ih]
      show view (H.udelay (mt7530_r32 H priv w REG_ESW_VLAN_VTCR).2.hw 1000) = _
      rw [hR.delay, hR.read_hw priv w _ hbus hbase hreg.1 hreg.2]

theorem rf_vtcr_view (hR : RegFileTransport H bus base view) (priv : mt7530_priv)
    (hbus : priv.bus = bus) (hbase : priv.base = base) (w : World σ) (cmd val : Nat)
    (R : Nat) (hp : ¬ cam_reg R) :
    view (mt7530_vtcr H priv w cmd val).hw R = view w.hw R := by
  have hreg : REG_ESW_VLAN_VTCR % 4 = 0 ∧ REG_ESW_VLAN_VTCR < 2 ^ 16 := by decide
  have hne : R ≠ REG_ESW_VLAN_VTCR := fun h => hp (Or.inl h)
  unfold mt7530_vtcr
  simp only []
  split
  · rw [printk_hw, rf_vtcr_poll_view hR priv hbus hbase,
      hR.write_other priv w _ _ R hbus hbase hreg.1 hreg.2 hne hp]
  · rw [rf_vtcr_poll_view hR priv hbus hbase,
      hR.write_other priv w _ _ R hbus hbase hreg.1 hreg.2 hne hp]

/-- The content of a register outside the CAM protocol after the step for
slot `i`: the new VID-timing word if it is the slot's VID-timing register,
unchanged otherwise. -/
theorem rf_apply_vlan_view (hR : RegFileTransport H bus base view) (priv : mt7530_priv)
    (hbus : priv.bus = bus) (hbase : priv.base = base) (w : World σ) (i : Fin 16)
    (R : Nat) (hp : ¬ cam_reg R) :
    view (mt7530_apply_vlan H priv w i).hw R
      = if R = u32 (REG_ESW_VLAN_VTIM i.val) then
          mt7530_vtim_word i.val (view w.hw R % 2 ^ 32) ((priv.vlan_entries i).vid % 2 ^ 16)
            % 2 ^ 32
        else view w.hw R := by
  obtain ⟨hv4, hv16, -, -, -⟩ := vtim_reg_ok i
  have ha1 : REG_ESW_VLAN_VAWD1 % 4 = 0 ∧ REG_ESW_VLAN_VAWD1 < 2 ^ 16 := by decide
  have ha2 : REG_ESW_VLAN_VAWD2 % 4 = 0 ∧ REG_ESW_VLAN_VAWD2 < 2 ^ 16 := by decide
  have hn1 : R ≠ REG_ESW_VLAN_VAWD1 := fun h => hp (Or.inr (Or.inl h))
  have hn2 : R ≠ REG_ESW_VLAN_VAWD2 := fun h => hp (Or.inr (Or.inr h))
  unfold mt7530_apply_vlan
  simp only [apply_vlan_w2]
  rw [rf_vtcr_view hR priv hbus hbase _ _ _ R hp,
    hR.write_other priv _ _ _ R hbus hbase ha2.1 ha2.2 hn2 hp,
    hR.write_other priv _ _ _ R hbus hbase ha1.1 ha1.2 hn1 hp]
  by_cases hRv : R = u32 (REG_ESW_VLAN_VTIM i.val)
  · simp only [hRv, if_true]
    rw [hR.write_same priv _ _ _ hbus hbase hv4 hv16 (vtim_plain i),
      hR.read_val priv w _ hbus hbase hv4 hv16]
  · simp only [hRv, if_false]
    rw [hR.write_other priv _ _ _ R hbus hbase hv4 hv16 hRv hp,
      hR.read_hw priv w _ hbus hbase hv4 hv16]

theorem rf_apply_pvid_view (hR : RegFileTransport H bus base view) (priv : mt7530_priv)
    (hbus : priv.bus = bus) (hbase : priv.base = base) (w : World σ) (i : Fin 8)
    (R : Nat) (hp : ¬ cam_reg R) :
    view (mt7530_apply_pvid H priv w i).hw R
      = if R = REG_ESW_PORT_PPBV1 i.val then
          (((view w.hw R % 2 ^ 32) &&& 0xfffff000) ||| ((priv.port_entries i).pvid % 2 ^ 16))
            % 2 ^ 32
        else view w.hw R := by
  obtain ⟨h4, h16, -⟩ := ppbv1_reg_ok i
  unfold mt7530_apply_pvid
  simp only []
  by_cases hRv : R = REG_ESW_PORT_PPBV1 i.val
  · simp only [hRv, if_true]
    rw [hR.write_same priv _ _ _ hbus hbase h4 h16 (ppbv1_plain i),
      hR.read_val priv w _ hbus hbase h4 h16]
  · simp only [hRv, if_false]
    rw [hR.write_other priv _ _ _ R hbus hbase h4 h16 hRv hp,
      hR.read_hw priv w _ hbus hbase h4 h16]

theorem rf_foldl_w32_view (hR : RegFileTransport H bus base view) (priv : mt7530_priv)
    (hbus : priv.bus = bus) (hbase : priv.base = base) (f : Nat → Nat) (v : Nat)
    (l : List Nat) (w : World σ) (R : Nat) (hp : ¬ cam_reg R)
    (hf : ∀ i ∈ l, f i % 4 = 0 ∧ f i < 2 ^ 16 ∧ R ≠ f i) :
    view (l.foldl (fun w i => mt7530_w32 H priv w (f i) v) w).hw R = view w.hw R := by
  induction l generalizing w with
  | nil => rfl
  | cons a l ih =>
    obtain ⟨h4, h16, hne⟩ := hf a (List.mem_cons_self _ _)
    rw [List.foldl_cons, ih _ (fun i hi => hf i (List.mem_cons_of_mem _ hi)),
      hR.write_other priv w _ _ R hbus hbase h4 h16 hne hp]

theorem rf_foldl_apply_vlan_other (hR : RegFileTransport H bus base view) (priv : mt7530_priv)
    (hbus : priv.bus = bus) (hbase : priv.base = base) (l : List (Fin 16)) (w : World σ)
    (R : Nat) (hp : ¬ cam_reg R) (hne : ∀ i : Fin 16, R ≠ u32 (REG_ESW_VLAN_VTIM i.val)) :
    view (l.foldl (mt7530_apply_vlan H priv) w).hw R = view w.hw R := by
  induction l generalizing w with
  | nil => rfl
  | cons a l ih =>
    rw [List.foldl_cons, ih, rf_apply_vlan_view hR priv hbus hbase w a R hp]
    simp only [hne a, if_false]

theorem rf_foldl_apply_pvid_other (hR : RegFileTransport H bus base view) (priv : mt7530_priv)
    (hbus : priv.bus = bus) (hbase : priv.base = base) (l : List (Fin 8)) (w : World σ)
    (R : Nat) (hp : ¬ cam_reg R) (hne : ∀ i : Fin 8, R ≠ REG_ESW_PORT_PPBV1 i.val) :
    view (l.foldl (mt7530_apply_pvid H priv) w).hw R = view w.hw R := by
  induction l generalizing w with
  | nil => rfl
  | cons a l ih =>
    rw [List.foldl_cons, ih, rf_apply_pvid_view hR priv hbus hbase w a R hp]
    simp only [hne a, if_false]

end

/-! ## The PVID registers after `mt7530_apply_config` -/

theorem and_hi_shiftRight (x : Nat) : (x &&& 0xfffff000) >>> 12 = (x % 2 ^ 32) >>> 12 := by
  have c1 : (0xfffff000 : Nat) = (2 ^ 20 - 1) <<< 12 := by decide
  rw [c1]
  apply Nat.eq_of_testBit_eq
  intro i
  simp only [Nat.testBit_and, Nat.testBit_shiftLeft, Nat.testBit_shiftRight,
    Nat.testBit_two_pow_sub_one, Nat.testBit_mod_two_pow]
  have h1 : 12 + i ≥ 12 := by omega
  have h2 : 12 + i - 12 = i := by omega
  by_cases hi : i < 20
  · have : 12 + i < 32 := by omega
    simp [h1, h2, hi, this]
  · have : ¬ 12 + i < 32 := by omega
    simp [h1, h2, hi, this]

theorem pvid_word_lt (x pvid : Nat) (hp : pvid < 2 ^ 12) :
    (x &&& 0xfffff000) ||| pvid < 2 ^ 32 := by
  apply Nat.or_lt_two_pow
  · exact lt_of_le_of_lt Nat.and_le_right (by decide)
  · exact lt_trans hp (by decide)

theorem ppbv1_regs :
    ∀ p : Fin 8,
      (∀ i ∈ List.range 8, REG_ESW_PORT_PCR i % 4 = 0 ∧ REG_ESW_PORT_PCR i < 2 ^ 16 ∧
        REG_ESW_PORT_PPBV1 p.val ≠ REG_ESW_PORT_PCR i) ∧
      (∀ i ∈ List.range 8, REG_ESW_PORT_PVC i % 4 = 0 ∧ REG_ESW_PORT_PVC i < 2 ^ 16 ∧
        REG_ESW_PORT_PPBV1 p.val ≠ REG_ESW_PORT_PVC i) ∧
      (∀ q : Fin 8, REG_ESW_PORT_PPBV1 p.val = REG_ESW_PORT_PPBV1 q.val → p = q) := by
  decide

theorem ppbv1_ne_vtim : ∀ (p : Fin 8) (i : Fin 16),
    REG_ESW_PORT_PPBV1 p.val ≠ u32 (REG_ESW_VLAN_VTIM i.val) := by
  decide

section
variable {σ : Type} {H : Hw σ} {bus : Option Nat} {base : Nat} {view : σ → Nat → Nat}

/-- The PVID register of port `p` after the last loop of
`mt7530_apply_config` has run over the ports in `l`. -/
theorem rf_foldl_apply_pvid_reg (hR : RegFileTransport H bus base view) (priv : mt7530_priv)
    (hbus : priv.bus = bus) (hbase : priv.base = base)
    (p : Fin 8) (hfit : (priv.port_entries p).pvid < 4096) (l : List (Fin 8)) (w : World σ) :
    (view (l.foldl (mt7530_apply_pvid H priv) w).hw (REG_ESW_PORT_PPBV1 p.val) % 2 ^ 32) >>> 12
        = (view w.hw (REG_ESW_PORT_PPBV1 p.val) % 2 ^ 32) >>> 12 ∧
    (p ∈ l →
      (view (l.foldl (mt7530_apply_pvid H priv) w).hw (REG_ESW_PORT_PPBV1 p.val) % 2 ^ 32)
        &&& 0xfff = (priv.port_entries p).pvid) := by
  have hlt : (priv.port_entries p).pvid < 2 ^ 12 := hfit
  have hmod : (priv.port_entries p).pvid % 2 ^ 16 = (priv.port_entries p).pvid :=
    Nat.mod_eq_of_lt (lt_trans hlt (by decide))
  induction l using List.reverseRecOn with
  | nil => exact ⟨rfl, fun h => by simp at h⟩
  | append_singleton l a ih =>
    rw [List.foldl_append, List.foldl_cons, List.foldl_nil,
      rf_apply_pvid_view hR priv hbus hbase _ a _ (ppbv1_plain p)]
    by_cases hpa : p = a
    · subst hpa
      simp only [if_true, hmod]
      rw [Nat.mod_eq_of_lt (pvid_word_lt _ _ hlt), Nat.mod_eq_of_lt (pvid_word_lt _ _ hlt)]
      obtain ⟨f1, f2⟩ := pvid_word_fields
        (view (l.foldl (mt7530_apply_pvid H priv) w).hw (REG_ESW_PORT_PPBV1 p.val) % 2 ^ 32)
        _ hlt
      refine ⟨?_, fun _ => f1⟩
      rw [f2, and_hi_shiftRight, Nat.mod_mod, ih.1]
    · have hne : REG_ESW_PORT_PPBV1 p.val ≠ REG_ESW_PORT_PPBV1 a.val :=
        fun h => hpa ((ppbv1_regs p).2.2 a h)
      simp only [hne, if_false]
      refine ⟨ih.1, fun hm => ih.2 ?_⟩
      simpa [hpa] using hm

/-- The PVID register of port `p` after an enabled-mode
`mt7530_apply_config` on a register file: the low 12 bits hold the port's
pvid, the bits above are as before the call. -/
theorem rf_apply_config_ppbv1 (hR : RegFileTransport H bus base view) (priv : mt7530_priv)
    (hbus : priv.bus = bus) (hbase : priv.base = base) (hen : priv.global_vlan_enable = true)
    (p : Fin 8) (hfit : (priv.port_entries p).pvid < 4096) (w : World σ) :
    (view (mt7530_apply_config H priv w).2.hw (REG_ESW_PORT_PPBV1 p.val) % 2 ^ 32) >>> 12
        = (view w.hw (REG_ESW_PORT_PPBV1 p.val) % 2 ^ 32) >>> 12 ∧
    (view (mt7530_apply_config H priv w).2.hw (REG_ESW_PORT_PPBV1 p.val) % 2 ^ 32) &&& 0xfff
        = (priv.port_entries p).pvid := by
  unfold mt7530_apply_config
  simp only [hen, not_true_eq_false, if_false]
  obtain ⟨h1, h2⟩ := rf_foldl_apply_pvid_reg hR priv hbus hbase p hfit
    (List.finRange MT7530_NUM_PORTS)
    ((List.finRange MT7530_NUM_VLANS).foldl (mt7530_apply_vlan H priv)
      ((List.range MT7530_NUM_PORTS).foldl
        (fun w i => mt7530_w32 H priv w (REG_ESW_PORT_PVC i) 0x81000000)
        ((List.range MT7530_NUM_PORTS).foldl
          (fun w i => mt7530_w32 H priv w (REG_ESW_PORT_PCR i) 0x00ff0003) w)))
  refine ⟨?_, h2 (List.mem_finRange p)⟩
  rw [h1, rf_foldl_apply_vlan_other hR priv hbus hbase _ _ _ (ppbv1_plain p)
      (fun i => ppbv1_ne_vtim p i),
    rf_foldl_w32_view hR priv hbus hbase _ _ _ _ _ (ppbv1_plain p) (ppbv1_regs p).2.1,
    rf_foldl_w32_view hR priv hbus hbase _ _ _ _ _ (ppbv1_plain p) (ppbv1_regs p).1]

/-- What `mt7530_get_port_pvid` returns for a port in [0,7] on a register
file: 0 and the low 12 bits of the port's PVID register. -/
theorem rf_get_port_pvid (hR : RegFileTransport H bus base view) (priv : mt7530_priv)
    (hbus : priv.bus = bus) (hbase : priv.base = base) (w : World σ) (p : Fin 8) (val : Int) :
    mt7530_get_port_pvid H priv w (p.val : Int) val
      = some (0, (((view w.hw (REG_ESW_PORT_PPBV1 p.val) % 2 ^ 32) &&& 0xfff : Nat) : Int),
          (mt7530_r32 H priv w (REG_ESW_PORT_PPBV1 p.val)).2) := by
  obtain ⟨h4, h16, -⟩ := ppbv1_reg_ok p
  have h1 : ¬ ((p.val : Int) ≥ MT7530_NUM_PORTS) := by
    have := p.isLt
    simp only [MT7530_NUM_PORTS]
    omega
  have h2 : (0 : Int) ≤ (p.val : Int) := by omega
  unfold mt7530_get_port_pvid
  simp only [h1, h2, if_false, if_true, Int.toNat_ofNat,
    hR.read_val priv w _ hbus hbase h4 h16]

end

theorem find_mapping_llllw (map : mt7530_mapping)
    (h : mt7530_find_mapping (some "llllw") = some map) :
    map.pvids 0 = 1 ∧ map.pvids 4 = 2 ∧ map.members 1 = 0x6f ∧ map.etags 1 = 0x40 := by
  rw [find_mapping_key] at h
  simp only [if_true, mt7530_defaults, List.getElem?_cons_zero, Option.some.injEq] at h
  rw [← h]
  exact ⟨rfl, rfl, rfl, rfl⟩

section
variable {σ : Type} {H : Hw σ} {bus : Option Nat} {base : Nat} {view : σ → Nat → Nat}

/-- C12: on a register file, for a state whose pvids fit in 12 bits and
VLANs enabled, after `mt7530_apply_config` the call `mt7530_get_port_pvid` of
a port `p` in [0,7] returns 0 and `port_entries[p].pvid`, and bits 12-31 of
the port's PVID register are what they were before the call.  With the preset
"llllw" applied to the state, port 4 reads back 2 and port 0 reads back 1. -/
theorem apply_config_get_port_pvid (hR : RegFileTransport H bus base view)
    (priv : mt7530_priv) (hbus : priv.bus = bus) (hbase : priv.base = base)
    (hen : priv.global_vlan_enable = true)
    (hfit : ∀ q : Fin 8, (priv.port_entries q).pvid < 4096) (w : World σ) (p : Fin 8)
    (val : Int) :
    (∃ w', mt7530_get_port_pvid H priv (mt7530_apply_config H priv w).2 (p.val : Int) val
        = some (0, ((priv.port_entries p).pvid : Int), w')) ∧
    (view (mt7530_apply_config H priv w).2.hw (REG_ESW_PORT_PPBV1 p.val) % 2 ^ 32) >>> 12
      = (view w.hw (REG_ESW_PORT_PPBV1 p.val) % 2 ^ 32) >>> 12 ∧
    (∀ map, mt7530_find_mapping (some "llllw") = some map →
      (∃ w', mt7530_get_port_pvid H (mt7530_apply_mapping priv map)
          (mt7530_apply_config H (mt7530_apply_mapping priv map) w).2 4 val
        = some (0, 2, w')) ∧
      (∃ w', mt7530_get_port_pvid H (mt7530_apply_mapping priv map)
          (mt7530_apply_config H (mt7530_apply_mapping priv map) w).2 0 val
        = some (0, 1, w'))) := by
  obtain ⟨h1, h2⟩ := rf_apply_config_ppbv1 hR priv hbus hbase hen p (hfit p) w
  refine ⟨?_, h1, ?_⟩
  · rw [rf_get_port_pvid hR priv hbus hbase, h2]
    exact ⟨_, rfl⟩
  · intro map hmap
    obtain ⟨p0, p4, -, -⟩ := find_mapping_llllw map hmap
    have hb := (find_mapping_bounded (some "llllw") map hmap).2
    constructor
    · obtain ⟨-, k2⟩ := rf_apply_config_ppbv1 hR (mt7530_apply_mapping priv map) hbus hbase hen
        4 (hb 4) w
      have := rf_get_port_pvid hR (mt7530_apply_mapping priv map) hbus hbase
        (mt7530_apply_config H (mt7530_apply_mapping priv map) w).2 4 val
      rw [k2] at this
      rw [show ((4 : Fin 8).val : Int) = 4 from rfl] at this
      rw [this]
      have e : ((mt7530_apply_mapping priv map).port_entries 4).pvid = map.pvids 4 := rfl
      rw [e, p4]
      exact ⟨_, rfl⟩
    · obtain ⟨-, k2⟩ := rf_apply_config_ppbv1 hR (mt7530_apply_mapping priv map) hbus hbase hen
        0 (hb 0) w
      have := rf_get_port_pvid hR (mt7530_apply_mapping priv map) hbus hbase
        (mt7530_apply_config H (mt7530_apply_mapping priv map) w).2 0 val
      rw [k2] at this
      rw [show ((0 : Fin 8).val : Int) = 0 from rfl] at this
      rw [this]
      have e : ((mt7530_apply_mapping priv map).port_entries 0).pvid = map.pvids 0 := rfl
      rw [e, p0]
      exact ⟨_, rfl⟩

end

/-- C12 at concrete inputs: the preset "llllw" on the zeroed plain register
file and on the zeroed chip behind its MDIO front end. -/
theorem apply_config_get_port_pvid_witness :
    priv0.global_vlan_enable = true ∧
    (∀ q : Fin 8, (priv0.port_entries q).pvid < 4096) ∧
    (∃ map, mt7530_find_mapping (some "llllw") = some map ∧
      (∃ w', mt7530_get_port_pvid (regfile_hw 0) (mt7530_apply_mapping priv0 map)
          (mt7530_apply_config (regfile_hw 0) (mt7530_apply_mapping priv0 map)
            regfile_world0).2 4 0
        = some (0, 2, w')) ∧
      (∃ w', mt7530_get_port_pvid mdio_hw
          (mt7530_apply_mapping { priv0 with bus := some 0 } map)
          (mt7530_apply_config mdio_hw (mt7530_apply_mapping { priv0 with bus := some 0 } map)
            mdio_world0).2 0 0
        = some (0, 1, w'))) :=
  ⟨rfl, fun _ => (by decide : (0 : Nat) < 4096),
   _, rfl,
   ((apply_config_get_port_pvid (regfile_transport 0) priv0 rfl rfl rfl
      (fun _ => (by decide : (0 : Nat) < 4096)) regfile_world0 0 0).2.2 _ rfl).1,
   ((apply_config_get_port_pvid (mdio_chip_transport 0 0).regfile { priv0 with bus := some 0 }
      rfl rfl rfl (fun _ => (by decide : (0 : Nat) < 4096)) mdio_world0 0 0).2.2 _ rfl).2⟩

/-! ## The VID-timing registers after `mt7530_apply_config` -/

theorem vtim_field_mod (s x : Nat) : vtim_field s (x % 2 ^ 32) = vtim_field s x := by
  unfold vtim_field
  rw [c_0xfff]
  split
  · apply Nat.eq_of_testBit_eq
    intro i
    simp only [Nat.testBit_and, Nat.testBit_mod_two_pow, Nat.testBit_two_pow_sub_one]
    by_cases hi : i < 12
    · have : i < 32 := by omega
      simp [hi, this]
    · simp [hi]
  · apply Nat.eq_of_testBit_eq
    intro i
    simp only [Nat.testBit_and, Nat.testBit_mod_two_pow, Nat.testBit_shiftRight,
      Nat.testBit_two_pow_sub_one]
    by_cases hi : i < 12
    · have : 12 + i < 32 := by omega
      simp [hi, this]
    · simp [hi]

theorem vtim_field_word_self (s x vid : Nat) (hv : vid < 2 ^ 12) :
    vtim_field s (mt7530_vtim_word s x vid) = vid := by
  unfold vtim_field mt7530_vtim_word
  by_cases h : s % 2 = 0
  · simp only [h, if_true]
    exact (vtim_word_even x vid hv).1
  · simp only [h, if_false]
    exact (vtim_word_odd x vid hv).1

theorem vtim_field_word_other (s a x vid : Nat) (hv : vid < 2 ^ 12) (hpar : s % 2 ≠ a % 2) :
    vtim_field s (mt7530_vtim_word a x vid) = vtim_field s x := by
  unfold vtim_field mt7530_vtim_word
  by_cases h : a % 2 = 0
  · have hs : ¬ s % 2 = 0 := by omega
    simp only [h, hs, if_true, if_false]
    exact (vtim_word_even x vid hv).2
  · have hs : s % 2 = 0 := by omega
    simp only [h, hs, if_true, if_false]
    exact (vtim_word_odd x vid hv).2

theorem vtim_regs :
    ∀ s : Fin 16,
      (∀ i ∈ List.range 8, REG_ESW_PORT_PCR i % 4 = 0 ∧ REG_ESW_PORT_PCR i < 2 ^ 16 ∧
        u32 (REG_ESW_VLAN_VTIM s.val) ≠ REG_ESW_PORT_PCR i) ∧
      (∀ i ∈ List.range 8, REG_ESW_PORT_PVC i % 4 = 0 ∧ REG_ESW_PORT_PVC i < 2 ^ 16 ∧
        u32 (REG_ESW_VLAN_VTIM s.val) ≠ REG_ESW_PORT_PVC i) ∧
      (∀ q : Fin 8, u32 (REG_ESW_VLAN_VTIM s.val) ≠ REG_ESW_PORT_PPBV1 q.val) ∧
      (∀ a : Fin 16, u32 (REG_ESW_VLAN_VTIM s.val) = u32 (REG_ESW_VLAN_VTIM a.val) →
        s ≠ a → s.val % 2 ≠ a.val % 2) := by
  decide

section
variable {σ : Type} {H : Hw σ} {bus : Option Nat} {base : Nat} {view : σ → Nat → Nat}

/-- The field of slot `s` in its VID-timing register after the enabled-mode
loop has run over the slots in `l`. -/
theorem rf_foldl_apply_vlan_field (hR : RegFileTransport H bus base view) (priv : mt7530_priv)
    (hbus : priv.bus = bus) (hbase : priv.base = base)
    (hfit : ∀ i : Fin 16, (priv.vlan_entries i).vid < 4096)
    (s : Fin 16) (l : List (Fin 16)) (w : World σ) (hs : s ∈ l) :
    vtim_field s.val
        (view (l.foldl (mt7530_apply_vlan H priv) w).hw (u32 (REG_ESW_VLAN_VTIM s.val)))
      = (priv.vlan_entries s).vid := by
  have hmod : ∀ i : Fin 16, (priv.vlan_entries i).vid % 2 ^ 16 = (priv.vlan_entries i).vid :=
    fun i => Nat.mod_eq_of_lt (lt_trans (hfit i) (by decide))
  induction l using List.reverseRecOn with
  | nil => simp at hs
  | append_singleton l a ih =>
    rw [List.foldl_append, List.foldl_cons, List.foldl_nil,
      rf_apply_vlan_view hR priv hbus hbase _ a _ (vtim_plain s)]
    by_cases hsa : s = a
    · subst hsa
      simp only [if_true, hmod]
      rw [vtim_field_mod, vtim_field_word_self _ _ _ (hfit s)]
    · have hin : s ∈ l := by simpa [hsa] using hs
      by_cases hreg : u32 (REG_ESW_VLAN_VTIM s.val) = u32 (REG_ESW_VLAN_VTIM a.val)
      · simp only [hreg, if_true, hmod]
        rw [vtim_field_mod, vtim_field_word_other _ _ _ _ (hfit a)
          ((vtim_regs s).2.2.2 a hreg hsa), vtim_field_mod, ← hreg]
        exact ih hin
      · simp only [hreg, if_false]
        exact ih hin

/-- C18: on a register file, for a state whose vids all fit in 12 bits and
VLANs enabled, after one `mt7530_apply_config` the call `mt7530_get_vid`
returns 0 and `vlan_entries[i].vid` for every slot `i` in [0,15], all in the
same hardware state (the write for a slot leaves the field of the slot that
shares its register as it was), and the call changes no register. -/
theorem apply_config_get_vid (hR : RegFileTransport H bus base view)
    (priv : mt7530_priv) (hbus : priv.bus = bus) (hbase : priv.base = base)
    (hen : priv.global_vlan_enable = true)
    (hfit : ∀ i : Fin 16, (priv.vlan_entries i).vid < 4096) (w : World σ) :
    ∀ i : Fin 16,
      (mt7530_get_vid H priv (mt7530_apply_config H priv w).2 (i.val : Int)).1 = 0 ∧
      (mt7530_get_vid H priv (mt7530_apply_config H priv w).2 (i.val : Int)).2.1
        = (priv.vlan_entries i).vid ∧
      view (mt7530_get_vid H priv (mt7530_apply_config H priv w).2 (i.val : Int)).2.2.hw
        = view (mt7530_apply_config H priv w).2.hw := by
  intro i
  obtain ⟨hv4, hv16, -, -, -⟩ := vtim_reg_ok i
  have hfield : vtim_field i.val
      (view (mt7530_apply_config H priv w).2.hw (u32 (REG_ESW_VLAN_VTIM i.val)))
      = (priv.vlan_entries i).vid := by
    unfold mt7530_apply_config
    simp only [hen, not_true_eq_false, if_false]
    rw [rf_foldl_apply_pvid_other hR priv hbus hbase _ _ _ (vtim_plain i) (vtim_regs i).2.2.1]
    exact rf_foldl_apply_vlan_field hR priv hbus hbase hfit i _ _ (List.mem_finRange i)
  refine ⟨rfl, ?_, ?_⟩
  · unfold mt7530_get_vid
    simp only []
    rw [hR.read_val priv _ _ hbus hbase hv4 hv16, ← hfield, ← vtim_field_mod]
    unfold vtim_field
    by_cases hpar : i.val % 2 = 0
    · have : ¬ ((i.val : Int) % 2 ≠ 0) := by omega
      simp only [this, hpar, if_false, if_true]
    · have : (i.val : Int) % 2 ≠ 0 := by omega
      rw [if_pos this, if_neg hpar]
  · unfold mt7530_get_vid
    simp only []
    exact hR.read_hw priv _ _ hbus hbase hv4 hv16

end

/-- C18 at a concrete input: the state after `mt7530_reset_switch` (vid of
slot `i` is `i`) on the zeroed plain register file; the slots 4 and 5, which
share a register, read back 4 and 5. -/
theorem apply_config_get_vid_witness :
    (mt7530_reset_switch priv0).2.global_vlan_enable = true ∧
    (∀ i : Fin 16, ((mt7530_reset_switch priv0).2.vlan_entries i).vid < 4096) ∧
    (mt7530_get_vid (regfile_hw 0) (mt7530_reset_switch priv0).2
        (mt7530_apply_config (regfile_hw 0) (mt7530_reset_switch priv0).2 regfile_world0).2
        ((4 : Fin 16).val : Int)).2.1 = 4 ∧
    (mt7530_get_vid (regfile_hw 0) (mt7530_reset_switch priv0).2
        (mt7530_apply_config (regfile_hw 0) (mt7530_reset_switch priv0).2 regfile_world0).2
        ((5 : Fin 16).val : Int)).2.1 = 5 :=
  ⟨rfl, fun i => (by show i.val < 4096; omega),
   (apply_config_get_vid (regfile_transport 0) (mt7530_reset_switch priv0).2 rfl rfl rfl
      (fun i => (by show i.val < 4096; omega)) regfile_world0 4).2.1,
   (apply_config_get_vid (regfile_transport 0) (mt7530_reset_switch priv0).2 rfl rfl rfl
      (fun i => (by show i.val < 4096; omega)) regfile_world0 5).2.1⟩

section
variable {σ : Type} {H : Hw σ} {bus : Option Nat} {base : Nat} {abs : σ → Chip}

/-! ## Reading the VLAN table back after `mt7530_apply_config` -/

/-- What `mt7530_get_vlan_ports` returns for a slot after an enabled-mode
`mt7530_apply_config` over the chip model, into a buffer whose tagged flags
are clear: return code 0 and, as (id, tagged) records, the ports of the
slot's `member` mask in ascending order with the bits of its `etags` mask. -/
theorem get_vlan_ports_after_apply (hT : ChipTransport H bus base abs) (T : Nat)
    (hT32 : T < 32) (priv : mt7530_priv) (hbus : priv.bus = bus) (hbase : priv.base = base)
    (hen : priv.global_vlan_enable = true) (w : World σ) (slot : Fin 16)
    (buf : Nat → switch_port) (hbuf : ∀ k, (buf k).flags.testBit T = false) :
    (mt7530_get_vlan_ports T H priv (mt7530_apply_config H priv w).2 (slot.val : Int) buf).1
      = 0 ∧
    (mt7530_get_vlan_ports T H priv (mt7530_apply_config H priv w).2 (slot.val : Int)
        buf).2.list.map (switch_port.key T)
      = ((List.range 8).filter (fun i => (priv.vlan_entries slot).member.testBit i)).map
          (fun i => (i, (priv.vlan_entries slot).etags.testBit i)) := by
  have hcam := apply_config_cam hT priv hbus hbase hen w slot
  obtain ⟨w2, hget⟩ := get_vlan_ports_chip hT priv hbus hbase (mt7530_apply_config H priv w).2
    slot buf T
  rw [hcam] at hget
  have hmem := vawd1_word_member
    ⟨(priv.vlan_entries slot).member % 2 ^ 8, Nat.mod_lt _ (by decide)⟩
  have em : (priv.vlan_entries slot).member % 2 ^ 8 % 2 ^ 8
      = (priv.vlan_entries slot).member % 2 ^ 8 := Nat.mod_mod _ _
  simp only [em] at hmem
  simp only [] at hget
  rw [hmem] at hget
  refine ⟨by rw [hget], ?_⟩
  rw [hget]
  simp only []
  rw [get_vlan_ports_fold_spec T hT32 _ _ _ _ (fun k _ => hbuf k)]
  have hnil : (vlan_ports_val.list
      ({ len := 0, ports := buf, world := w2 } : vlan_ports_val σ)) = [] := rfl
  rw [hnil, List.map_nil, List.nil_append]
  have hfilt : (List.range MT7530_NUM_PORTS).filter
        (fun i => ((priv.vlan_entries slot).member % 2 ^ 8).testBit i)
      = (List.range 8).filter (fun i => (priv.vlan_entries slot).member.testBit i) := by
    apply List.filter_congr
    intro i hi
    have hi8 : i < 8 := List.mem_range.1 hi
    rw [Nat.testBit_mod_two_pow]
    simp [hi8]
  rw [hfilt]
  apply List.map_congr_left
  intro i hi
  have hi8 : i < 8 := List.mem_range.1 (List.mem_filter.1 hi).1
  have hfield := etag_word_field
    ⟨(priv.vlan_entries slot).etags % 2 ^ 8, Nat.mod_lt _ (by decide)⟩ ⟨i, hi8⟩
  have ee : (priv.vlan_entries slot).etags % 2 ^ 8 % 2 ^ 8
      = (priv.vlan_entries slot).etags % 2 ^ 8 := Nat.mod_mod _ _
  simp only [ee, Nat.testBit_mod_two_pow, hi8, decide_True, Bool.true_and] at hfield
  have : decide ((mt7530_etag_word ((priv.vlan_entries slot).etags % 2 ^ 8) % 2 ^ 32 % 2 ^ 32)
        >>> (i * 2) &&& 0x3 = 2)
      = (priv.vlan_entries slot).etags.testBit i := by
    rw [Bool.eq_iff_iff, decide_eq_true_eq]
    exact hfield
  rw [this]

/-- C13 (amended): over a transport that implements the chip model (a CAM
write command stores the VAWD1/VAWD2 words in the addressed slot, a CAM read
command loads them back), for every state with VLANs enabled and every slot
in [0,15], after `mt7530_apply_config` the call `mt7530_get_vlan_ports` into a
port buffer whose tagged flags are clear returns 0 and exactly the ports
whose bits (0 to 7) are set in `vlan_entries[slot].member`, in ascending order
of port id, at most 8 records, each tagged exactly when its bit is set in
`vlan_entries[slot].etags`.  With the preset "llllw" applied, slot 1 gives
the ports 0, 1, 2, 3, 5, 6 with only port 6 tagged. -/
theorem apply_config_get_vlan_ports (hT : ChipTransport H bus base abs) (T : Nat)
    (hT32 : T < 32) (priv : mt7530_priv) (hbus : priv.bus = bus) (hbase : priv.base = base)
    (hen : priv.global_vlan_enable = true) (w : World σ) (slot : Fin 16)
    (buf : Nat → switch_port) (hbuf : ∀ k, (buf k).flags.testBit T = false) :
    (mt7530_get_vlan_ports T H priv (mt7530_apply_config H priv w).2 (slot.val : Int) buf).1
      = 0 ∧
    (mt7530_get_vlan_ports T H priv (mt7530_apply_config H priv w).2 (slot.val : Int)
        buf).2.list.map (switch_port.key T)
      = ((List.range 8).filter (fun i => (priv.vlan_entries slot).member.testBit i)).map
          (fun i => (i, (priv.vlan_entries slot).etags.testBit i)) ∧
    ((mt7530_get_vlan_ports T H priv (mt7530_apply_config H priv w).2 (slot.val : Int)
        buf).2.list.map (fun p => p.id)).Pairwise (· < ·) ∧
    (mt7530_get_vlan_ports T H priv (mt7530_apply_config H priv w).2 (slot.val : Int)
        buf).2.list.length ≤ 8 ∧
    (∀ i b,
      (∃ p ∈ (mt7530_get_vlan_ports T H priv (mt7530_apply_config H priv w).2
          (slot.val : Int) buf).2.list, p.id = i ∧ p.flags.testBit T = b)
      ↔ (i < 8 ∧ (priv.vlan_entries slot).member.testBit i = true ∧
          b = (priv.vlan_entries slot).etags.testBit i)) ∧
    (∀ map, mt7530_find_mapping (some "llllw") = some map →
      (mt7530_get_vlan_ports T H (mt7530_apply_mapping priv map)
          (mt7530_apply_config H (mt7530_apply_mapping priv map) w).2 1
          buf).2.list.map (switch_port.key T)
        = [(0, false), (1, false), (2, false), (3, false), (5, false), (6, true)]) := by
  obtain ⟨h0, hkey⟩ := get_vlan_ports_after_apply hT T hT32 priv hbus hbase hen w slot buf hbuf
  refine ⟨h0, hkey, ?_, ?_, ?_, ?_⟩
  · have := congrArg (List.map Prod.fst) hkey
    simp only [List.map_map] at this
    rw [show (Prod.fst ∘ switch_port.key T) = (fun p : switch_port => p.id) from rfl] at this
    rw [this]
    rw [show (Prod.fst ∘ fun i => (i, (priv.vlan_entries slot).etags.testBit i))
      = (id : Nat → Nat) from rfl, List.map_id]
    exact (List.pairwise_lt_range 8).filter _
  · have := congrArg List.length hkey
    simp only [List.length_map] at this
    rw [this]
    exact le_trans (List.length_filter_le _ _) (by simp)
  · intro i b
    have hk : (∃ p ∈ (mt7530_get_vlan_ports T H priv (mt7530_apply_config H priv w).2
          (slot.val : Int) buf).2.list, p.id = i ∧ p.flags.testBit T = b)
        ↔ (i, b) ∈ (mt7530_get_vlan_ports T H priv (mt7530_apply_config H priv w).2
          (slot.val : Int) buf).2.list.map (switch_port.key T) := by
      simp only [List.mem_map, switch_port.key, Prod.mk.injEq]
    rw [hk, hkey]
    simp only [List.mem_map, List.mem_filter, List.mem_range, Prod.mk.injEq]
    constructor
    · rintro ⟨j, ⟨hj8, hjm⟩, hji, hb⟩
      subst hji
      exact ⟨hj8, hjm, hb.symm⟩
    · rintro ⟨hi8, him, hb⟩
      exact ⟨i, ⟨hi8, him⟩, rfl, hb.symm⟩
  · intro map hmap
    obtain ⟨-, -, hm, he⟩ := find_mapping_llllw map hmap
    have := (get_vlan_ports_after_apply hT T hT32 (mt7530_apply_mapping priv map) hbus hbase
      hen w 1 buf hbuf).2
    rw [show ((1 : Fin 16).val : Int) = 1 from rfl] at this
    rw [this]
    have e1 : ((mt7530_apply_mapping priv map).vlan_entries 1).member = map.members 1 := rfl
    have e2 : ((mt7530_apply_mapping priv map).vlan_entries 1).etags = map.etags 1 := rfl
    rw [e1, e2, hm, he]
    decide

end

/-- C13 (counterexample): slot 0 holds port 0 untagged (`member` 1, `etags`
0); after `mt7530_apply_config` over the zeroed chip, `mt7530_get_vlan_ports`
of slot 0 into a buffer whose records still carry the tagged flag returns
port 0 with the tagged flag set, although bit 0 of `etags` is clear: the
driver ORs the flag into the record and never clears it. -/
theorem get_vlan_ports_keeps_stale_flag :
    ((mt7530_set_vlan_ports 2 priv0 0 [⟨0, 0⟩]).2.vlan_entries 0).member = 1 ∧
    ((mt7530_set_vlan_ports 2 priv0 0 [⟨0, 0⟩]).2.vlan_entries 0).etags = 0 ∧
    (mt7530_get_vlan_ports 2 (mmio_hw 0) (mt7530_set_vlan_ports 2 priv0 0 [⟨0, 0⟩]).2
        (mt7530_apply_config (mmio_hw 0) (mt7530_set_vlan_ports 2 priv0 0 [⟨0, 0⟩]).2
          chip_world0).2 0 ports_stale).1 = 0 ∧
    (mt7530_get_vlan_ports 2 (mmio_hw 0) (mt7530_set_vlan_ports 2 priv0 0 [⟨0, 0⟩]).2
        (mt7530_apply_config (mmio_hw 0) (mt7530_set_vlan_ports 2 priv0 0 [⟨0, 0⟩]).2
          chip_world0).2 0 ports_stale).2.list.map (switch_port.key 2) = [(0, true)] ∧
    (mt7530_get_vlan_ports 2 (mmio_hw 0) (mt7530_set_vlan_ports 2 priv0 0 [⟨0, 0⟩]).2
        (mt7530_apply_config (mmio_hw 0) (mt7530_set_vlan_ports 2 priv0 0 [⟨0, 0⟩]).2
          chip_world0).2 0 ports_stale).2.list.map (switch_port.key 2)
      ≠ ((List.range 8).filter (fun i =>
            ((mt7530_set_vlan_ports 2 priv0 0 [⟨0, 0⟩]).2.vlan_entries 0).member.testBit i)).map
          (fun i => (i,
            ((mt7530_set_vlan_ports 2 priv0 0 [⟨0, 0⟩]).2.vlan_entries 0).etags.testBit i)) := by
  decide

/-- C13 (amended) at concrete inputs: the preset "llllw" over the zeroed chip,
memory-mapped and behind the MDIO front end, read into a zeroed buffer. -/
theorem apply_config_get_vlan_ports_witness :
    (2 : Nat) < 32 ∧ priv0.global_vlan_enable = true ∧
    (∀ k, (ports0 k).flags.testBit 2 = false) ∧
    (∃ map, mt7530_find_mapping (some "llllw") = some map ∧
      (mt7530_get_vlan_ports 2 (mmio_hw 0) (mt7530_apply_mapping priv0 map)
          (mt7530_apply_config (mmio_hw 0) (mt7530_apply_mapping priv0 map) chip_world0).2 1
          ports0).2.list.map (switch_port.key 2)
        = [(0, false), (1, false), (2, false), (3, false), (5, false), (6, true)] ∧
      (mt7530_get_vlan_ports 2 mdio_hw (mt7530_apply_mapping { priv0 with bus := some 0 } map)
          (mt7530_apply_config mdio_hw (mt7530_apply_mapping { priv0 with bus := some 0 } map)
            mdio_world0).2 1
          ports0).2.list.map (switch_port.key 2)
        = [(0, false), (1, false), (2, false), (3, false), (5, false), (6, true)]) :=
  ⟨by decide, rfl, fun _ => Nat.zero_testBit 2, _, rfl,
   (apply_config_get_vlan_ports (mmio_chip_transport 0) 2 (by decide) priv0 rfl rfl rfl
      chip_world0 1 ports0 (fun _ => Nat.zero_testBit 2)).2.2.2.2.2 _ rfl,
   (apply_config_get_vlan_ports (mdio_chip_transport 0 0) 2 (by decide)
      { priv0 with bus := some 0 } rfl rfl rfl
      mdio_world0 1 ports0 (fun _ => Nat.zero_testBit 2)).2.2.2.2.2 _ rfl⟩

/-- C15 at a concrete input: six staged calls on the zeroed state over the
zeroed chip leave the world as it was. -/
theorem staged_calls_leave_hardware_witness :
    (∀ c ∈ staged_calls, c.staged = true) ∧
    (∀ port pvid, Call.set_port_pvid port pvid ∈ staged_calls → 0 ≤ port) ∧
    ∃ s', run 2 (mmio_hw 0) staged_calls (priv0, chip_world0) = some s' ∧
      s'.2 = chip_world0 :=
  ⟨by decide,
   fun port pvid h => by
     simp only [staged_calls, List.mem_cons, List.mem_singleton, List.not_mem_nil, or_false,
       Call.set_port_pvid.injEq] at h
     simp at h
     omega,
   (staged_calls_leave_hardware 2 (mmio_hw 0) staged_calls (by decide)
      (priv0, chip_world0)).2.1
      (fun port pvid h => by
        simp only [staged_calls, List.mem_cons, List.mem_singleton, List.not_mem_nil, or_false,
          Call.set_port_pvid.injEq] at h
        simp at h
        omega)⟩

/-- C19 at a concrete input: a preset, accepted and rejected setters and two
synchronisations from the attach state; the bound 4095 is reached. -/
theorem reachable_vids_fit_witness :
    ∃ s', run 2 (mmio_hw 0) mixed_calls (mt7530_probe_alloc 0 none 1, chip_world0) = some s' ∧
      (s'.1.vlan_entries 3).vid = 4095 ∧ (s'.1.port_entries 2).pvid = 4095 ∧
      (∀ i : Fin 16, (s'.1.vlan_entries i).vid < 4096) ∧
      (∀ p : Fin 8, (s'.1.port_entries p).pvid < 4096) :=
  ⟨_, rfl, by decide, by decide,
   (reachable_vids_fit 2 (mmio_hw 0) 0 none 1 chip_world0 mixed_calls _ rfl).1,
   (reachable_vids_fit 2 (mmio_hw 0) 0 none 1 chip_world0 mixed_calls _ rfl).2.1⟩

end MT7530
